import Mathlib

/-!
# g2chip: a verification development of the interpreter core

Shallow embedding of `src/src/g2chip.c` and `src/src/g2chip.h`.

* Machine integers are natural numbers; every place where the C code can wrap
  (`uint8_t`, `uint16_t`, `uint32_t` arithmetic) carries an explicit `% 2^w`.
* The C arrays (`memory`, `display`, `V`, `stack`) are functions `Nat → Nat`;
  every array access whose index is computed at run time is guarded and the
  function returns `none` when the index is outside the array (the C code has
  undefined behaviour there).
* The host callbacks of `g2chip_config_t` are function pointers that may be
  null: the configuration records which ones are present.  What the
  value-returning callbacks answer during one API call is an input of that
  call (`host_answers`); the calls made to the `void` callbacks are appended
  to the field `host_calls`, which is a record of the interaction and not a
  field of the C structure.
-/

namespace G2chip

set_option linter.unusedTactic false
set_option linter.unreachableTactic false

/-! ## Constants (g2chip.h, g2chip.c) -/

@[simp] abbrev G2CHIP_MEMORY_SIZE : Nat := 4096
@[simp] abbrev G2CHIP_DISPLAY_WIDTH : Nat := 64
@[simp] abbrev G2CHIP_DISPLAY_HEIGHT : Nat := 32
@[simp] abbrev G2CHIP_REGISTER_COUNT : Nat := 16
@[simp] abbrev G2CHIP_STACK_SIZE : Nat := 16
@[simp] abbrev G2CHIP_PROGRAM_START_ADDRESS : Nat := 0x200
@[simp] abbrev G2CHIP_MAX_ROM_SIZE : Nat := G2CHIP_MEMORY_SIZE - G2CHIP_PROGRAM_START_ADDRESS
@[simp] abbrev G2CHIP_REGISTER_INDEX_LAST : Nat := G2CHIP_REGISTER_COUNT - 1
@[simp] abbrev G2CHIP_FONT_START_ADDRESS : Nat := 0x50
@[simp] abbrev G2CHIP_FONT_SIZE : Nat := 16 * 5

/-! ## Data model -/

/-- Which callbacks of `g2chip_config_t` are non-null. -/
structure g2chip_config where
  get_time_ms : Bool
  display_clear : Bool
  display_draw_pixel : Bool
  display_refresh : Bool
  key_is_pressed : Bool
  key_wait_press : Bool
  sound_beep_start : Bool
  sound_beep_stop : Bool
  get_random_byte : Bool
  debug_log : Bool
deriving DecidableEq, Repr

/-- One call of a `void` host callback, with its arguments (the text passed to
`debug_log` is not modelled). -/
inductive host_call where
  | display_clear
  | display_draw_pixel (x y state : Nat)
  | display_refresh
  | sound_beep_start
  | sound_beep_stop
  | debug_log
deriving DecidableEq, Repr

/-- The values the host's value-returning callbacks give during one API call
(each of them is called at most once per call of `g2chip_reset` or
`g2chip_step`). -/
structure host_answers where
  get_time_ms : Nat
  key_is_pressed : Nat → Nat
  key_wait_press : Nat
  get_random_byte : Nat

/-- The machine: `struct g2chip`, plus the record of host notifications. -/
structure g2chip where
  config : g2chip_config
  memory : Nat → Nat
  display : Nat → Nat
  V : Nat → Nat
  stack : Nat → Nat
  last_time_ms : Nat
  I : Nat
  pc : Nat
  delay_timer : Nat
  sound_timer : Nat
  sp : Nat
  host_calls : List host_call

/-- The decoded instruction: `struct g2chip_instruction`. -/
structure g2chip_instruction where
  raw : Nat
  opcode : Nat
  x : Nat
  y : Nat
  n : Nat
  nn : Nat
  nnn : Nat
deriving DecidableEq, Repr

/-- Array store `a[i] = v`. -/
def upd (a : Nat → Nat) (i v : Nat) : Nat → Nat :=
  fun j => if j = i then v else a j

/-- Record one call of a `void` host callback. -/
def notify (chip : g2chip) (c : host_call) : g2chip :=
  { chip with host_calls := chip.host_calls ++ [c] }

/-- The built-in font: `g2chip_font_data`. -/
def g2chip_font_data : List Nat :=
  [0xF0, 0x90, 0x90, 0x90, 0xF0,
   0x20, 0x60, 0x20, 0x20, 0x70,
   0xF0, 0x10, 0xF0, 0x80, 0xF0,
   0xF0, 0x10, 0xF0, 0x10, 0xF0,
   0x90, 0x90, 0xF0, 0x10, 0x10,
   0xF0, 0x80, 0xF0, 0x10, 0xF0,
   0xF0, 0x80, 0xF0, 0x90, 0xF0,
   0xF0, 0x10, 0x20, 0x40, 0x40,
   0xF0, 0x90, 0xF0, 0x90, 0xF0,
   0xF0, 0x90, 0xF0, 0x10, 0xF0,
   0xF0, 0x90, 0xF0, 0x90, 0x90,
   0xE0, 0x90, 0xE0, 0x90, 0xE0,
   0xF0, 0x80, 0x80, 0x80, 0xF0,
   0xE0, 0x90, 0x90, 0x90, 0xE0,
   0xF0, 0x80, 0xF0, 0x80, 0xF0,
   0xF0, 0x80, 0xF0, 0x80, 0x80]

/-! ## Loading and reset -/

/-- The copy loop of `g2chip_load_rom` after its first `k` iterations
(`i = 0 .. k-1`), on the memory array.  The image is the caller's buffer, of at
least `size` bytes by the contract of the function; the stores stay inside the
memory because `size ≤ G2CHIP_MAX_ROM_SIZE` is checked before the loop. -/
def load_rom_loop (rom_data : List Nat) : Nat → (Nat → Nat) → (Nat → Nat)
  | 0, memory => memory
  | k + 1, memory =>
      upd (load_rom_loop rom_data k memory) (G2CHIP_PROGRAM_START_ADDRESS + k)
        (rom_data.getD k 0)

/-- The function `g2chip_load_rom`: the return code and the machine afterwards.
`rom_data = none` is the null pointer; the machine pointer is non-null. -/
def g2chip_load_rom (chip : g2chip) (rom_data : Option (List Nat)) (size : Nat) :
    Int × g2chip :=
  match rom_data with
  | none => (-1, chip)
  | some data =>
      if size = 0 ∨ size > G2CHIP_MAX_ROM_SIZE then (-1, chip)
      else (0, { chip with memory := load_rom_loop data size chip.memory })

/-- The loop of `load_font_data` after its first `k` iterations. -/
def load_font_loop : Nat → (Nat → Nat) → (Nat → Nat)
  | 0, memory => memory
  | k + 1, memory =>
      upd (load_font_loop k memory) (G2CHIP_FONT_START_ADDRESS + k)
        (g2chip_font_data.getD k 0)

/-- The function `load_font_data`. -/
def load_font_data (chip : g2chip) : g2chip :=
  { chip with memory := load_font_loop G2CHIP_FONT_SIZE chip.memory }

/-- The function `g2chip_reset` (on a non-null machine). -/
def g2chip_reset (chip : g2chip) (host : host_answers) : g2chip :=
  let chip := { chip with memory := fun _ => 0 }
  let chip := load_font_data chip
  let chip := { chip with V := fun _ => 0 }
  let chip := { chip with stack := fun _ => 0 }
  let chip := { chip with I := 0 }
  let chip := { chip with pc := G2CHIP_PROGRAM_START_ADDRESS }
  let chip := { chip with sp := 0 }
  let chip := { chip with display := fun _ => 0 }
  let chip := if chip.config.display_clear then notify chip host_call.display_clear else chip
  let chip := { chip with delay_timer := 0 }
  let chip := { chip with sound_timer := 0 }
  if chip.config.get_time_ms then { chip with last_time_ms := host.get_time_ms }
  else { chip with last_time_ms := 0 }

/-- The all-zero machine that `calloc` returns, with the configuration copied
in. -/
def calloc_chip (cfg : g2chip_config) : g2chip :=
  { config := cfg, memory := fun _ => 0, display := fun _ => 0, V := fun _ => 0,
    stack := fun _ => 0, last_time_ms := 0, I := 0, pc := 0, delay_timer := 0,
    sound_timer := 0, sp := 0, host_calls := [] }

/-- The function `g2chip_create`: `calloc` gives an all-zero structure, the
configuration is copied in and the machine is reset.  `config = none` is the
null pointer. -/
def g2chip_create (config : Option g2chip_config) (host : host_answers) : Option g2chip :=
  match config with
  | none => none
  | some cfg => some (g2chip_reset (calloc_chip cfg) host)

/-! ## Guarded array accesses -/

/-- Read `chip->memory[a]`. -/
def mem_get (chip : g2chip) (a : Nat) : Option Nat :=
  if a < G2CHIP_MEMORY_SIZE then some (chip.memory a) else none

/-- Store `chip->memory[a] = v`. -/
def mem_set (chip : g2chip) (a v : Nat) : Option g2chip :=
  if a < G2CHIP_MEMORY_SIZE then some { chip with memory := upd chip.memory a v } else none

/-- Read `chip->V[i]`. -/
def V_get (chip : g2chip) (i : Nat) : Option Nat :=
  if i < G2CHIP_REGISTER_COUNT then some (chip.V i) else none

/-- Store `chip->V[i] = v`. -/
def V_set (chip : g2chip) (i v : Nat) : Option g2chip :=
  if i < G2CHIP_REGISTER_COUNT then some { chip with V := upd chip.V i v } else none

/-- Read `chip->stack[i]`. -/
def stack_get (chip : g2chip) (i : Nat) : Option Nat :=
  if i < G2CHIP_STACK_SIZE then some (chip.stack i) else none

/-- Store `chip->stack[i] = v`. -/
def stack_set (chip : g2chip) (i v : Nat) : Option g2chip :=
  if i < G2CHIP_STACK_SIZE then some { chip with stack := upd chip.stack i v } else none

/-- Read `chip->display[i]`. -/
def display_get (chip : g2chip) (i : Nat) : Option Nat :=
  if i < G2CHIP_DISPLAY_WIDTH * G2CHIP_DISPLAY_HEIGHT then some (chip.display i) else none

/-- Store `chip->display[i] = v`. -/
def display_set (chip : g2chip) (i v : Nat) : Option g2chip :=
  if i < G2CHIP_DISPLAY_WIDTH * G2CHIP_DISPLAY_HEIGHT then
    some { chip with display := upd chip.display i v }
  else none

/-- Store into the flag register, `chip->V[G2CHIP_REGISTER_INDEX_LAST] = v`
(a constant index, inside the array). -/
def V_set_last (chip : g2chip) (v : Nat) : g2chip :=
  { chip with V := upd chip.V G2CHIP_REGISTER_INDEX_LAST v }

/-! ## Timers -/

/-- The function `update_timers`. -/
def update_timers (chip : g2chip) (host : host_answers) : g2chip :=
  if chip.config.get_time_ms = false then chip
  else
    let current_time := host.get_time_ms
    let elapsed := (current_time + 2 ^ 32 - chip.last_time_ms) % 2 ^ 32
    if elapsed ≥ 16 then
      let chip :=
        if chip.delay_timer > 0 then { chip with delay_timer := chip.delay_timer - 1 } else chip
      let chip :=
        if chip.sound_timer > 0 then
          let chip := { chip with sound_timer := chip.sound_timer - 1 }
          if chip.sound_timer = 0 ∧ chip.config.sound_beep_stop = true then
            notify chip host_call.sound_beep_stop
          else chip
        else if chip.sound_timer > 0 ∧ chip.config.sound_beep_start = true then
          notify chip host_call.sound_beep_start
        else chip
      { chip with last_time_ms := current_time }
    else chip

/-! ## Instruction helpers -/

/-- The function `instruction_clear_display`. -/
def instruction_clear_display (chip : g2chip) : g2chip :=
  let chip := { chip with display := fun _ => 0 }
  if chip.config.display_clear then notify chip host_call.display_clear else chip

/-- The function `instruction_return_from_subroutine`. -/
def instruction_return_from_subroutine (chip : g2chip) : Option g2chip :=
  if chip.sp = 0 then
    some (if chip.config.debug_log then notify chip host_call.debug_log else chip)
  else do
    let chip := { chip with sp := chip.sp - 1 }
    let a ← stack_get chip chip.sp
    pure { chip with pc := a }

/-- The function `instruction_jump_to_address`. -/
def instruction_jump_to_address (chip : g2chip) (address : Nat) : g2chip :=
  { chip with pc := address }

/-- The body of the inner loop of `draw_sprite` for a set sprite bit. -/
def draw_sprite_pixel (chip : g2chip) (x y row col : Nat) : Option g2chip := do
  let px := (x + col) % G2CHIP_DISPLAY_WIDTH
  let py := (y + row) % G2CHIP_DISPLAY_HEIGHT
  let index := py * G2CHIP_DISPLAY_WIDTH + px
  let d ← display_get chip index
  let chip := if d = 1 then V_set_last chip 1 else chip
  let chip ← display_set chip index (d ^^^ 1)
  pure (if chip.config.display_draw_pixel then
      notify chip (host_call.display_draw_pixel px py (chip.display index))
    else chip)

/-- The inner loop of `draw_sprite` after its first `k` iterations
(`col = 0 .. k-1`). -/
def draw_sprite_cols (x y row sprite_byte : Nat) : Nat → g2chip → Option g2chip
  | 0, chip => some chip
  | col + 1, chip => do
      let chip ← draw_sprite_cols x y row sprite_byte col chip
      if sprite_byte &&& (0x80 >>> col) ≠ 0 then draw_sprite_pixel chip x y row col
      else pure chip

/-- The outer loop of `draw_sprite` after its first `k` iterations
(`row = 0 .. k-1`). -/
def draw_sprite_rows (x y : Nat) : Nat → g2chip → Option g2chip
  | 0, chip => some chip
  | row + 1, chip => do
      let chip ← draw_sprite_rows x y row chip
      let sprite_byte ← mem_get chip (chip.I + row)
      draw_sprite_cols x y row sprite_byte 8 chip

/-- The function `draw_sprite`. -/
def draw_sprite (chip : g2chip) (x y height : Nat) : Option g2chip := do
  let chip := V_set_last chip 0
  let chip ← draw_sprite_rows x y height chip
  pure (if chip.config.display_refresh then notify chip host_call.display_refresh else chip)

/-- The bit fields of an instruction word, as `fetch_instruction` computes
them. -/
def decode (raw : Nat) : g2chip_instruction :=
  { raw := raw
    opcode := (raw &&& 0xF000) >>> 12
    x := ((raw &&& 0x0F00) >>> 8) % 256
    y := ((raw &&& 0x00F0) >>> 4) % 256
    n := (raw &&& 0x000F) % 256
    nn := (raw &&& 0x00FF) % 256
    nnn := raw &&& 0x0FFF }

/-- The function `fetch_instruction`. -/
def fetch_instruction (chip : g2chip) : Option g2chip_instruction := do
  let hi ← mem_get chip chip.pc
  let lo ← mem_get chip (chip.pc + 1)
  pure (decode (((hi <<< 8) ||| lo) % 65536))

/-- The function `instruction_not_implemented`. -/
def instruction_not_implemented (chip : g2chip) (_instr : g2chip_instruction) : g2chip :=
  if chip.config.debug_log then notify chip host_call.debug_log else chip

/-! ## Instruction handlers -/

/-- The function `instruction_handler_opcode_0`. -/
def instruction_handler_opcode_0 (chip : g2chip) (instr : g2chip_instruction) : Option g2chip :=
  if instr.nnn = 0x0E0 then some (instruction_clear_display chip)
  else if instr.nnn = 0x0EE then instruction_return_from_subroutine chip
  else some (instruction_not_implemented chip instr)

/-- The function `instruction_handler_opcode_1`. -/
def instruction_handler_opcode_1 (chip : g2chip) (instr : g2chip_instruction) : Option g2chip :=
  some (instruction_jump_to_address chip instr.nnn)

/-- The function `instruction_handler_opcode_2`. -/
def instruction_handler_opcode_2 (chip : g2chip) (instr : g2chip_instruction) : Option g2chip := do
  let chip ← stack_set chip chip.sp chip.pc
  let chip := { chip with sp := (chip.sp + 1) % 256 }
  pure (instruction_jump_to_address chip instr.nnn)

/-- The function `instruction_handler_opcode_3`. -/
def instruction_handler_opcode_3 (chip : g2chip) (instr : g2chip_instruction) : Option g2chip := do
  let vx ← V_get chip instr.x
  pure (if vx = instr.nn then { chip with pc := (chip.pc + 2) % 65536 } else chip)

/-- The function `instruction_handler_opcode_4`. -/
def instruction_handler_opcode_4 (chip : g2chip) (instr : g2chip_instruction) : Option g2chip := do
  let vx ← V_get chip instr.x
  pure (if vx ≠ instr.nn then { chip with pc := (chip.pc + 2) % 65536 } else chip)

/-- The function `instruction_handler_opcode_5`. -/
def instruction_handler_opcode_5 (chip : g2chip) (instr : g2chip_instruction) : Option g2chip := do
  let vx ← V_get chip instr.x
  let vy ← V_get chip instr.y
  pure (if vx = vy then { chip with pc := (chip.pc + 2) % 65536 } else chip)

/-- The function `instruction_handler_opcode_6`. -/
def instruction_handler_opcode_6 (chip : g2chip) (instr : g2chip_instruction) : Option g2chip :=
  V_set chip instr.x instr.nn

/-- The function `instruction_handler_opcode_7`. -/
def instruction_handler_opcode_7 (chip : g2chip) (instr : g2chip_instruction) : Option g2chip := do
  let vx ← V_get chip instr.x
  V_set chip instr.x ((vx + instr.nn) % 256)

/-- The function `instruction_handler_opcode_8`.  Each `case` evaluates its
statements in the order of the source: where the flag register is stored
first, the operands of the following statement are read after that store. -/
def instruction_handler_opcode_8 (chip : g2chip) (instruction : g2chip_instruction) :
    Option g2chip :=
  if instruction.n = 0x0 then do
    let vy ← V_get chip instruction.y
    V_set chip instruction.x vy
  else if instruction.n = 0x1 then do
    let vx ← V_get chip instruction.x
    let vy ← V_get chip instruction.y
    V_set chip instruction.x (vx ||| vy)
  else if instruction.n = 0x2 then do
    let vx ← V_get chip instruction.x
    let vy ← V_get chip instruction.y
    V_set chip instruction.x (vx &&& vy)
  else if instruction.n = 0x3 then do
    let vx ← V_get chip instruction.x
    let vy ← V_get chip instruction.y
    V_set chip instruction.x (vx ^^^ vy)
  else if instruction.n = 0x4 then do
    let vx ← V_get chip instruction.x
    let vy ← V_get chip instruction.y
    let sum := (vx + vy) % 65536
    let chip := V_set_last chip (if sum > 0xFF then 1 else 0)
    V_set chip instruction.x (sum &&& 0xFF)
  else if instruction.n = 0x5 then do
    let vx ← V_get chip instruction.x
    let vy ← V_get chip instruction.y
    let chip := V_set_last chip (if vx > vy then 1 else 0)
    let vx ← V_get chip instruction.x
    let vy ← V_get chip instruction.y
    V_set chip instruction.x ((vx + 256 - vy) % 256)
  else if instruction.n = 0x6 then do
    let vx ← V_get chip instruction.x
    let chip := V_set_last chip (vx &&& 0x1)
    let vx ← V_get chip instruction.x
    V_set chip instruction.x (vx >>> 1)
  else if instruction.n = 0x7 then do
    let vy ← V_get chip instruction.y
    let vx ← V_get chip instruction.x
    let chip := V_set_last chip (if vy > vx then 1 else 0)
    let vy ← V_get chip instruction.y
    let vx ← V_get chip instruction.x
    V_set chip instruction.x ((vy + 256 - vx) % 256)
  else if instruction.n = 0xE then do
    let vx ← V_get chip instruction.x
    let chip := V_set_last chip ((vx &&& 0x80) >>> 7)
    let vx ← V_get chip instruction.x
    V_set chip instruction.x ((vx <<< 1) % 256)
  else some (instruction_not_implemented chip instruction)

/-- The function `instruction_handler_opcode_9`. -/
def instruction_handler_opcode_9 (chip : g2chip) (instr : g2chip_instruction) : Option g2chip := do
  let vx ← V_get chip instr.x
  let vy ← V_get chip instr.y
  pure (if vx ≠ vy then { chip with pc := (chip.pc + 2) % 65536 } else chip)

/-- The function `instruction_handler_opcode_A`. -/
def instruction_handler_opcode_A (chip : g2chip) (instr : g2chip_instruction) : Option g2chip :=
  some { chip with I := instr.nnn }

/-- The function `instruction_handler_opcode_B`. -/
def instruction_handler_opcode_B (chip : g2chip) (instr : g2chip_instruction) : Option g2chip :=
  some { chip with pc := (instr.nnn + chip.V 0) % 65536 }

/-- The function `instruction_handler_opcode_C`. -/
def instruction_handler_opcode_C (chip : g2chip) (instr : g2chip_instruction)
    (host : host_answers) : Option g2chip :=
  if chip.config.get_random_byte = false then
    some (if chip.config.debug_log then notify chip host_call.debug_log else chip)
  else
    let rand_byte := host.get_random_byte
    V_set chip instr.x (rand_byte &&& instr.nn)

/-- The function `instruction_handler_opcode_D`. -/
def instruction_handler_opcode_D (chip : g2chip) (instr : g2chip_instruction) : Option g2chip := do
  let vx ← V_get chip instr.x
  let vy ← V_get chip instr.y
  draw_sprite chip vx vy instr.n

/-- The function `instruction_handler_opcode_E`.  A key is looked up only when
the callback is present (`&&` evaluates its right operand only then). -/
def instruction_handler_opcode_E (chip : g2chip) (instr : g2chip_instruction)
    (host : host_answers) : Option g2chip :=
  if instr.nn = 0x9E then
    if chip.config.key_is_pressed = true then do
      let vx ← V_get chip instr.x
      pure (if host.key_is_pressed vx ≠ 0 then { chip with pc := (chip.pc + 2) % 65536 }
        else chip)
    else some chip
  else if instr.nn = 0xA1 then
    if chip.config.key_is_pressed = true then do
      let vx ← V_get chip instr.x
      pure (if host.key_is_pressed vx = 0 then { chip with pc := (chip.pc + 2) % 65536 }
        else chip)
    else some chip
  else some (instruction_not_implemented chip instr)

/-- The loop of case `0x55` of `instruction_handler_opcode_F` after its first
`k` iterations (`i = 0 .. k-1`). -/
def opcode_F_store_loop : Nat → g2chip → Option g2chip
  | 0, chip => some chip
  | i + 1, chip => do
      let chip ← opcode_F_store_loop i chip
      let v ← V_get chip i
      mem_set chip (chip.I + i) v

/-- The loop of case `0x65` of `instruction_handler_opcode_F` after its first
`k` iterations (`i = 0 .. k-1`). -/
def opcode_F_load_loop : Nat → g2chip → Option g2chip
  | 0, chip => some chip
  | i + 1, chip => do
      let chip ← opcode_F_load_loop i chip
      let v ← mem_get chip (chip.I + i)
      V_set chip i v

/-- The function `instruction_handler_opcode_F`.  The loops of cases `0x55` and
`0x65` run for `i = 0 .. x`, that is `x + 1` times. -/
def instruction_handler_opcode_F (chip : g2chip) (instr : g2chip_instruction)
    (host : host_answers) : Option g2chip :=
  if instr.nn = 0x07 then V_set chip instr.x chip.delay_timer
  else if instr.nn = 0x0A then
    if chip.config.key_wait_press = true then V_set chip instr.x host.key_wait_press
    else some chip
  else if instr.nn = 0x15 then do
    let vx ← V_get chip instr.x
    pure { chip with delay_timer := vx }
  else if instr.nn = 0x18 then do
    let vx ← V_get chip instr.x
    let chip := { chip with sound_timer := vx }
    let vx ← V_get chip instr.x
    pure (if vx > 0 ∧ chip.config.sound_beep_start = true then
        notify chip host_call.sound_beep_start
      else chip)
  else if instr.nn = 0x1E then do
    let vx ← V_get chip instr.x
    pure { chip with I := (chip.I + vx) % 65536 }
  else if instr.nn = 0x29 then do
    let vx ← V_get chip instr.x
    if vx ≤ 0xF then
      pure { chip with I := (G2CHIP_FONT_START_ADDRESS + vx * 5) % 65536 }
    else
      pure (if chip.config.debug_log then notify chip host_call.debug_log else chip)
  else if instr.nn = 0x33 then do
    let vx ← V_get chip instr.x
    let chip ← mem_set chip chip.I (vx / 100)
    let vx ← V_get chip instr.x
    let chip ← mem_set chip (chip.I + 1) ((vx / 10) % 10)
    let vx ← V_get chip instr.x
    mem_set chip (chip.I + 2) (vx % 10)
  else if instr.nn = 0x55 then opcode_F_store_loop (instr.x + 1) chip
  else if instr.nn = 0x65 then opcode_F_load_loop (instr.x + 1) chip
  else some (instruction_not_implemented chip instr)

/-! ## The step -/

/-- The dispatch table `instruction_handlers`, indexed by the opcode class; an
index outside the table is `none`. -/
def instruction_handlers (opcode : Nat) :
    Option (g2chip → g2chip_instruction → host_answers → Option g2chip) :=
  if opcode = 0 then some (fun chip instr _ => instruction_handler_opcode_0 chip instr)
  else if opcode = 1 then some (fun chip instr _ => instruction_handler_opcode_1 chip instr)
  else if opcode = 2 then some (fun chip instr _ => instruction_handler_opcode_2 chip instr)
  else if opcode = 3 then some (fun chip instr _ => instruction_handler_opcode_3 chip instr)
  else if opcode = 4 then some (fun chip instr _ => instruction_handler_opcode_4 chip instr)
  else if opcode = 5 then some (fun chip instr _ => instruction_handler_opcode_5 chip instr)
  else if opcode = 6 then some (fun chip instr _ => instruction_handler_opcode_6 chip instr)
  else if opcode = 7 then some (fun chip instr _ => instruction_handler_opcode_7 chip instr)
  else if opcode = 8 then some (fun chip instr _ => instruction_handler_opcode_8 chip instr)
  else if opcode = 9 then some (fun chip instr _ => instruction_handler_opcode_9 chip instr)
  else if opcode = 10 then some (fun chip instr _ => instruction_handler_opcode_A chip instr)
  else if opcode = 11 then some (fun chip instr _ => instruction_handler_opcode_B chip instr)
  else if opcode = 12 then some instruction_handler_opcode_C
  else if opcode = 13 then some (fun chip instr _ => instruction_handler_opcode_D chip instr)
  else if opcode = 14 then some instruction_handler_opcode_E
  else if opcode = 15 then some instruction_handler_opcode_F
  else none

/-- The function `execute_step`. -/
def execute_step (chip : g2chip) (host : host_answers) : Option g2chip := do
  let instruction ← fetch_instruction chip
  let chip := { chip with pc := (chip.pc + 2) % 65536 }
  let handler ← instruction_handlers instruction.opcode
  handler chip instruction host

/-- The function `g2chip_step` (on a non-null machine). -/
def g2chip_step (chip : g2chip) (host : host_answers) : Option g2chip :=
  let chip := update_timers chip host
  execute_step chip host

/-- The machine after `g2chip_step` has been called once for each element of
`hosts`, in order; `none` when one of the steps leaves an array. -/
def run_steps : List host_answers → g2chip → Option g2chip
  | [], chip => some chip
  | host :: hosts, chip => (g2chip_step chip host).bind (run_steps hosts)

/-! ## Reachable machines and postconditions -/

/-- The machines the API can produce: `g2chip_reset` (which `g2chip_create`
ends with) on any machine, then any sequence of `g2chip_load_rom` and of
`g2chip_step` calls that stay inside the arrays. -/
inductive reachable : g2chip → Prop
  | reset (chip : g2chip) (host : host_answers) : reachable (g2chip_reset chip host)
  | load_rom (chip : g2chip) (rom_data : Option (List Nat)) (size : Nat) :
      reachable chip → reachable (g2chip_load_rom chip rom_data size).2
  | step (chip s : g2chip) (host : host_answers) :
      reachable chip → g2chip_step chip host = some s → reachable s

/-- Postcondition of a guarded computation: every machine it returns
satisfies `P`. -/
def ensures (P : g2chip → Prop) (o : Option g2chip) : Prop :=
  ∀ s, o = some s → P s

/-! ## Concrete machines used in the examples -/

/-- A configuration with every callback null. -/
def no_callbacks : g2chip_config :=
  { get_time_ms := false, display_clear := false, display_draw_pixel := false,
    display_refresh := false, key_is_pressed := false, key_wait_press := false,
    sound_beep_start := false, sound_beep_stop := false, get_random_byte := false,
    debug_log := false }

/-- A host whose callbacks all answer zero. -/
def quiet_host : host_answers :=
  { get_time_ms := 0, key_is_pressed := fun _ => 0, key_wait_press := 0, get_random_byte := 0 }

/-- The all-zero machine with registers `V0 = v0`, `V1 = v1` and `V15 = vf`. -/
def chip_with_registers (v0 v1 vf : Nat) : g2chip :=
  { calloc_chip no_callbacks with V := upd (upd (upd (fun _ => 0) 0 v0) 1 v1) 15 vf }

/-- A reset machine loaded with the program `2204 0000 00EE`: a call to
`0x204`, where a return stands. -/
def call_return_chip : g2chip :=
  (g2chip_load_rom (g2chip_reset (calloc_chip no_callbacks) quiet_host)
    (some [0x22, 0x04, 0x00, 0x00, 0x00, 0xEE]) 6).2

/-- A reset machine loaded with the program `2200`: a call to itself. -/
def call_loop_chip : g2chip :=
  (g2chip_load_rom (g2chip_reset (calloc_chip no_callbacks) quiet_host) (some [0x22, 0x00]) 2).2

/-- A reset machine loaded with the program `00EE`: a return on an empty
stack. -/
def ret_underflow_chip : g2chip :=
  (g2chip_load_rom (g2chip_reset (calloc_chip no_callbacks) quiet_host) (some [0x00, 0xEE]) 2).2

/-- A reset machine loaded with the program `60FF 6101 8014`: `V0 = 0xFF`,
`V1 = 0x01`, then `V0 += V1` with carry. -/
def add_carry_chip : g2chip :=
  (g2chip_load_rom (g2chip_reset (calloc_chip no_callbacks) quiet_host)
    (some [0x60, 0xFF, 0x61, 0x01, 0x80, 0x14]) 6).2

/-- A reset machine loaded with the program `6005 6F03 80F5`: `V0 = 5`,
`V15 = 3`, then `V0 -= V15`. -/
def sub_flag_chip : g2chip :=
  (g2chip_load_rom (g2chip_reset (calloc_chip no_callbacks) quiet_host)
    (some [0x60, 0x05, 0x6F, 0x03, 0x80, 0xF5]) 6).2

/-- A reset machine loaded with the program `6005 6105 8017`: `V0 = 5`,
`V1 = 5`, then `V0 = V1 - V0`. -/
def subn_equal_chip : g2chip :=
  (g2chip_load_rom (g2chip_reset (calloc_chip no_callbacks) quiet_host)
    (some [0x60, 0x05, 0x61, 0x05, 0x80, 0x17]) 6).2

/-- A reset machine loaded with the program `60FF 7001 7001`: `V0 = 0xFF`,
then `V0 += 1` twice. -/
def add_immediate_chip : g2chip :=
  (g2chip_load_rom (g2chip_reset (calloc_chip no_callbacks) quiet_host)
    (some [0x60, 0xFF, 0x70, 0x01, 0x70, 0x01]) 6).2

/-- A reset machine loaded with the program `7F01`: `V15 += 1`. -/
def add_flag_chip : g2chip :=
  (g2chip_load_rom (g2chip_reset (calloc_chip no_callbacks) quiet_host) (some [0x7F, 0x01]) 2).2

/-! ## The sprite loops as a list of set bits -/

/-- The display index `py * G2CHIP_DISPLAY_WIDTH + px` that `draw_sprite`
computes for the sprite bit at `(row, col)` drawn at `(x, y)`. -/
def pixel_index (x y row col : Nat) : Nat :=
  ((y + row) % G2CHIP_DISPLAY_HEIGHT) * G2CHIP_DISPLAY_WIDTH + (x + col) % G2CHIP_DISPLAY_WIDTH

/-- The statement `chip->display[index] ^= 1` on the display array. -/
def toggle (d : Nat → Nat) (i : Nat) : Nat → Nat :=
  upd d i (d i ^^^ 1)

/-- The set bits among the first `col` columns of one sprite row, in the order
the column loop of `draw_sprite` meets them. -/
def sprite_bits_cols (row sprite_byte : Nat) : Nat → List (Nat × Nat)
  | 0 => []
  | col + 1 =>
      sprite_bits_cols row sprite_byte col ++
        (if sprite_byte &&& (0x80 >>> col) ≠ 0 then [(row, col)] else [])

/-- The set bits of the first `row` sprite rows read at `I`, as `(row, col)`
pairs in the order the loops of `draw_sprite` meet them. -/
def sprite_bits (memory : Nat → Nat) (I : Nat) : Nat → List (Nat × Nat)
  | 0 => []
  | row + 1 => sprite_bits memory I row ++ sprite_bits_cols row (memory (I + row)) 8

/-- What the body of the column loop of `draw_sprite` does for one set bit. -/
def pixel_effect (x y : Nat) (chip : g2chip) (p : Nat × Nat) : g2chip :=
  { chip with
    V := if chip.display (pixel_index x y p.1 p.2) = 1 then upd chip.V 15 1 else chip.V
    display := toggle chip.display (pixel_index x y p.1 p.2)
    host_calls :=
      if chip.config.display_draw_pixel = true then
        chip.host_calls ++
          [host_call.display_draw_pixel ((x + p.2) % G2CHIP_DISPLAY_WIDTH)
            ((y + p.1) % G2CHIP_DISPLAY_HEIGHT) (chip.display (pixel_index x y p.1 p.2) ^^^ 1)]
      else chip.host_calls }

/-! ## More concrete machines -/

/-- A reset machine loaded with the program `6003 80F6`: `V0 = 3`, then a
shift right of `V0` whose `y` field names register 15. -/
def shift_flag_chip : g2chip :=
  (g2chip_load_rom (g2chip_reset (calloc_chip no_callbacks) quiet_host)
    (some [0x60, 0x03, 0x80, 0xF6]) 4).2

/-- An all-zero machine with a clock and both sound callbacks, the timers set
to `delay` and `sound` and the time baseline to `baseline`. -/
def timer_chip (delay sound baseline : Nat) : g2chip :=
  { calloc_chip { no_callbacks with get_time_ms := true, sound_beep_start := true,
                                    sound_beep_stop := true } with
    delay_timer := delay, sound_timer := sound, last_time_ms := baseline,
    pc := G2CHIP_PROGRAM_START_ADDRESS }

/-- A host whose clock reads `t`. -/
def clock_host (t : Nat) : host_answers := { quiet_host with get_time_ms := t }

/-- A reset machine loaded with the program `F029`, with `V0 = v0`. -/
def glyph_chip (v0 : Nat) : g2chip :=
  { (g2chip_load_rom (g2chip_reset (calloc_chip no_callbacks) quiet_host)
      (some [0xF0, 0x29]) 2).2 with V := upd (fun _ => 0) 0 v0 }

/-- The all-zero machine with `V0 = v0` and `I = 0x300`. -/
def bcd_chip (v0 : Nat) : g2chip :=
  { calloc_chip no_callbacks with V := upd (fun _ => 0) 0 v0, I := 0x300 }

/-- The all-zero machine with `V0 = v0`, `V1 = v1`, `V2 = v2` and `I = 0x300`. -/
def block_chip (v0 v1 v2 : Nat) : g2chip :=
  { calloc_chip no_callbacks with V := upd (upd (upd (fun _ => 0) 0 v0) 1 v1) 2 v2, I := 0x300 }

/-- A machine with the draw-pixel and refresh callbacks, the one-row sprite
`0xC0` at `I = 0x300`, a clear display, `V0 = 63`, `V1 = 0` and `V15 = 7`. -/
def sprite_chip : g2chip :=
  { calloc_chip { no_callbacks with display_draw_pixel := true, display_refresh := true } with
    memory := upd (fun _ => 0) 0x300 0xC0, I := 0x300,
    V := upd (upd (fun _ => 0) 0 63) 15 7 }

/-- The machine `sprite_chip` with display cell `(63, 0)` lit. -/
def lit_sprite_chip : g2chip :=
  { sprite_chip with display := upd (fun _ => 0) 63 1 }

/-- The machine `sprite_chip` without any callback. -/
def silent_sprite_chip : g2chip :=
  { sprite_chip with config := no_callbacks }

/-! ## Display invariants -/

/-- The machine `s` has the display of `c`, and its host calls are those of `c`
followed by calls none of which is a draw-pixel call. -/
def display_kept (c s : g2chip) : Prop :=
  s.display = c.display ∧
    ∃ l, s.host_calls = c.host_calls ++ l ∧
      ∀ x y st, host_call.display_draw_pixel x y st ∉ l

/-- Every display cell of `s` is 0 or 1, and its host calls are those of `c0`
followed by calls in which every draw-pixel call reports 0 or 1. -/
def binary_from (c0 s : g2chip) : Prop :=
  (∀ i, s.display i ≤ 1) ∧
    ∃ l, s.host_calls = c0.host_calls ++ l ∧
      ∀ x y st, host_call.display_draw_pixel x y st ∈ l → st ≤ 1

/-! ## Concrete machines for single steps -/

/-- A reset machine loaded with the program `6100`: `V1 = 0x00`. -/
def load_immediate_chip : g2chip :=
  (g2chip_load_rom (g2chip_reset (calloc_chip no_callbacks) quiet_host) (some [0x61, 0x00]) 2).2

/-- A reset machine loaded with the program `6F2A`: `V15 = 0x2A`. -/
def load_immediate_chip_2A : g2chip :=
  (g2chip_load_rom (g2chip_reset (calloc_chip no_callbacks) quiet_host) (some [0x6F, 0x2A]) 2).2

/-- A reset machine with the debug-log callback, loaded with the one
instruction whose bytes are `hi`, `lo`. -/
def unmatched_chip (hi lo : Nat) : g2chip :=
  (g2chip_load_rom
    (g2chip_reset (calloc_chip { no_callbacks with debug_log := true }) quiet_host)
    (some [hi, lo]) 2).2

/-- A machine with the display-clear callback, the instruction `00E0` at
`pc = 0x200`, display cell `(63, 0)` lit and `V3 = 9`. -/
def clear_chip : g2chip :=
  { calloc_chip { no_callbacks with display_clear := true } with
    memory := upd (upd (fun _ => 0) 0x200 0x00) 0x201 0xE0, pc := 0x200,
    display := upd (fun _ => 0) 63 1, V := upd (fun _ => 0) 3 9 }

/-- A machine at the edge of its arrays: `pc = 4094`, where `FF55` stands,
`sp = 15` and `I = i`. -/
def edge_chip (i : Nat) : g2chip :=
  { calloc_chip no_callbacks with
    memory := upd (upd (fun _ => 0) 4094 0xFF) 4095 0x55, pc := 4094, I := i, sp := 15 }

/-- A reset machine with the draw-pixel callback, loaded with the program
`A050 D001`: point `I` at the glyph of 0, draw its first row at `(0, 0)`. -/
def glyph_draw_chip : g2chip :=
  (g2chip_load_rom
    (g2chip_reset (calloc_chip { no_callbacks with display_draw_pixel := true }) quiet_host)
    (some [0xA0, 0x50, 0xD0, 0x01]) 4).2

/-- A host that answers `k` to every key query. -/
def key_host (k : Nat) : host_answers := { quiet_host with key_is_pressed := fun _ => k }

/-- A reset machine, with the key-is-pressed callback present or not, loaded
with the instruction `E0 lo`. -/
def key_chip (capability : Bool) (lo : Nat) : g2chip :=
  (g2chip_load_rom
    (g2chip_reset (calloc_chip { no_callbacks with key_is_pressed := capability }) quiet_host)
    (some [0xE0, lo]) 2).2

/-! ## Arrays and bit fields -/

/-- Reading the stored index gives the stored value. -/
theorem upd_same (a : Nat → Nat) (i v : Nat) : upd a i v i = v := by
  simp [upd]

/-- Reading another index gives the old value. -/
theorem upd_other (a : Nat → Nat) (i v j : Nat) (h : j ≠ i) : upd a i v j = a j := by
  simp [upd, h]

/-- Masking with `2^n - 1` is reduction modulo `2^n`. -/
theorem and_mask (a n : Nat) (m : Nat) (hm : m = 2 ^ n - 1) : a &&& m = a % 2 ^ n := by
  subst hm; exact Nat.and_pow_two_sub_one_eq_mod a n

/-- A shift to the right distributes over a mask. -/
theorem shift_mask (raw m i : Nat) : (raw &&& m) >>> i = (raw >>> i) &&& (m >>> i) := by
  apply Nat.eq_of_testBit_eq
  intro j
  simp

/-- The opcode class is the top nibble of the instruction word. -/
theorem decode_opcode (raw : Nat) : (decode raw).opcode = raw / 4096 % 16 := by
  show (raw &&& 0xF000) >>> 12 = _
  rw [shift_mask, and_mask _ 4 _ (by decide), Nat.shiftRight_eq_div_pow]
  norm_num

/-- The field `x` is the second nibble. -/
theorem decode_x (raw : Nat) : (decode raw).x = raw / 256 % 16 := by
  show ((raw &&& 0x0F00) >>> 8) % 256 = _
  rw [shift_mask, and_mask _ 4 _ (by decide), Nat.shiftRight_eq_div_pow]
  omega

/-- The field `y` is the third nibble. -/
theorem decode_y (raw : Nat) : (decode raw).y = raw / 16 % 16 := by
  show ((raw &&& 0x00F0) >>> 4) % 256 = _
  rw [shift_mask, and_mask _ 4 _ (by decide), Nat.shiftRight_eq_div_pow]
  omega

/-- The field `n` is the fourth nibble. -/
theorem decode_n (raw : Nat) : (decode raw).n = raw % 16 := by
  show (raw &&& 0x000F) % 256 = _
  rw [and_mask _ 4 _ (by decide)]
  omega

/-- The field `nn` is the low byte. -/
theorem decode_nn (raw : Nat) : (decode raw).nn = raw % 256 := by
  show (raw &&& 0x00FF) % 256 = _
  rw [and_mask _ 8 _ (by decide)]
  omega

/-- The field `nnn` is the low twelve bits. -/
theorem decode_nnn (raw : Nat) : (decode raw).nnn = raw % 4096 := by
  show (raw &&& 0x0FFF) = _
  rw [and_mask _ 12 _ (by decide)]
  norm_num

/-- Two bytes combine big-endian into `256 * hi + lo`. -/
theorem word_of_bytes (hi lo : Nat) (hlo : lo < 256) :
    (hi <<< 8) ||| lo = hi * 256 + lo := by
  rw [Nat.shiftLeft_eq, Nat.mul_comm, ← Nat.mul_add_lt_is_or (by simpa using hlo)]

/-! ## Loading, reset, timers and fetch -/

/-- The memory after `k` iterations of the copy loop: the first `k` image bytes
from the program start address on, the old contents elsewhere. -/
theorem load_rom_loop_apply (data : List Nat) (k : Nat) (memory : Nat → Nat) (a : Nat) :
    load_rom_loop data k memory a =
      if G2CHIP_PROGRAM_START_ADDRESS ≤ a ∧ a < G2CHIP_PROGRAM_START_ADDRESS + k then
        data.getD (a - G2CHIP_PROGRAM_START_ADDRESS) 0
      else memory a := by
  induction k with
  | zero =>
    simp only [load_rom_loop]
    rw [if_neg (by omega)]
  | succ k ih =>
    simp only [load_rom_loop, upd, ih]
    by_cases h : a = G2CHIP_PROGRAM_START_ADDRESS + k
    · subst h; simp
    · simp only [h, if_false]
      by_cases h2 : G2CHIP_PROGRAM_START_ADDRESS ≤ a ∧ a < G2CHIP_PROGRAM_START_ADDRESS + k
      · have : G2CHIP_PROGRAM_START_ADDRESS ≤ a ∧ a < G2CHIP_PROGRAM_START_ADDRESS + (k + 1) :=
          ⟨h2.1, by omega⟩
        simp [h2, this]
      · have : ¬ (G2CHIP_PROGRAM_START_ADDRESS ≤ a ∧ a < G2CHIP_PROGRAM_START_ADDRESS + (k + 1)) := by
          intro h3; apply h2; exact ⟨h3.1, by omega⟩
        simp [h2, this]

/-- Loading never changes the stack pointer. -/
theorem g2chip_load_rom_sp (chip : g2chip) (rom_data : Option (List Nat)) (size : Nat) :
    (g2chip_load_rom chip rom_data size).2.sp = chip.sp := by
  unfold g2chip_load_rom
  split
  · rfl
  · split <;> rfl

/-- The machine after a reset, field by field. -/
theorem g2chip_reset_eq (chip : g2chip) (host : host_answers) :
    g2chip_reset chip host =
      { config := chip.config
        memory := load_font_loop G2CHIP_FONT_SIZE (fun _ => 0)
        display := fun _ => 0
        V := fun _ => 0
        stack := fun _ => 0
        last_time_ms := if chip.config.get_time_ms = true then host.get_time_ms else 0
        I := 0
        pc := G2CHIP_PROGRAM_START_ADDRESS
        delay_timer := 0
        sound_timer := 0
        sp := 0
        host_calls :=
          if chip.config.display_clear = true then chip.host_calls ++ [host_call.display_clear]
          else chip.host_calls } := by
  cases hc : chip.config.display_clear <;> cases ht : chip.config.get_time_ms <;>
    simp [g2chip_reset, load_font_data, notify, hc, ht]

/-- After a reset the stack pointer is zero. -/
theorem g2chip_reset_sp (chip : g2chip) (host : host_answers) : (g2chip_reset chip host).sp = 0 := by
  rw [g2chip_reset_eq]

/-- The timer phase changes only the two timers, the baseline and the record of
host calls. -/
theorem update_timers_frame (chip : g2chip) (host : host_answers) :
    ∃ dt st lt calls, update_timers chip host =
      { chip with delay_timer := dt, sound_timer := st, last_time_ms := lt, host_calls := calls } := by
  unfold update_timers
  cases chip.config.get_time_ms with
  | false => exact ⟨_, _, _, _, rfl⟩
  | true =>
    simp only [Bool.true_eq_false, if_false]
    split
    · split <;> split <;> (try split) <;> exact ⟨_, _, _, _, rfl⟩
    · exact ⟨_, _, _, _, rfl⟩

/-- What `fetch_instruction` returns when both bytes are inside the memory. -/
theorem fetch_instruction_eq (chip : g2chip) (hi lo : Nat) (hpc : chip.pc + 1 < 4096)
    (hhi : chip.memory chip.pc = hi) (hlo : chip.memory (chip.pc + 1) = lo) (hlo256 : lo < 256) :
    fetch_instruction chip = some (decode ((hi * 256 + lo) % 65536)) := by
  have h0 : chip.pc < 4096 := by omega
  simp [fetch_instruction, mem_get, h0, hpc, hhi, hlo, word_of_bytes _ _ hlo256]

/-! ## Single instructions -/

/-- The effect of `execute_step` on a call instruction `2nnn` with room on the
stack. -/
theorem execute_step_call (chip : g2chip) (host : host_answers) (nnn : Nat)
    (hpc : chip.pc + 1 < 4096) (hsp : chip.sp < 16) (hnnn : nnn < 4096)
    (hhi : chip.memory chip.pc = 0x20 + nnn / 256)
    (hlo : chip.memory (chip.pc + 1) = nnn % 256) :
    execute_step chip host =
      some { chip with stack := upd chip.stack chip.sp (chip.pc + 2), sp := chip.sp + 1, pc := nnn } := by
  have hraw : ((0x20 + nnn / 256) * 256 + nnn % 256) % 65536 = 0x2000 + nnn := by omega
  have hop : (decode (0x2000 + nnn)).opcode = 2 := by rw [decode_opcode]; omega
  have hn : (decode (0x2000 + nnn)).nnn = nnn := by rw [decode_nnn]; omega
  have h1 : (chip.pc + 2) % 65536 = chip.pc + 2 := by omega
  have h2 : (chip.sp + 1) % 256 = chip.sp + 1 := by omega
  simp [execute_step, fetch_instruction_eq chip _ _ hpc hhi hlo (by omega), hraw,
    instruction_handlers, hop, instruction_handler_opcode_2, stack_set, hsp,
    instruction_jump_to_address, hn, h1, h2]

/-- The effect of `execute_step` on a return `00EE` with a non-empty stack. -/
theorem execute_step_ret (chip : g2chip) (host : host_answers)
    (hpc : chip.pc + 1 < 4096) (hsp0 : 0 < chip.sp) (hsp : chip.sp ≤ 16)
    (hhi : chip.memory chip.pc = 0x00)
    (hlo : chip.memory (chip.pc + 1) = 0xEE) :
    execute_step chip host =
      some { chip with sp := chip.sp - 1, pc := chip.stack (chip.sp - 1) } := by
  have hop : (decode 0xEE).opcode = 0 := by decide
  have hn : (decode 0xEE).nnn = 0xEE := by decide
  have h3 : chip.sp ≠ 0 := by omega
  have h4 : chip.sp - 1 < 16 := by omega
  simp [execute_step, fetch_instruction_eq chip _ _ hpc hhi hlo (by omega),
    instruction_handlers, hop, instruction_handler_opcode_0, hn,
    instruction_return_from_subroutine, h3, stack_get, h4]

/-- The effect of `execute_step` on a return `00EE` with an empty stack. -/
theorem execute_step_ret_underflow (chip : g2chip) (host : host_answers)
    (hpc : chip.pc + 1 < 4096) (hsp : chip.sp = 0)
    (hhi : chip.memory chip.pc = 0x00) (hlo : chip.memory (chip.pc + 1) = 0xEE) :
    execute_step chip host =
      some (if chip.config.debug_log = true then
          notify { chip with pc := chip.pc + 2 } host_call.debug_log
        else { chip with pc := chip.pc + 2 }) := by
  have hop : (decode 0xEE).opcode = 0 := by decide
  have hn : (decode 0xEE).nnn = 0xEE := by decide
  have h1 : (chip.pc + 2) % 65536 = chip.pc + 2 := by omega
  simp [execute_step, fetch_instruction_eq chip _ _ hpc hhi hlo (by omega),
    instruction_handlers, hop, instruction_handler_opcode_0, hn,
    instruction_return_from_subroutine, hsp, h1]

/-- A step that executes `2nnn`: the return address is pushed and control moves
to `nnn`. -/
theorem g2chip_step_call (chip : g2chip) (host : host_answers) (nnn : Nat)
    (hpc : chip.pc + 1 < 4096) (hsp : chip.sp < 16) (hnnn : nnn < 4096)
    (hhi : chip.memory chip.pc = 0x20 + nnn / 256)
    (hlo : chip.memory (chip.pc + 1) = nnn % 256) :
    ∃ s, g2chip_step chip host = some s ∧ s.pc = nnn ∧ s.sp = chip.sp + 1 ∧
      s.stack = upd chip.stack chip.sp (chip.pc + 2) ∧ s.V = chip.V ∧
      s.memory = chip.memory ∧ s.display = chip.display ∧ s.I = chip.I ∧
      s.config = chip.config := by
  obtain ⟨dt, st, lt, calls, ht⟩ := update_timers_frame chip host
  have e := execute_step_call (update_timers chip host) host nnn
    (by rw [ht]; exact hpc) (by rw [ht]; exact hsp) hnnn
    (by rw [ht]; exact hhi) (by rw [ht]; exact hlo)
  exact ⟨_, e, by simp [ht]⟩

/-- A step that executes `00EE` on a non-empty stack: the top of the stack is
popped into the program counter. -/
theorem g2chip_step_ret (chip : g2chip) (host : host_answers)
    (hpc : chip.pc + 1 < 4096) (hsp0 : 0 < chip.sp) (hsp : chip.sp ≤ 16)
    (hhi : chip.memory chip.pc = 0x00)
    (hlo : chip.memory (chip.pc + 1) = 0xEE) :
    ∃ s, g2chip_step chip host = some s ∧ s.pc = chip.stack (chip.sp - 1) ∧
      s.sp = chip.sp - 1 ∧ s.stack = chip.stack ∧ s.V = chip.V ∧
      s.memory = chip.memory ∧ s.display = chip.display ∧ s.I = chip.I ∧
      s.config = chip.config := by
  obtain ⟨dt, st, lt, calls, ht⟩ := update_timers_frame chip host
  have e := execute_step_ret (update_timers chip host) host
    (by rw [ht]; exact hpc) (by rw [ht]; exact hsp0) (by rw [ht]; exact hsp)
    (by rw [ht]; exact hhi) (by rw [ht]; exact hlo)
  exact ⟨_, e, by simp [ht]⟩

/-- Case `0x4` of `instruction_handler_opcode_8` on register indices inside the
register file. -/
theorem opcode_8_case_4 (chip : g2chip) (instr : g2chip_instruction)
    (hn : instr.n = 0x4) (hx : instr.x < 16) (hy : instr.y < 16) :
    instruction_handler_opcode_8 chip instr =
      some { chip with
        V := upd (upd chip.V 15 (if (chip.V instr.x + chip.V instr.y) % 65536 > 0xFF then 1 else 0))
          instr.x (((chip.V instr.x + chip.V instr.y) % 65536) &&& 0xFF) } := by
  simp [instruction_handler_opcode_8, hn, V_get, V_set, V_set_last, hx, hy]

/-- Case `0x5` of `instruction_handler_opcode_8`: the subtraction reads its
operands after the flag has been stored. -/
theorem opcode_8_case_5 (chip : g2chip) (instr : g2chip_instruction)
    (hn : instr.n = 0x5) (hx : instr.x < 16) (hy : instr.y < 16) :
    instruction_handler_opcode_8 chip instr =
      some { chip with
        V := upd (upd chip.V 15 (if chip.V instr.x > chip.V instr.y then 1 else 0)) instr.x
          ((upd chip.V 15 (if chip.V instr.x > chip.V instr.y then 1 else 0) instr.x + 256 -
            upd chip.V 15 (if chip.V instr.x > chip.V instr.y then 1 else 0) instr.y) % 256) } := by
  simp [instruction_handler_opcode_8, hn, V_get, V_set, V_set_last, hx, hy]

/-- Case `0x7` of `instruction_handler_opcode_8`: the subtraction reads its
operands after the flag has been stored. -/
theorem opcode_8_case_7 (chip : g2chip) (instr : g2chip_instruction)
    (hn : instr.n = 0x7) (hx : instr.x < 16) (hy : instr.y < 16) :
    instruction_handler_opcode_8 chip instr =
      some { chip with
        V := upd (upd chip.V 15 (if chip.V instr.y > chip.V instr.x then 1 else 0)) instr.x
          ((upd chip.V 15 (if chip.V instr.y > chip.V instr.x then 1 else 0) instr.y + 256 -
            upd chip.V 15 (if chip.V instr.y > chip.V instr.x then 1 else 0) instr.x) % 256) } := by
  simp [instruction_handler_opcode_8, hn, V_get, V_set, V_set_last, hx, hy]

/-- The result of `instruction_handler_opcode_7` on a register index inside the
register file. -/
theorem opcode_7_eq (chip : g2chip) (instr : g2chip_instruction) (hx : instr.x < 16) :
    instruction_handler_opcode_7 chip instr =
      some { chip with V := upd chip.V instr.x ((chip.V instr.x + instr.nn) % 256) } := by
  simp [instruction_handler_opcode_7, V_get, V_set, hx]

/-- Subtraction `8xy5` when neither operand is the flag register: `Vx` becomes
`(Vx - Vy) mod 256` and `V15` is set exactly when `Vx > Vy`. -/
theorem opcode_8_sub (chip : g2chip) (instr : g2chip_instruction)
    (hn : instr.n = 0x5) (hx : instr.x < 16) (hx15 : instr.x ≠ 15)
    (hy : instr.y < 16) (hy15 : instr.y ≠ 15)
    (hvx : chip.V instr.x < 256) (hvy : chip.V instr.y < 256) :
    ∃ s, instruction_handler_opcode_8 chip instr = some s ∧
      (s.V instr.x : Int) = ((chip.V instr.x : Int) - (chip.V instr.y : Int)) % 256 ∧
      s.V 15 = (if chip.V instr.x > chip.V instr.y then 1 else 0) := by
  have h15 : (15 : Nat) ≠ instr.x := fun h => hx15 h.symm
  refine ⟨_, opcode_8_case_5 chip instr hn hx hy, ?_⟩
  simp only [upd_same, upd_other _ _ _ _ h15, upd_other _ _ _ _ hx15, upd_other _ _ _ _ hy15]
  refine ⟨?_, trivial⟩
  omega

/-! ## Postconditions of guarded computations -/

/-- Nothing is returned, so every postcondition holds. -/
theorem ensures_none {P : g2chip → Prop} : ensures P none := by
  intro s h; cases h

/-- A returned machine must satisfy the postcondition. -/
theorem ensures_some {P : g2chip → Prop} {c : g2chip} (h : P c) : ensures P (some c) := by
  intro s hs; cases hs; exact h

/-- A conditional satisfies what both branches satisfy. -/
theorem ensures_ite {P : g2chip → Prop} {p : Prop} [Decidable p] {a b : Option g2chip}
    (ha : ensures P a) (hb : ensures P b) : ensures P (if p then a else b) := by
  split
  · exact ha
  · exact hb

/-- Sequencing after a guarded read. -/
theorem ensures_bind_get {P : g2chip → Prop} {α : Type} {o : Option α} {f : α → Option g2chip}
    (h : ∀ a, ensures P (f a)) : ensures P (o.bind f) := by
  intro s hs
  cases o with
  | none => cases hs
  | some a => exact h a s hs

/-- Sequencing after a guarded state change. -/
theorem ensures_bind {P Q : g2chip → Prop} {o : Option g2chip} {f : g2chip → Option g2chip}
    (ho : ensures Q o) (h : ∀ c, Q c → ensures P (f c)) : ensures P (o.bind f) := by
  intro s hs
  cases o with
  | none => cases hs
  | some a => exact h a (ho a rfl) s hs

/-- A guarded register store. -/
theorem ensures_V_set {P : g2chip → Prop} {c : g2chip} {i v : Nat}
    (h : P { c with V := upd c.V i v }) : ensures P (V_set c i v) := by
  unfold V_set; exact ensures_ite (ensures_some h) ensures_none

/-- A guarded memory store. -/
theorem ensures_mem_set {P : g2chip → Prop} {c : g2chip} {a v : Nat}
    (h : P { c with memory := upd c.memory a v }) : ensures P (mem_set c a v) := by
  unfold mem_set; exact ensures_ite (ensures_some h) ensures_none

/-- A guarded display store. -/
theorem ensures_display_set {P : g2chip → Prop} {c : g2chip} {a v : Nat}
    (h : P { c with display := upd c.display a v }) : ensures P (display_set c a v) := by
  unfold display_set; exact ensures_ite (ensures_some h) ensures_none

/-- A guarded stack store; the index is then inside the stack. -/
theorem ensures_stack_set {P : g2chip → Prop} {c : g2chip} {a v : Nat}
    (h : a < G2CHIP_STACK_SIZE → P { c with stack := upd c.stack a v }) :
    ensures P (stack_set c a v) := by
  unfold stack_set
  split
  · exact ensures_some (h (by assumption))
  · exact ensures_none

/-- A postcondition may be weakened. -/
theorem ensures_mono {P Q : g2chip → Prop} {o : Option g2chip} (h : ∀ s, P s → Q s)
    (ho : ensures P o) : ensures Q o :=
  fun s hs => h s (ho s hs)

/-! ## The stack pointer through every handler -/

/-- Logging an unmatched instruction leaves the stack pointer alone. -/
theorem instruction_not_implemented_sp (c : g2chip) (instr : g2chip_instruction) :
    (instruction_not_implemented c instr).sp = c.sp := by
  unfold instruction_not_implemented
  split <;> rfl

/-- The handler of class `0x1` leaves the stack pointer alone. -/
theorem opcode_1_sp (k : Nat) (c : g2chip) (instr : g2chip_instruction)
    (hc : c.sp = k) :
    ensures (fun s => s.sp = k) (instruction_handler_opcode_1 c instr) := by
  unfold instruction_handler_opcode_1
  repeat' first
    | exact ensures_none
    | apply ensures_V_set
    | apply ensures_mem_set
    | (apply ensures_bind_get; intro _)
    | apply ensures_ite
    | apply ensures_some
  all_goals first
    | exact hc
    | exact (instruction_not_implemented_sp c instr).trans hc
    | (dsimp only; split <;> exact hc)
    | (split <;> exact hc)

/-- The handler of class `0x3` leaves the stack pointer alone. -/
theorem opcode_3_sp (k : Nat) (c : g2chip) (instr : g2chip_instruction)
    (hc : c.sp = k) :
    ensures (fun s => s.sp = k) (instruction_handler_opcode_3 c instr) := by
  unfold instruction_handler_opcode_3
  repeat' first
    | exact ensures_none
    | apply ensures_V_set
    | apply ensures_mem_set
    | (apply ensures_bind_get; intro _)
    | apply ensures_ite
    | apply ensures_some
  all_goals first
    | exact hc
    | exact (instruction_not_implemented_sp c instr).trans hc
    | (dsimp only; split <;> exact hc)
    | (split <;> exact hc)

/-- The handler of class `0x4` leaves the stack pointer alone. -/
theorem opcode_4_sp (k : Nat) (c : g2chip) (instr : g2chip_instruction)
    (hc : c.sp = k) :
    ensures (fun s => s.sp = k) (instruction_handler_opcode_4 c instr) := by
  unfold instruction_handler_opcode_4
  repeat' first
    | exact ensures_none
    | apply ensures_V_set
    | apply ensures_mem_set
    | (apply ensures_bind_get; intro _)
    | apply ensures_ite
    | apply ensures_some
  all_goals first
    | exact hc
    | exact (instruction_not_implemented_sp c instr).trans hc
    | (dsimp only; split <;> exact hc)
    | (split <;> exact hc)

/-- The handler of class `0x5` leaves the stack pointer alone. -/
theorem opcode_5_sp (k : Nat) (c : g2chip) (instr : g2chip_instruction)
    (hc : c.sp = k) :
    ensures (fun s => s.sp = k) (instruction_handler_opcode_5 c instr) := by
  unfold instruction_handler_opcode_5
  repeat' first
    | exact ensures_none
    | apply ensures_V_set
    | apply ensures_mem_set
    | (apply ensures_bind_get; intro _)
    | apply ensures_ite
    | apply ensures_some
  all_goals first
    | exact hc
    | exact (instruction_not_implemented_sp c instr).trans hc
    | (dsimp only; split <;> exact hc)
    | (split <;> exact hc)

/-- The handler of class `0x6` leaves the stack pointer alone. -/
theorem opcode_6_sp (k : Nat) (c : g2chip) (instr : g2chip_instruction)
    (hc : c.sp = k) :
    ensures (fun s => s.sp = k) (instruction_handler_opcode_6 c instr) := by
  unfold instruction_handler_opcode_6
  repeat' first
    | exact ensures_none
    | apply ensures_V_set
    | apply ensures_mem_set
    | (apply ensures_bind_get; intro _)
    | apply ensures_ite
    | apply ensures_some
  all_goals first
    | exact hc
    | exact (instruction_not_implemented_sp c instr).trans hc
    | (dsimp only; split <;> exact hc)
    | (split <;> exact hc)

/-- The handler of class `0x7` leaves the stack pointer alone. -/
theorem opcode_7_sp (k : Nat) (c : g2chip) (instr : g2chip_instruction)
    (hc : c.sp = k) :
    ensures (fun s => s.sp = k) (instruction_handler_opcode_7 c instr) := by
  unfold instruction_handler_opcode_7
  repeat' first
    | exact ensures_none
    | apply ensures_V_set
    | apply ensures_mem_set
    | (apply ensures_bind_get; intro _)
    | apply ensures_ite
    | apply ensures_some
  all_goals first
    | exact hc
    | exact (instruction_not_implemented_sp c instr).trans hc
    | (dsimp only; split <;> exact hc)
    | (split <;> exact hc)

/-- The handler of class `0x8` leaves the stack pointer alone. -/
theorem opcode_8_sp (k : Nat) (c : g2chip) (instr : g2chip_instruction)
    (hc : c.sp = k) :
    ensures (fun s => s.sp = k) (instruction_handler_opcode_8 c instr) := by
  unfold instruction_handler_opcode_8
  repeat' first
    | exact ensures_none
    | apply ensures_V_set
    | apply ensures_mem_set
    | (apply ensures_bind_get; intro _)
    | apply ensures_ite
    | apply ensures_some
  all_goals first
    | exact hc
    | exact (instruction_not_implemented_sp c instr).trans hc
    | (dsimp only; split <;> exact hc)
    | (split <;> exact hc)

/-- The handler of class `0x9` leaves the stack pointer alone. -/
theorem opcode_9_sp (k : Nat) (c : g2chip) (instr : g2chip_instruction)
    (hc : c.sp = k) :
    ensures (fun s => s.sp = k) (instruction_handler_opcode_9 c instr) := by
  unfold instruction_handler_opcode_9
  repeat' first
    | exact ensures_none
    | apply ensures_V_set
    | apply ensures_mem_set
    | (apply ensures_bind_get; intro _)
    | apply ensures_ite
    | apply ensures_some
  all_goals first
    | exact hc
    | exact (instruction_not_implemented_sp c instr).trans hc
    | (dsimp only; split <;> exact hc)
    | (split <;> exact hc)

/-- The handler of class `0xA` leaves the stack pointer alone. -/
theorem opcode_A_sp (k : Nat) (c : g2chip) (instr : g2chip_instruction)
    (hc : c.sp = k) :
    ensures (fun s => s.sp = k) (instruction_handler_opcode_A c instr) := by
  unfold instruction_handler_opcode_A
  repeat' first
    | exact ensures_none
    | apply ensures_V_set
    | apply ensures_mem_set
    | (apply ensures_bind_get; intro _)
    | apply ensures_ite
    | apply ensures_some
  all_goals first
    | exact hc
    | exact (instruction_not_implemented_sp c instr).trans hc
    | (dsimp only; split <;> exact hc)
    | (split <;> exact hc)

/-- The handler of class `0xB` leaves the stack pointer alone. -/
theorem opcode_B_sp (k : Nat) (c : g2chip) (instr : g2chip_instruction)
    (hc : c.sp = k) :
    ensures (fun s => s.sp = k) (instruction_handler_opcode_B c instr) := by
  unfold instruction_handler_opcode_B
  repeat' first
    | exact ensures_none
    | apply ensures_V_set
    | apply ensures_mem_set
    | (apply ensures_bind_get; intro _)
    | apply ensures_ite
    | apply ensures_some
  all_goals first
    | exact hc
    | exact (instruction_not_implemented_sp c instr).trans hc
    | (dsimp only; split <;> exact hc)
    | (split <;> exact hc)

/-- The handler of class `0xC` leaves the stack pointer alone. -/
theorem opcode_C_sp (k : Nat) (c : g2chip) (instr : g2chip_instruction) (host : host_answers)
    (hc : c.sp = k) :
    ensures (fun s => s.sp = k) (instruction_handler_opcode_C c instr host) := by
  unfold instruction_handler_opcode_C
  repeat' first
    | exact ensures_none
    | apply ensures_V_set
    | apply ensures_mem_set
    | (apply ensures_bind_get; intro _)
    | apply ensures_ite
    | apply ensures_some
  all_goals first
    | exact hc
    | exact (instruction_not_implemented_sp c instr).trans hc
    | (dsimp only; split <;> exact hc)
    | (split <;> exact hc)

/-- The handler of class `0xE` leaves the stack pointer alone. -/
theorem opcode_E_sp (k : Nat) (c : g2chip) (instr : g2chip_instruction) (host : host_answers)
    (hc : c.sp = k) :
    ensures (fun s => s.sp = k) (instruction_handler_opcode_E c instr host) := by
  unfold instruction_handler_opcode_E
  repeat' first
    | exact ensures_none
    | apply ensures_V_set
    | apply ensures_mem_set
    | (apply ensures_bind_get; intro _)
    | apply ensures_ite
    | apply ensures_some
  all_goals first
    | exact hc
    | exact (instruction_not_implemented_sp c instr).trans hc
    | (dsimp only; split <;> exact hc)
    | (split <;> exact hc)

/-- The handler of class `0x0` never raises the stack pointer. -/
theorem opcode_0_sp (c : g2chip) (instr : g2chip_instruction) :
    ensures (fun s => s.sp ≤ c.sp) (instruction_handler_opcode_0 c instr) := by
  unfold instruction_handler_opcode_0 instruction_return_from_subroutine instruction_clear_display
  repeat' first
    | exact ensures_none
    | (apply ensures_bind_get; intro _)
    | apply ensures_ite
    | apply ensures_some
  · dsimp only; split <;> exact Nat.le_refl _
  · split <;> exact Nat.le_refl _
  · exact Nat.sub_le _ _
  · exact Nat.le_of_eq (instruction_not_implemented_sp c instr)

/-- The handler of class `0x2` returns only when the push was inside the stack,
so the stack pointer ends at most at 16. -/
theorem opcode_2_sp (c : g2chip) (instr : g2chip_instruction) :
    ensures (fun s => s.sp ≤ 16) (instruction_handler_opcode_2 c instr) := by
  unfold instruction_handler_opcode_2
  refine @ensures_bind _ (fun s => s.sp < 16) _ _ ?_ ?_
  · apply ensures_stack_set
    intro h
    exact h
  · intro c2 h2
    apply ensures_some
    show (c2.sp + 1) % 256 ≤ 16
    have : c2.sp < 16 := h2
    omega

/-- Drawing one pixel leaves the stack pointer alone. -/
theorem draw_sprite_pixel_sp (k : Nat) (c : g2chip) (x y row col : Nat) (hc : c.sp = k) :
    ensures (fun s => s.sp = k) (draw_sprite_pixel c x y row col) := by
  unfold draw_sprite_pixel
  dsimp only
  apply ensures_bind_get; intro d
  refine @ensures_bind _ (fun s => s.sp = k) _ _ ?_ ?_
  · apply ensures_display_set
    split <;> exact hc
  · intro c2 h2
    apply ensures_some
    split <;> exact h2

/-- The inner loop of `draw_sprite` leaves the stack pointer alone. -/
theorem draw_sprite_cols_sp (k x y row sprite_byte : Nat) (n : Nat) :
    ∀ c : g2chip, c.sp = k →
      ensures (fun s => s.sp = k) (draw_sprite_cols x y row sprite_byte n c) := by
  induction n with
  | zero => intro c hc; exact ensures_some hc
  | succ n ih =>
    intro c hc
    unfold draw_sprite_cols
    refine ensures_bind (ih c hc) ?_
    intro c2 h2
    apply ensures_ite
    · exact draw_sprite_pixel_sp k c2 x y row n h2
    · exact ensures_some h2

/-- The outer loop of `draw_sprite` leaves the stack pointer alone. -/
theorem draw_sprite_rows_sp (k x y : Nat) (n : Nat) :
    ∀ c : g2chip, c.sp = k → ensures (fun s => s.sp = k) (draw_sprite_rows x y n c) := by
  induction n with
  | zero => intro c hc; exact ensures_some hc
  | succ n ih =>
    intro c hc
    unfold draw_sprite_rows
    refine ensures_bind (ih c hc) ?_
    intro c2 h2
    apply ensures_bind_get; intro b
    exact draw_sprite_cols_sp k x y n b 8 c2 h2

/-- The handler of class `0xD` leaves the stack pointer alone. -/
theorem opcode_D_sp (k : Nat) (c : g2chip) (instr : g2chip_instruction) (hc : c.sp = k) :
    ensures (fun s => s.sp = k) (instruction_handler_opcode_D c instr) := by
  unfold instruction_handler_opcode_D draw_sprite
  apply ensures_bind_get; intro vx
  apply ensures_bind_get; intro vy
  refine ensures_bind (draw_sprite_rows_sp k vx vy instr.n _ hc) ?_
  intro c2 h2
  apply ensures_some
  split <;> exact h2

/-- The store loop of `Fx55` leaves the stack pointer alone. -/
theorem opcode_F_store_loop_sp (k : Nat) (n : Nat) :
    ∀ c : g2chip, c.sp = k → ensures (fun s => s.sp = k) (opcode_F_store_loop n c) := by
  induction n with
  | zero => intro c hc; exact ensures_some hc
  | succ n ih =>
    intro c hc
    unfold opcode_F_store_loop
    refine ensures_bind (ih c hc) ?_
    intro c2 h2
    apply ensures_bind_get; intro v
    exact ensures_mem_set h2

/-- The load loop of `Fx65` leaves the stack pointer alone. -/
theorem opcode_F_load_loop_sp (k : Nat) (n : Nat) :
    ∀ c : g2chip, c.sp = k → ensures (fun s => s.sp = k) (opcode_F_load_loop n c) := by
  induction n with
  | zero => intro c hc; exact ensures_some hc
  | succ n ih =>
    intro c hc
    unfold opcode_F_load_loop
    refine ensures_bind (ih c hc) ?_
    intro c2 h2
    apply ensures_bind_get; intro v
    exact ensures_V_set h2

/-- The three stores of `Fx33` leave the stack pointer alone. -/
theorem opcode_F_33_sp (k : Nat) (c : g2chip) (instr : g2chip_instruction) (hc : c.sp = k) :
    ensures (fun s => s.sp = k) (do
      let vx ← V_get c instr.x
      let chip ← mem_set c c.I (vx / 100)
      let vx ← V_get chip instr.x
      let chip ← mem_set chip (chip.I + 1) ((vx / 10) % 10)
      let vx ← V_get chip instr.x
      mem_set chip (chip.I + 2) (vx % 10)) := by
  apply ensures_bind_get; intro _
  refine @ensures_bind _ (fun s => s.sp = k) _ _ (ensures_mem_set hc) ?_
  intro c1 h1
  apply ensures_bind_get; intro _
  refine @ensures_bind _ (fun s => s.sp = k) _ _ (ensures_mem_set h1) ?_
  intro c2 h2
  apply ensures_bind_get; intro _
  exact ensures_mem_set h2

/-- The handler of class `0xF` leaves the stack pointer alone. -/
theorem opcode_F_sp (k : Nat) (c : g2chip) (instr : g2chip_instruction) (host : host_answers)
    (hc : c.sp = k) :
    ensures (fun s => s.sp = k) (instruction_handler_opcode_F c instr host) := by
  unfold instruction_handler_opcode_F
  repeat' first
    | exact ensures_none
    | exact opcode_F_store_loop_sp k _ c hc
    | exact opcode_F_load_loop_sp k _ c hc
    | exact opcode_F_33_sp k c instr hc
    | apply ensures_V_set
    | (apply ensures_bind_get; intro _)
    | apply ensures_ite
    | apply ensures_some
  all_goals first
    | exact hc
    | exact (instruction_not_implemented_sp c instr).trans hc
    | (dsimp only; split <;> exact hc)
    | (split <;> exact hc)

/-- One `execute_step` keeps the stack pointer at most at 16. -/
theorem execute_step_sp (c : g2chip) (host : host_answers) (hc : c.sp ≤ 16) :
    ensures (fun s => s.sp ≤ 16) (execute_step c host) := by
  unfold execute_step
  apply ensures_bind_get; intro instr
  generalize hc2 : ({ c with pc := (c.pc + 2) % 65536 } : g2chip) = c2
  have hsp : c2.sp ≤ 16 := by rw [← hc2]; exact hc
  have weaken : ∀ o : Option g2chip, ensures (fun s => s.sp = c2.sp) o →
      ensures (fun s => s.sp ≤ 16) o :=
    fun o ho => ensures_mono (fun s hs => by rw [hs]; exact hsp) ho
  unfold instruction_handlers
  by_cases h0 : instr.opcode = 0
  · rw [if_pos h0]; exact ensures_mono (fun s hs => Nat.le_trans hs hsp) (opcode_0_sp c2 instr)
  rw [if_neg h0]
  by_cases h1 : instr.opcode = 1
  · rw [if_pos h1]; exact weaken _ (opcode_1_sp _ c2 instr rfl)
  rw [if_neg h1]
  by_cases h2 : instr.opcode = 2
  · rw [if_pos h2]; exact opcode_2_sp c2 instr
  rw [if_neg h2]
  by_cases h3 : instr.opcode = 3
  · rw [if_pos h3]; exact weaken _ (opcode_3_sp _ c2 instr rfl)
  rw [if_neg h3]
  by_cases h4 : instr.opcode = 4
  · rw [if_pos h4]; exact weaken _ (opcode_4_sp _ c2 instr rfl)
  rw [if_neg h4]
  by_cases h5 : instr.opcode = 5
  · rw [if_pos h5]; exact weaken _ (opcode_5_sp _ c2 instr rfl)
  rw [if_neg h5]
  by_cases h6 : instr.opcode = 6
  · rw [if_pos h6]; exact weaken _ (opcode_6_sp _ c2 instr rfl)
  rw [if_neg h6]
  by_cases h7 : instr.opcode = 7
  · rw [if_pos h7]; exact weaken _ (opcode_7_sp _ c2 instr rfl)
  rw [if_neg h7]
  by_cases h8 : instr.opcode = 8
  · rw [if_pos h8]; exact weaken _ (opcode_8_sp _ c2 instr rfl)
  rw [if_neg h8]
  by_cases h9 : instr.opcode = 9
  · rw [if_pos h9]; exact weaken _ (opcode_9_sp _ c2 instr rfl)
  rw [if_neg h9]
  by_cases hA : instr.opcode = 10
  · rw [if_pos hA]; exact weaken _ (opcode_A_sp _ c2 instr rfl)
  rw [if_neg hA]
  by_cases hB : instr.opcode = 11
  · rw [if_pos hB]; exact weaken _ (opcode_B_sp _ c2 instr rfl)
  rw [if_neg hB]
  by_cases hC : instr.opcode = 12
  · rw [if_pos hC]; exact weaken _ (opcode_C_sp _ c2 instr host rfl)
  rw [if_neg hC]
  by_cases hD : instr.opcode = 13
  · rw [if_pos hD]; exact weaken _ (opcode_D_sp _ c2 instr rfl)
  rw [if_neg hD]
  by_cases hE : instr.opcode = 14
  · rw [if_pos hE]; exact weaken _ (opcode_E_sp _ c2 instr host rfl)
  rw [if_neg hE]
  by_cases hF : instr.opcode = 15
  · rw [if_pos hF]; exact weaken _ (opcode_F_sp _ c2 instr host rfl)
  rw [if_neg hF]
  exact ensures_none

/-- One `g2chip_step` keeps the stack pointer at most at 16. -/
theorem g2chip_step_sp (c s : g2chip) (host : host_answers) (hc : c.sp ≤ 16)
    (h : g2chip_step c host = some s) : s.sp ≤ 16 := by
  obtain ⟨dt, st, lt, calls, ht⟩ := update_timers_frame c host
  have hsp : (update_timers c host).sp ≤ 16 := by rw [ht]; exact hc
  exact execute_step_sp (update_timers c host) host hsp s h

/-- Running steps from a reachable machine gives a reachable machine. -/
theorem reachable_run_steps (hosts : List host_answers) :
    ∀ c s : g2chip, reachable c → run_steps hosts c = some s → reachable s := by
  induction hosts with
  | nil => intro c s hc h; cases h; exact hc
  | cons host hosts ih =>
    intro c s hc h
    simp only [run_steps, Option.bind_eq_some] at h
    obtain ⟨c1, h1, h2⟩ := h
    exact ih c1 s (reachable.step c c1 host hc h1) h2

/-- A program that calls itself: `n` steps push `n` return addresses as long as
the stack has room. -/
theorem run_steps_call_loop (host : host_answers) (n : Nat) :
    ∀ c : g2chip, c.pc = 0x200 → c.memory 0x200 = 0x22 → c.memory 0x201 = 0x00 →
      c.sp + n ≤ 16 →
      ∃ s, run_steps (List.replicate n host) c = some s ∧ s.sp = c.sp + n := by
  induction n with
  | zero => intro c _ _ _ _; exact ⟨c, rfl, rfl⟩
  | succ n ih =>
    intro c hpc hhi hlo hsp
    obtain ⟨s1, e1, hpc1, hsp1, -, -, hm1, -, -, -⟩ :=
      g2chip_step_call c host 0x200 (by omega) (by omega) (by omega)
        (by rw [hpc]; exact hhi) (by rw [hpc]; exact hlo)
    obtain ⟨s, e, hs⟩ := ih s1 hpc1 (by rw [hm1]; exact hhi) (by rw [hm1]; exact hlo) (by omega)
    refine ⟨s, ?_, by omega⟩
    simp only [List.replicate, run_steps, e1, Option.some_bind, e]

/-! ## Shifts -/

/-- Case `0x6` of `instruction_handler_opcode_8` evaluated: the flag store,
then the shift of `V[x]`. -/
theorem opcode_8_case_6 (chip : g2chip) (instr : g2chip_instruction)
    (hn : instr.n = 0x6) (hx : instr.x < 16) :
    instruction_handler_opcode_8 chip instr =
      some { chip with
        V := upd (upd chip.V 15 (chip.V instr.x &&& 0x1)) instr.x
          (upd chip.V 15 (chip.V instr.x &&& 0x1) instr.x >>> 1) } := by
  simp [instruction_handler_opcode_8, hn, V_get, V_set, V_set_last, hx]

/-- Case `0xE` of `instruction_handler_opcode_8` evaluated: the flag store,
then the shift of `V[x]` in 8 bits. -/
theorem opcode_8_case_E (chip : g2chip) (instr : g2chip_instruction)
    (hn : instr.n = 0xE) (hx : instr.x < 16) :
    instruction_handler_opcode_8 chip instr =
      some { chip with
        V := upd (upd chip.V 15 ((chip.V instr.x &&& 0x80) >>> 7)) instr.x
          ((upd chip.V 15 ((chip.V instr.x &&& 0x80) >>> 7) instr.x <<< 1) % 256) } := by
  simp [instruction_handler_opcode_8, hn, V_get, V_set, V_set_last, hx]

/-- The mask `0x1` gives the remainder modulo 2. -/
theorem lsb_eq (v : Nat) : v &&& 0x1 = v % 2 := and_mask v 1 _ (by decide)

/-- The expression `(v & 0x80) >> 7` is bit 7 of a byte. -/
theorem msb_eq (v : Nat) (hv : v < 256) : (v &&& 0x80) >>> 7 = v / 128 := by
  rw [shift_mask, and_mask _ 1 _ (by decide), Nat.shiftRight_eq_div_pow, Nat.pow_one]
  omega

/-! ## Timers -/

/-- With a clock and at least 16 elapsed units `update_timers` decrements each
non-zero timer, moves the baseline, and notifies a sound stop when the sound
timer was 1. -/
theorem update_timers_fired (chip : g2chip) (host : host_answers)
    (hc : chip.config.get_time_ms = true)
    (he : 16 ≤ (host.get_time_ms + 2 ^ 32 - chip.last_time_ms) % 2 ^ 32) :
    update_timers chip host =
      { chip with
        delay_timer := if chip.delay_timer > 0 then chip.delay_timer - 1 else chip.delay_timer
        sound_timer := if chip.sound_timer > 0 then chip.sound_timer - 1 else chip.sound_timer
        last_time_ms := host.get_time_ms
        host_calls :=
          if chip.sound_timer = 1 ∧ chip.config.sound_beep_stop = true then
            chip.host_calls ++ [host_call.sound_beep_stop]
          else chip.host_calls } := by
  unfold update_timers
  rw [if_neg (by simp [hc])]
  dsimp only
  rw [if_pos he]
  have h10 : (chip.sound_timer - 1 = 0) = (chip.sound_timer = 1 ∨ chip.sound_timer = 0) := by
    apply propext; omega
  by_cases hd : chip.delay_timer = 0 <;> by_cases hs : chip.sound_timer = 0 <;>
    by_cases hs1 : chip.sound_timer = 1 <;> by_cases hcap : chip.config.sound_beep_stop = true <;>
    simp [hd, hs, hs1, hcap, notify, h10, Nat.pos_iff_ne_zero]

/-- Without a clock, or with fewer than 16 elapsed units, `update_timers`
changes nothing. -/
theorem update_timers_idle (chip : g2chip) (host : host_answers)
    (h : chip.config.get_time_ms = false ∨
      (host.get_time_ms + 2 ^ 32 - chip.last_time_ms) % 2 ^ 32 < 16) :
    update_timers chip host = chip := by
  unfold update_timers
  by_cases hc : chip.config.get_time_ms = false
  · rw [if_pos hc]
  · rw [if_neg hc]
    rcases h with h | h
    · exact absurd h hc
    · simp only [ge_iff_le]
      rw [if_neg (by omega)]

/-- The 32-bit difference of the model is the integer difference modulo `2^32`. -/
theorem elapsed_int (t b : Nat) (hb : b < 2 ^ 32) :
    (((t + 2 ^ 32 - b) % 2 ^ 32 : Nat) : Int) = ((t : Int) - (b : Int)) % 2 ^ 32 := by
  omega

/-! ## Glyphs, decimal digits and register blocks -/

/-- Memory after the first `k` iterations of the font loop. -/
theorem load_font_loop_apply (k : Nat) (memory : Nat → Nat) (a : Nat) :
    load_font_loop k memory a =
      if G2CHIP_FONT_START_ADDRESS ≤ a ∧ a < G2CHIP_FONT_START_ADDRESS + k then
        g2chip_font_data.getD (a - G2CHIP_FONT_START_ADDRESS) 0
      else memory a := by
  induction k with
  | zero =>
    simp only [load_font_loop]
    rw [if_neg (by omega)]
  | succ k ih =>
    simp only [load_font_loop, upd, ih]
    by_cases h : a = G2CHIP_FONT_START_ADDRESS + k
    · subst h; simp
    · simp only [h, if_false]
      by_cases h2 : G2CHIP_FONT_START_ADDRESS ≤ a ∧ a < G2CHIP_FONT_START_ADDRESS + k
      · rw [if_pos h2, if_pos ⟨h2.1, by omega⟩]
      · rw [if_neg h2, if_neg (fun h3 => h2 ⟨h3.1, by omega⟩)]

/-- Memory after `g2chip_reset`: the font at `0x50 .. 0x9F`, zero elsewhere. -/
theorem g2chip_reset_memory (chip : g2chip) (host : host_answers) (a : Nat) :
    (g2chip_reset chip host).memory a =
      if 0x50 ≤ a ∧ a < 0xA0 then g2chip_font_data.getD (a - 0x50) 0 else 0 := by
  rw [g2chip_reset_eq]
  simp only [load_font_loop_apply]
  rfl

/-- Case `0x29` of `instruction_handler_opcode_F` evaluated. -/
theorem opcode_F_case_29 (chip : g2chip) (instr : g2chip_instruction) (host : host_answers)
    (hnn : instr.nn = 0x29) (hx : instr.x < 16) :
    instruction_handler_opcode_F chip instr host =
      if chip.V instr.x ≤ 0xF then
        some { chip with I := (G2CHIP_FONT_START_ADDRESS + chip.V instr.x * 5) % 65536 }
      else some (if chip.config.debug_log = true then notify chip host_call.debug_log else chip) := by
  simp [instruction_handler_opcode_F, hnn, V_get, hx]

/-- A load leaves memory below `0x200` as it was. -/
theorem g2chip_load_rom_memory_low (chip : g2chip) (rom_data : Option (List Nat)) (size a : Nat)
    (ha : a < 0x200) : (g2chip_load_rom chip rom_data size).2.memory a = chip.memory a := by
  unfold g2chip_load_rom
  split
  · rfl
  · split
    · rfl
    · simp only [load_rom_loop_apply]
      rw [if_neg (by simp; omega)]

/-- Case `0x33` of `instruction_handler_opcode_F` evaluated, the three stores
being in bounds. -/
theorem opcode_F_case_33 (chip : g2chip) (instr : g2chip_instruction) (host : host_answers)
    (hnn : instr.nn = 0x33) (hx : instr.x < 16) (hI : chip.I + 2 < 4096) :
    instruction_handler_opcode_F chip instr host =
      some { chip with
        memory := upd (upd (upd chip.memory chip.I (chip.V instr.x / 100)) (chip.I + 1)
          ((chip.V instr.x / 10) % 10)) (chip.I + 2) (chip.V instr.x % 10) } := by
  have h0 : chip.I < 4096 := by omega
  have h1 : chip.I + 1 < 4096 := by omega
  simp [instruction_handler_opcode_F, hnn, V_get, mem_set, hx, h0, h1, hI]

/-- The first `k` iterations of the `Fx55` loop return, change memory only, and
store `V[i]` at `I + i` for `i < k`. -/
theorem opcode_F_store_loop_eq (k : Nat) :
    ∀ chip : g2chip, k ≤ 16 → chip.I + k ≤ 4096 →
      ∃ s, opcode_F_store_loop k chip = some s ∧ s = { chip with memory := s.memory } ∧
        ∀ a, s.memory a =
          if chip.I ≤ a ∧ a < chip.I + k then chip.V (a - chip.I) else chip.memory a := by
  induction k with
  | zero =>
    intro chip _ _
    refine ⟨chip, rfl, rfl, ?_⟩
    intro a
    rw [if_neg (by omega)]
  | succ k ih =>
    intro chip hk hI
    obtain ⟨s1, e1, hs1, hm1⟩ := ih chip (by omega) (by omega)
    have hV : s1.V = chip.V := by rw [hs1]
    have hIe : s1.I = chip.I := by rw [hs1]
    have hk16 : k < 16 := by omega
    have hlt : s1.I + k < 4096 := by omega
    refine ⟨{ s1 with memory := upd s1.memory (s1.I + k) (s1.V k) }, ?_, ?_, ?_⟩
    · simp [opcode_F_store_loop, e1, V_get, mem_set, hk16, hlt]
    · rw [hs1]
    · intro a
      show upd s1.memory (s1.I + k) (s1.V k) a = _
      rw [hIe, hV]
      by_cases ha : a = chip.I + k
      · subst ha
        rw [upd_same, if_pos (by omega)]
        congr 1
        omega
      · rw [upd_other _ _ _ _ ha, hm1]
        by_cases h2 : chip.I ≤ a ∧ a < chip.I + k
        · rw [if_pos h2, if_pos (by omega)]
        · rw [if_neg h2, if_neg (by omega)]

/-- The first `k` iterations of the `Fx65` loop return, change registers only,
and load `V[i]` from `I + i` for `i < k`. -/
theorem opcode_F_load_loop_eq (k : Nat) :
    ∀ chip : g2chip, k ≤ 16 → chip.I + k ≤ 4096 →
      ∃ s, opcode_F_load_loop k chip = some s ∧ s = { chip with V := s.V } ∧
        ∀ j, s.V j = if j < k then chip.memory (chip.I + j) else chip.V j := by
  induction k with
  | zero =>
    intro chip _ _
    refine ⟨chip, rfl, rfl, ?_⟩
    intro j
    rw [if_neg (by omega)]
  | succ k ih =>
    intro chip hk hI
    obtain ⟨s1, e1, hs1, hv1⟩ := ih chip (by omega) (by omega)
    have hM : s1.memory = chip.memory := by rw [hs1]
    have hIe : s1.I = chip.I := by rw [hs1]
    have hk16 : k < 16 := by omega
    have hlt : s1.I + k < 4096 := by omega
    refine ⟨{ s1 with V := upd s1.V k (s1.memory (s1.I + k)) }, ?_, ?_, ?_⟩
    · simp [opcode_F_load_loop, e1, V_get, mem_get, V_set, hk16, hlt]
    · rw [hs1]
    · intro j
      show upd s1.V k (s1.memory (s1.I + k)) j = _
      rw [hIe, hM]
      by_cases hj : j = k
      · subst hj
        rw [upd_same, if_pos (by omega)]
      · rw [upd_other _ _ _ _ hj, hv1]
        by_cases h2 : j < k
        · rw [if_pos h2, if_pos (by omega)]
        · rw [if_neg h2, if_neg (by omega)]

/-- Case `0x55` of `instruction_handler_opcode_F` is the store loop run
`x + 1` times. -/
theorem opcode_F_case_55 (chip : g2chip) (instr : g2chip_instruction) (host : host_answers)
    (hnn : instr.nn = 0x55) :
    instruction_handler_opcode_F chip instr host = opcode_F_store_loop (instr.x + 1) chip := by
  simp [instruction_handler_opcode_F, hnn]

/-- Case `0x65` of `instruction_handler_opcode_F` is the load loop run
`x + 1` times. -/
theorem opcode_F_case_65 (chip : g2chip) (instr : g2chip_instruction) (host : host_answers)
    (hnn : instr.nn = 0x65) :
    instruction_handler_opcode_F chip instr host = opcode_F_load_loop (instr.x + 1) chip := by
  simp [instruction_handler_opcode_F, hnn]

/-! ## Sprite drawing: the loops -/

/-- Every computed display index lies inside the display array. -/
theorem pixel_index_lt (x y row col : Nat) : pixel_index x y row col < 2048 := by
  unfold pixel_index
  simp only [G2CHIP_DISPLAY_HEIGHT, G2CHIP_DISPLAY_WIDTH]
  omega

/-- Every computed display index is below width times height. -/
theorem pixel_index_lt_size (x y row col : Nat) :
    pixel_index x y row col < G2CHIP_DISPLAY_WIDTH * G2CHIP_DISPLAY_HEIGHT :=
  pixel_index_lt x y row col

/-- One pass through the body of the column loop for a set bit always returns,
and is `pixel_effect`. -/
theorem draw_sprite_pixel_eq (chip : g2chip) (x y row col : Nat) :
    draw_sprite_pixel chip x y row col = some (pixel_effect x y chip (row, col)) := by
  have h := pixel_index_lt x y row col
  unfold pixel_index at h
  unfold draw_sprite_pixel pixel_effect toggle pixel_index
  by_cases hd : chip.display ((y + row) % G2CHIP_DISPLAY_HEIGHT * G2CHIP_DISPLAY_WIDTH +
      (x + col) % G2CHIP_DISPLAY_WIDTH) = 1 <;>
    by_cases hc : chip.config.display_draw_pixel = true <;>
    simp [display_get, display_set, V_set_last, notify, h, hd, hc, upd]

/-- The loop body changes only the display, the registers and the host calls. -/
theorem pixel_effect_frame (x y : Nat) (c : g2chip) (p : Nat × Nat) :
    pixel_effect x y c p =
      { c with V := (pixel_effect x y c p).V, display := (pixel_effect x y c p).display,
               host_calls := (pixel_effect x y c p).host_calls } := rfl

/-- Any number of loop bodies change only the display, the registers and the
host calls. -/
theorem foldl_pixel_effect_frame (x y : Nat) (L : List (Nat × Nat)) :
    ∀ c : g2chip, L.foldl (pixel_effect x y) c =
      { c with V := (L.foldl (pixel_effect x y) c).V,
               display := (L.foldl (pixel_effect x y) c).display,
               host_calls := (L.foldl (pixel_effect x y) c).host_calls } := by
  induction L with
  | nil => intro c; rfl
  | cons p L ih =>
    intro c
    simp only [List.foldl_cons]
    rw [ih (pixel_effect x y c p)]
    rfl

/-- The loop bodies leave memory as it was. -/
theorem foldl_pixel_effect_memory (x y : Nat) (L : List (Nat × Nat)) (c : g2chip) :
    (L.foldl (pixel_effect x y) c).memory = c.memory := by
  rw [foldl_pixel_effect_frame]

/-- The loop bodies leave the index register as it was. -/
theorem foldl_pixel_effect_I (x y : Nat) (L : List (Nat × Nat)) (c : g2chip) :
    (L.foldl (pixel_effect x y) c).I = c.I := by
  rw [foldl_pixel_effect_frame]

/-- The loop bodies leave the configuration as it was. -/
theorem foldl_pixel_effect_config (x y : Nat) (L : List (Nat × Nat)) (c : g2chip) :
    (L.foldl (pixel_effect x y) c).config = c.config := by
  rw [foldl_pixel_effect_frame]

/-- The column loop over one sprite byte is the fold of `pixel_effect` over the
set bits of that byte. -/
theorem draw_sprite_cols_eq (x y row sprite_byte : Nat) (k : Nat) (chip : g2chip) :
    draw_sprite_cols x y row sprite_byte k chip =
      some ((sprite_bits_cols row sprite_byte k).foldl (pixel_effect x y) chip) := by
  induction k with
  | zero => rfl
  | succ k ih =>
    simp only [draw_sprite_cols, sprite_bits_cols, ih, Option.bind_eq_bind, Option.some_bind,
      List.foldl_append]
    split
    · rw [draw_sprite_pixel_eq]; rfl
    · rfl

/-- The row loop, with its sprite bytes in bounds, is the fold of
`pixel_effect` over the set bits of the sprite. -/
theorem draw_sprite_rows_eq (x y : Nat) (k : Nat) (chip : g2chip)
    (hI : k = 0 ∨ chip.I + k ≤ 4096) :
    draw_sprite_rows x y k chip =
      some ((sprite_bits chip.memory chip.I k).foldl (pixel_effect x y) chip) := by
  induction k with
  | zero => rfl
  | succ k ih =>
    have hlt : chip.I + k < 4096 := by omega
    simp only [draw_sprite_rows, sprite_bits, ih (by omega), Option.bind_eq_bind,
      Option.some_bind, List.foldl_append, mem_get, foldl_pixel_effect_memory,
      foldl_pixel_effect_I, G2CHIP_MEMORY_SIZE, hlt, if_true, draw_sprite_cols_eq]

/-- The function `draw_sprite`, with its sprite bytes in bounds, returns the
fold of `pixel_effect` from the machine with `V15` cleared, followed by the
refresh notification. -/
theorem draw_sprite_eq (chip : g2chip) (x y height : Nat)
    (hI : height = 0 ∨ chip.I + height ≤ 4096) :
    draw_sprite chip x y height =
      some (if chip.config.display_refresh = true then
          notify ((sprite_bits chip.memory chip.I height).foldl (pixel_effect x y)
            (V_set_last chip 0)) host_call.display_refresh
        else (sprite_bits chip.memory chip.I height).foldl (pixel_effect x y)
          (V_set_last chip 0)) := by
  unfold draw_sprite
  simp only [draw_sprite_rows_eq x y height (V_set_last chip 0) hI, Option.bind_eq_bind,
    Option.some_bind, foldl_pixel_effect_config]
  rfl

/-! ## Sprite drawing: the display -/

/-- A toggle flips bit 0 of the toggled cell. -/
theorem toggle_same (d : Nat → Nat) (i : Nat) : toggle d i i = d i ^^^ 1 := by
  simp [toggle, upd]

/-- A toggle leaves every other cell as it was. -/
theorem toggle_other (d : Nat → Nat) (i j : Nat) (h : j ≠ i) : toggle d i j = d j := by
  simp [toggle, upd, h]

/-- A sequence of toggles XORs each cell with a mask that depends only on the
sequence. -/
theorem foldl_toggle_mask (L : List Nat) :
    ∀ d m : Nat → Nat, L.foldl toggle (fun i => d i ^^^ m i) =
      fun i => d i ^^^ L.foldl toggle m i := by
  induction L with
  | nil => intro d m; rfl
  | cons a L ih =>
    intro d m
    simp only [List.foldl_cons]
    have e : toggle (fun i => d i ^^^ m i) a = fun i => d i ^^^ toggle m a i := by
      funext i
      by_cases h : i = a
      · subst h
        simp only [toggle_same, Nat.xor_assoc]
      · simp only [toggle_other _ _ _ h]
    rw [e, ih]

/-- The same sequence of toggles applied twice gives the display back. -/
theorem foldl_toggle_twice (L : List Nat) (d : Nat → Nat) :
    L.foldl toggle (L.foldl toggle d) = d := by
  have h0 : ∀ f : Nat → Nat, f = fun i => f i ^^^ (fun _ => 0) i := by
    intro f; funext i; simp
  have h1 : L.foldl toggle d = fun i => d i ^^^ L.foldl toggle (fun _ => 0) i := by
    conv => lhs; rw [h0 d]
    exact foldl_toggle_mask L d (fun _ => 0)
  rw [h1, foldl_toggle_mask]
  funext i
  have h2 := congrFun (foldl_toggle_mask L (L.foldl toggle (fun _ => 0)) (fun _ => 0)) i
  simp only [Nat.xor_zero] at h2
  have h3 : (fun i => L.foldl toggle (fun _ => 0) i) = L.foldl toggle (fun _ => 0) := rfl
  rw [h3] at h2
  rw [h2, Nat.xor_self, Nat.xor_zero]

/-- A sequence of toggles of distinct cells flips exactly the listed cells. -/
theorem foldl_toggle_nodup (L : List Nat) :
    ∀ d : Nat → Nat, L.Nodup →
      ∀ i, L.foldl toggle d i = if i ∈ L then d i ^^^ 1 else d i := by
  induction L with
  | nil => intro d _ i; simp
  | cons a L ih =>
    intro d hnd i
    rw [List.nodup_cons] at hnd
    simp only [List.foldl_cons]
    rw [ih _ hnd.2]
    by_cases hi : i = a
    · subst hi
      simp [hnd.1, toggle_same]
    · simp [hi, toggle_other _ _ _ hi]

/-- The display after the loop bodies is the fold of the toggles. -/
theorem foldl_pixel_effect_display (x y : Nat) (L : List (Nat × Nat)) :
    ∀ c : g2chip, (L.foldl (pixel_effect x y) c).display =
      (L.map (fun p => pixel_index x y p.1 p.2)).foldl toggle c.display := by
  induction L with
  | nil => intro c; rfl
  | cons p L ih =>
    intro c
    simp only [List.foldl_cons, List.map_cons]
    rw [ih]
    rfl

/-- The fields of the machine `draw_sprite` returns, in terms of the folds. -/
theorem draw_sprite_fields (chip : g2chip) (x y height : Nat)
    (hI : height = 0 ∨ chip.I + height ≤ 4096) :
    ∃ s, draw_sprite chip x y height = some s ∧
      s.memory = chip.memory ∧ s.I = chip.I ∧ s.config = chip.config ∧
      s.display = ((sprite_bits chip.memory chip.I height).map
        (fun p => pixel_index x y p.1 p.2)).foldl toggle chip.display ∧
      s.V = ((sprite_bits chip.memory chip.I height).foldl (pixel_effect x y)
        (V_set_last chip 0)).V ∧
      s.host_calls = ((sprite_bits chip.memory chip.I height).foldl (pixel_effect x y)
          (V_set_last chip 0)).host_calls ++
        (if chip.config.display_refresh = true then [host_call.display_refresh] else []) := by
  have e := draw_sprite_eq chip x y height hI
  cases hr : chip.config.display_refresh
  · rw [hr] at e
    simp only [Bool.false_eq_true, if_false] at e
    refine ⟨_, e, ?_⟩
    simp only [foldl_pixel_effect_memory, foldl_pixel_effect_I, foldl_pixel_effect_config,
      foldl_pixel_effect_display, List.append_nil, if_false, Bool.false_eq_true]
    exact ⟨rfl, rfl, rfl, rfl, trivial, trivial⟩
  · rw [hr] at e
    simp only [if_true] at e
    refine ⟨_, e, ?_⟩
    simp only [notify, foldl_pixel_effect_memory, foldl_pixel_effect_I,
      foldl_pixel_effect_config, foldl_pixel_effect_display, if_true]
    exact ⟨rfl, rfl, rfl, rfl, trivial, trivial⟩

/-! ## Sprite drawing: cells, flag and host calls -/

/-- Membership in the set bits of one sprite row. -/
theorem mem_sprite_bits_cols (row sprite_byte k : Nat) (p : Nat × Nat) :
    p ∈ sprite_bits_cols row sprite_byte k ↔
      p.1 = row ∧ p.2 < k ∧ sprite_byte &&& (0x80 >>> p.2) ≠ 0 := by
  induction k with
  | zero => simp [sprite_bits_cols]
  | succ k ih =>
    simp only [sprite_bits_cols, List.mem_append, ih]
    constructor
    · rintro (⟨h1, h2, h3⟩ | h)
      · exact ⟨h1, by omega, h3⟩
      · split at h
        · rename_i hb
          simp only [List.mem_singleton] at h
          subst h
          exact ⟨rfl, by simp, hb⟩
        · simp at h
    · rintro ⟨h1, h2, h3⟩
      by_cases hk : p.2 < k
      · exact Or.inl ⟨h1, hk, h3⟩
      · right
        have hpk : p.2 = k := by omega
        rw [hpk] at h3
        rw [if_pos h3]
        simp only [List.mem_singleton]
        exact Prod.ext h1 hpk

/-- Membership in the set bits of a sprite: the row and column are in range and
the mask test of `draw_sprite` succeeds. -/
theorem mem_sprite_bits (memory : Nat → Nat) (I n : Nat) (p : Nat × Nat) :
    p ∈ sprite_bits memory I n ↔
      p.1 < n ∧ p.2 < 8 ∧ memory (I + p.1) &&& (0x80 >>> p.2) ≠ 0 := by
  induction n with
  | zero => simp [sprite_bits]
  | succ n ih =>
    simp only [sprite_bits, List.mem_append, ih, mem_sprite_bits_cols]
    constructor
    · rintro (⟨h1, h2, h3⟩ | ⟨h1, h2, h3⟩)
      · exact ⟨by omega, h2, h3⟩
      · rw [h1]; exact ⟨by omega, h2, h3⟩
    · rintro ⟨h1, h2, h3⟩
      by_cases hk : p.1 < n
      · exact Or.inl ⟨hk, h2, h3⟩
      · have hpk : p.1 = n := by omega
        right
        rw [hpk] at h3
        exact ⟨hpk, h2, h3⟩

/-- The set bits of one row are listed once each. -/
theorem nodup_sprite_bits_cols (row sprite_byte k : Nat) :
    (sprite_bits_cols row sprite_byte k).Nodup := by
  induction k with
  | zero => simp [sprite_bits_cols]
  | succ k ih =>
    simp only [sprite_bits_cols]
    rw [List.nodup_append]
    refine ⟨ih, by split <;> simp, ?_⟩
    intro p hp hq
    rw [mem_sprite_bits_cols] at hp
    split at hq
    · simp only [List.mem_singleton] at hq
      subst hq
      exact absurd hp.2.1 (by simp)
    · simp at hq

/-- The set bits of a sprite are listed once each. -/
theorem nodup_sprite_bits (memory : Nat → Nat) (I n : Nat) :
    (sprite_bits memory I n).Nodup := by
  induction n with
  | zero => simp [sprite_bits]
  | succ n ih =>
    simp only [sprite_bits]
    rw [List.nodup_append]
    refine ⟨ih, nodup_sprite_bits_cols _ _ _, ?_⟩
    intro p hp hq
    rw [mem_sprite_bits] at hp
    rw [mem_sprite_bits_cols] at hq
    omega

/-- Within 32 rows and 8 columns two sprite positions never land on the same
display cell. -/
theorem pixel_index_inj (x y : Nat) (p q : Nat × Nat)
    (hp1 : p.1 < 32) (hp2 : p.2 < 8) (hq1 : q.1 < 32) (hq2 : q.2 < 8)
    (h : pixel_index x y p.1 p.2 = pixel_index x y q.1 q.2) : p = q := by
  unfold pixel_index at h
  simp only [G2CHIP_DISPLAY_HEIGHT, G2CHIP_DISPLAY_WIDTH] at h
  apply Prod.ext <;> omega

/-- A sprite of at most 32 rows visits each display cell at most once. -/
theorem nodup_sprite_indices (memory : Nat → Nat) (I n x y : Nat) (hn : n ≤ 32) :
    ((sprite_bits memory I n).map (fun p => pixel_index x y p.1 p.2)).Nodup := by
  apply List.Nodup.map_on _ (nodup_sprite_bits memory I n)
  intro p hp q hq h
  rw [mem_sprite_bits] at hp hq
  exact pixel_index_inj x y p q (by omega) hp.2.1 (by omega) hq.2.1 h

/-- The loop bodies change no register other than `V15`. -/
theorem foldl_pixel_effect_V_other (x y : Nat) (L : List (Nat × Nat)) :
    ∀ c : g2chip, ∀ j, j ≠ 15 → (L.foldl (pixel_effect x y) c).V j = c.V j := by
  induction L with
  | nil => intro c j _; rfl
  | cons p L ih =>
    intro c j hj
    simp only [List.foldl_cons]
    rw [ih _ j hj]
    show (if c.display (pixel_index x y p.1 p.2) = 1 then upd c.V 15 1 else c.V) j = c.V j
    split
    · exact upd_other _ _ _ _ hj
    · rfl

/-- When each cell is visited at most once, the loop bodies leave `V15 = 1` if
some visited cell held 1 at the start, and leave `V15` as it was otherwise. -/
theorem foldl_pixel_effect_V_last (x y : Nat) (L : List (Nat × Nat)) :
    ∀ c : g2chip, (L.map (fun p => pixel_index x y p.1 p.2)).Nodup →
      ((∃ p, p ∈ L ∧ c.display (pixel_index x y p.1 p.2) = 1) →
        (L.foldl (pixel_effect x y) c).V 15 = 1) ∧
      ((¬ ∃ p, p ∈ L ∧ c.display (pixel_index x y p.1 p.2) = 1) →
        (L.foldl (pixel_effect x y) c).V 15 = c.V 15) := by
  induction L with
  | nil =>
    intro c _
    exact ⟨fun ⟨p, hp, _⟩ => absurd hp (List.not_mem_nil p), fun _ => rfl⟩
  | cons p L ih =>
    intro c hnd
    rw [List.map_cons, List.nodup_cons] at hnd
    obtain ⟨ih1, ih2⟩ := ih (pixel_effect x y c p) hnd.2
    have hdisp : ∀ q, q ∈ L → (pixel_effect x y c p).display (pixel_index x y q.1 q.2) =
        c.display (pixel_index x y q.1 q.2) := by
      intro q hq
      show toggle c.display (pixel_index x y p.1 p.2) (pixel_index x y q.1 q.2) = _
      apply toggle_other
      intro he
      apply hnd.1
      rw [← he]
      exact List.mem_map_of_mem _ hq
    have hV : (pixel_effect x y c p).V 15 =
        if c.display (pixel_index x y p.1 p.2) = 1 then 1 else c.V 15 := by
      show (if c.display (pixel_index x y p.1 p.2) = 1 then upd c.V 15 1 else c.V) 15 = _
      split
      · exact upd_same _ _ _
      · rfl
    simp only [List.foldl_cons]
    by_cases htail : ∃ q, q ∈ L ∧ c.display (pixel_index x y q.1 q.2) = 1
    · have h1 : (L.foldl (pixel_effect x y) (pixel_effect x y c p)).V 15 = 1 := by
        obtain ⟨q, hq, hq1⟩ := htail
        exact ih1 ⟨q, hq, by rw [hdisp q hq]; exact hq1⟩
      refine ⟨fun _ => h1, fun hno => ?_⟩
      obtain ⟨q, hq, hq1⟩ := htail
      exact absurd ⟨q, List.mem_cons_of_mem _ hq, hq1⟩ hno
    · have h2 : (L.foldl (pixel_effect x y) (pixel_effect x y c p)).V 15 =
          (pixel_effect x y c p).V 15 := by
        apply ih2
        rintro ⟨q, hq, hq1⟩
        exact htail ⟨q, hq, by rw [← hdisp q hq]; exact hq1⟩
      rw [h2, hV]
      constructor
      · rintro ⟨q, hq, hq1⟩
        rw [List.mem_cons] at hq
        rcases hq with hq | hq
        · subst hq
          rw [if_pos hq1]
        · exact absurd ⟨q, hq, hq1⟩ htail
      · intro hno
        rw [if_neg]
        intro hp1
        exact hno ⟨p, List.mem_cons_self _ _, hp1⟩

/-- When each cell is visited at most once, the loop bodies report, in order,
each visited cell with its wrapped coordinates and its value XOR 1, if the
draw-pixel callback is present, and report nothing otherwise. -/
theorem foldl_pixel_effect_calls (x y : Nat) (L : List (Nat × Nat)) :
    ∀ c : g2chip, (L.map (fun p => pixel_index x y p.1 p.2)).Nodup →
      (L.foldl (pixel_effect x y) c).host_calls =
        c.host_calls ++
          (if c.config.display_draw_pixel = true then
            L.map (fun p => host_call.display_draw_pixel ((x + p.2) % G2CHIP_DISPLAY_WIDTH)
              ((y + p.1) % G2CHIP_DISPLAY_HEIGHT) (c.display (pixel_index x y p.1 p.2) ^^^ 1))
          else []) := by
  induction L with
  | nil => intro c _; simp
  | cons p L ih =>
    intro c hnd
    rw [List.map_cons, List.nodup_cons] at hnd
    simp only [List.foldl_cons]
    rw [ih (pixel_effect x y c p) hnd.2]
    have hcfg : (pixel_effect x y c p).config = c.config := rfl
    rw [hcfg]
    have hmap : L.map (fun q => host_call.display_draw_pixel ((x + q.2) % G2CHIP_DISPLAY_WIDTH)
          ((y + q.1) % G2CHIP_DISPLAY_HEIGHT)
          ((pixel_effect x y c p).display (pixel_index x y q.1 q.2) ^^^ 1)) =
        L.map (fun q => host_call.display_draw_pixel ((x + q.2) % G2CHIP_DISPLAY_WIDTH)
          ((y + q.1) % G2CHIP_DISPLAY_HEIGHT) (c.display (pixel_index x y q.1 q.2) ^^^ 1)) := by
      apply List.map_congr_left
      intro q hq
      have : (pixel_effect x y c p).display (pixel_index x y q.1 q.2) =
          c.display (pixel_index x y q.1 q.2) := by
        show toggle c.display (pixel_index x y p.1 p.2) (pixel_index x y q.1 q.2) = _
        apply toggle_other
        intro he
        apply hnd.1
        rw [← he]
        exact List.mem_map_of_mem _ hq
      rw [this]
    rw [hmap]
    have hcalls : (pixel_effect x y c p).host_calls =
        if c.config.display_draw_pixel = true then
          c.host_calls ++
            [host_call.display_draw_pixel ((x + p.2) % G2CHIP_DISPLAY_WIDTH)
              ((y + p.1) % G2CHIP_DISPLAY_HEIGHT) (c.display (pixel_index x y p.1 p.2) ^^^ 1)]
        else c.host_calls := rfl
    rw [hcalls]
    by_cases hc : c.config.display_draw_pixel = true
    · simp [hc]
    · simp [hc]

/-- A mask test against a power of two reads one bit. -/
theorem and_two_pow_ne_zero (n k : Nat) : n &&& 2 ^ k ≠ 0 ↔ n.testBit k = true := by
  constructor
  · intro h
    by_contra hb
    apply h
    apply Nat.eq_of_testBit_eq
    intro i
    simp only [Nat.testBit_and, Nat.testBit_two_pow, Nat.zero_testBit]
    by_cases hi : k = i
    · subst hi
      simp [hb]
    · simp [hi]
  · intro hb h
    have h2 := congrArg (fun m => m.testBit k) h
    simp [Nat.testBit_two_pow_self, hb] at h2

/-- The mask test `sprite_byte & (0x80 >> col)` of `draw_sprite` reads bit
`7 - col`. -/
theorem sprite_bit_set (sprite_byte col : Nat) (hcol : col < 8) :
    sprite_byte &&& (0x80 >>> col) ≠ 0 ↔ sprite_byte.testBit (7 - col) = true := by
  interval_cases col
  · exact and_two_pow_ne_zero sprite_byte 7
  · exact and_two_pow_ne_zero sprite_byte 6
  · exact and_two_pow_ne_zero sprite_byte 5
  · exact and_two_pow_ne_zero sprite_byte 4
  · exact and_two_pow_ne_zero sprite_byte 3
  · exact and_two_pow_ne_zero sprite_byte 2
  · exact and_two_pow_ne_zero sprite_byte 1
  · exact and_two_pow_ne_zero sprite_byte 0

/-- What `draw_sprite` returns for a sprite of at most 32 rows: the display
cell by cell, and `V15` in terms of the cells lit before the draw. -/
theorem draw_sprite_flag (chip : g2chip) (x y n : Nat) (hn : n ≤ 32)
    (hI : chip.I + n ≤ 4096) :
    ∃ s, draw_sprite chip x y n = some s ∧ s.memory = chip.memory ∧ s.I = chip.I ∧
      s.config = chip.config ∧
      (∀ i, s.display i =
        if i ∈ (sprite_bits chip.memory chip.I n).map (fun p => pixel_index x y p.1 p.2) then
          chip.display i ^^^ 1
        else chip.display i) ∧
      ((∃ row col, row < n ∧ col < 8 ∧ chip.memory (chip.I + row) &&& (0x80 >>> col) ≠ 0 ∧
          chip.display (pixel_index x y row col) = 1) → s.V 15 = 1) ∧
      ((¬ ∃ row col, row < n ∧ col < 8 ∧ chip.memory (chip.I + row) &&& (0x80 >>> col) ≠ 0 ∧
          chip.display (pixel_index x y row col) = 1) → s.V 15 = 0) ∧
      (∀ j, j ≠ 15 → s.V j = chip.V j) := by
  obtain ⟨s, e, hm, hIe, hcfg, hd, hV, -⟩ := draw_sprite_fields chip x y n (Or.inr hI)
  have hnd := nodup_sprite_indices chip.memory chip.I n x y hn
  obtain ⟨h1, h2⟩ := foldl_pixel_effect_V_last x y (sprite_bits chip.memory chip.I n)
    (V_set_last chip 0) hnd
  refine ⟨s, e, hm, hIe, hcfg, ?_, ?_, ?_, ?_⟩
  · intro i
    rw [hd, foldl_toggle_nodup _ _ hnd]
  · rintro ⟨row, col, hr, hc, hb, hl⟩
    rw [hV]
    exact h1 ⟨(row, col), (mem_sprite_bits _ _ _ _).mpr ⟨hr, hc, hb⟩, hl⟩
  · intro hno
    rw [hV, h2]
    · simp [V_set_last, upd]
    · rintro ⟨p, hp, hl⟩
      rw [mem_sprite_bits] at hp
      exact hno ⟨p.1, p.2, hp.1, hp.2.1, hp.2.2, hl⟩
  · intro j hj
    rw [hV, foldl_pixel_effect_V_other x y _ _ j hj]
    exact upd_other _ _ _ _ hj

/-- The operation `^= 1` always changes the value. -/
theorem xor_one_ne (n : Nat) : n ^^^ 1 ≠ n := by
  intro h
  have h2 : (n ^^^ 1) ^^^ n = n ^^^ n := by rw [h]
  rw [Nat.xor_comm n 1, Nat.xor_assoc, Nat.xor_self, Nat.xor_zero] at h2
  exact absurd h2 (by decide)

/-- A computed display index is `py * 64 + px` exactly for the wrapped
coordinates. -/
theorem pixel_index_eq_iff (x y row col px py : Nat) (hpx : px < 64) :
    pixel_index x y row col = py * 64 + px ↔
      px = (x + col) % 64 ∧ py = (y + row) % 32 := by
  unfold pixel_index
  simp only [G2CHIP_DISPLAY_HEIGHT, G2CHIP_DISPLAY_WIDTH]
  omega

/-- The display cell `(px, py)` is visited by a draw exactly when some set
sprite bit wraps onto it. -/
theorem mem_sprite_indices (memory : Nat → Nat) (I n x y px py : Nat)
    (hpx : px < 64) :
    py * 64 + px ∈ (sprite_bits memory I n).map (fun p => pixel_index x y p.1 p.2) ↔
      ∃ row col, row < n ∧ col < 8 ∧ (memory (I + row)).testBit (7 - col) = true ∧
        px = (x + col) % 64 ∧ py = (y + row) % 32 := by
  rw [List.mem_map]
  constructor
  · rintro ⟨p, hp, he⟩
    rw [mem_sprite_bits] at hp
    exact ⟨p.1, p.2, hp.1, hp.2.1, (sprite_bit_set _ _ hp.2.1).mp hp.2.2,
      (pixel_index_eq_iff x y p.1 p.2 px py hpx).mp he⟩
  · rintro ⟨row, col, hr, hc, hb, h⟩
    exact ⟨(row, col), (mem_sprite_bits memory I n (row, col)).mpr
        ⟨hr, hc, (sprite_bit_set _ _ hc).mpr hb⟩,
      (pixel_index_eq_iff x y row col px py hpx).mpr h⟩

/-- The host calls of one `draw_sprite` of at most 32 rows. -/
theorem draw_sprite_calls (chip : g2chip) (x y n : Nat) (hn : n ≤ 32)
    (hI : chip.I + n ≤ 4096) :
    ∃ s, draw_sprite chip x y n = some s ∧
      s.host_calls = chip.host_calls ++
        (if chip.config.display_draw_pixel = true then
          (sprite_bits chip.memory chip.I n).map
            (fun p => host_call.display_draw_pixel ((x + p.2) % G2CHIP_DISPLAY_WIDTH)
              ((y + p.1) % G2CHIP_DISPLAY_HEIGHT) (chip.display (pixel_index x y p.1 p.2) ^^^ 1))
        else []) ++
        (if chip.config.display_refresh = true then [host_call.display_refresh] else []) := by
  obtain ⟨s, e, -, -, -, -, -, hc⟩ := draw_sprite_fields chip x y n (Or.inr hI)
  have hnd := nodup_sprite_indices chip.memory chip.I n x y hn
  refine ⟨s, e, ?_⟩
  rw [hc, foldl_pixel_effect_calls x y _ (V_set_last chip 0) hnd]
  rfl

/-! ## Fetch, decode and dispatch -/

/-- With `pc ≤ 4094` both instruction bytes are inside the memory and
`fetch_instruction` returns the decoded 16-bit word. -/
theorem fetch_instruction_some (chip : g2chip) (hpc : chip.pc ≤ 4094) :
    fetch_instruction chip =
      some (decode (((chip.memory chip.pc <<< 8) ||| chip.memory (chip.pc + 1)) % 65536)) := by
  have h0 : chip.pc < 4096 := by omega
  have h1 : chip.pc + 1 < 4096 := by omega
  simp [fetch_instruction, mem_get, h0, h1]

/-- When `fetch_instruction` returns, `pc ≤ 4094` and the result is the decoded
16-bit word. -/
theorem fetch_instruction_inv (chip : g2chip) (instr : g2chip_instruction)
    (h : fetch_instruction chip = some instr) :
    chip.pc ≤ 4094 ∧
      instr = decode (((chip.memory chip.pc <<< 8) ||| chip.memory (chip.pc + 1)) % 65536) := by
  by_cases hpc : chip.pc ≤ 4094
  · rw [fetch_instruction_some chip hpc] at h
    exact ⟨hpc, (Option.some.inj h).symm⟩
  · have h1 : ¬ chip.pc + 1 < 4096 := by omega
    simp [fetch_instruction, mem_get, h1] at h

/-- The fields of a decoded 16-bit word are in range. -/
theorem decode_fields (raw : Nat) (h : raw < 65536) :
    (decode raw).raw = raw ∧ (decode raw).opcode = raw / 4096 ∧ (decode raw).opcode < 16 ∧
      (decode raw).x < 16 ∧ (decode raw).y < 16 ∧ (decode raw).n < 16 ∧
      (decode raw).nn < 256 ∧ (decode raw).nnn < 4096 := by
  rw [decode_opcode, decode_x, decode_y, decode_n, decode_nn, decode_nnn]
  refine ⟨rfl, ?_, ?_, ?_, ?_, ?_, ?_, ?_⟩ <;> omega

/-- The function `execute_step` is the handler of the fetched class applied to
the machine with the program counter already advanced by 2. -/
theorem execute_step_eq (chip : g2chip) (host : host_answers) (instr : g2chip_instruction)
    (handler : g2chip → g2chip_instruction → host_answers → Option g2chip)
    (hf : fetch_instruction chip = some instr)
    (hh : instruction_handlers instr.opcode = some handler) :
    execute_step chip host = handler { chip with pc := chip.pc + 2 } instr host := by
  have hpc := (fetch_instruction_inv chip instr hf).1
  have h2 : (chip.pc + 2) % 65536 = chip.pc + 2 := by omega
  simp [execute_step, hf, hh, h2]

/-- The timer phase changes neither the program counter nor the memory, so
the same instruction is fetched after it. -/
theorem update_timers_fetch (chip : g2chip) (host : host_answers) :
    (update_timers chip host).pc = chip.pc ∧ (update_timers chip host).memory = chip.memory ∧
      fetch_instruction (update_timers chip host) = fetch_instruction chip := by
  obtain ⟨dt, st, lt, calls, ht⟩ := update_timers_frame chip host
  rw [ht]
  exact ⟨rfl, rfl, rfl⟩

/-- Every class below 16 has a handler. -/
theorem instruction_handlers_lt (opcode : Nat) (h : opcode < 16) :
    ∃ handler, instruction_handlers opcode = some handler := by
  unfold instruction_handlers
  interval_cases opcode <;> exact ⟨_, rfl⟩

/-- No class from 16 on has a handler. -/
theorem instruction_handlers_none (opcode : Nat) (h : ¬ opcode < 16) :
    instruction_handlers opcode = none := by
  have hn : ∀ k, k < 16 → opcode ≠ k := fun k hk he => h (he ▸ hk)
  simp [instruction_handlers, hn 0 (by decide), hn 1 (by decide), hn 2 (by decide),
    hn 3 (by decide), hn 4 (by decide), hn 5 (by decide), hn 6 (by decide), hn 7 (by decide),
    hn 8 (by decide), hn 9 (by decide), hn 10 (by decide), hn 11 (by decide),
    hn 12 (by decide), hn 13 (by decide), hn 14 (by decide), hn 15 (by decide)]

/-- The effect of `execute_step` on `6xnn`. -/
theorem execute_step_load_immediate (chip : g2chip) (host : host_answers) (x nn : Nat)
    (hx : x < 16) (hnn : nn < 256) (hpc : chip.pc ≤ 4094)
    (hhi : chip.memory chip.pc = 0x60 + x) (hlo : chip.memory (chip.pc + 1) = nn) :
    execute_step chip host = some { chip with pc := chip.pc + 2, V := upd chip.V x nn } := by
  have hraw : ((0x60 + x) * 256 + nn) % 65536 = 0x6000 + 256 * x + nn := by omega
  have hf := fetch_instruction_eq chip _ _ (by omega) hhi hlo hnn
  rw [hraw] at hf
  have hop : (decode (0x6000 + 256 * x + nn)).opcode = 6 := by rw [decode_opcode]; omega
  have hdx : (decode (0x6000 + 256 * x + nn)).x = x := by rw [decode_x]; omega
  have hdn : (decode (0x6000 + 256 * x + nn)).nn = nn := by rw [decode_nn]; omega
  have hh : instruction_handlers (decode (0x6000 + 256 * x + nn)).opcode =
      some (fun chip instr _ => instruction_handler_opcode_6 chip instr) := by
    rw [hop]; rfl
  rw [execute_step_eq chip host _ _ hf hh]
  simp [instruction_handler_opcode_6, V_set, hdx, hdn, hx]

/-! ## Unmatched instructions and key skips -/

/-- The function `instruction_not_implemented` changes no field of the
machine; it calls the debug log if that callback is present. -/
theorem instruction_not_implemented_frame (c : g2chip) (instr : g2chip_instruction) :
    (instruction_not_implemented c instr).V = c.V ∧
      (instruction_not_implemented c instr).I = c.I ∧
      (instruction_not_implemented c instr).memory = c.memory ∧
      (instruction_not_implemented c instr).stack = c.stack ∧
      (instruction_not_implemented c instr).sp = c.sp ∧
      (instruction_not_implemented c instr).display = c.display ∧
      (instruction_not_implemented c instr).delay_timer = c.delay_timer ∧
      (instruction_not_implemented c instr).sound_timer = c.sound_timer ∧
      (instruction_not_implemented c instr).pc = c.pc ∧
      (instruction_not_implemented c instr).last_time_ms = c.last_time_ms ∧
      (instruction_not_implemented c instr).config = c.config ∧
      (instruction_not_implemented c instr).host_calls =
        c.host_calls ++ (if c.config.debug_log = true then [host_call.debug_log] else []) := by
  unfold instruction_not_implemented
  cases c.config.debug_log <;> simp [notify]

/-- For an instruction word matched by no case, the handler of its class is
`instruction_not_implemented`. -/
theorem unmatched_handler (instr : g2chip_instruction) (host : host_answers)
    (hclass :
      (instr.opcode = 0 ∧ instr.nnn ≠ 0x0E0 ∧ instr.nnn ≠ 0x0EE) ∨
      (instr.opcode = 8 ∧ (instr.n = 0x8 ∨ instr.n = 0x9 ∨ instr.n = 0xA ∨ instr.n = 0xB ∨
        instr.n = 0xC ∨ instr.n = 0xD ∨ instr.n = 0xF)) ∨
      (instr.opcode = 0xE ∧ instr.nn ≠ 0x9E ∧ instr.nn ≠ 0xA1) ∨
      (instr.opcode = 0xF ∧ instr.nn ≠ 0x07 ∧ instr.nn ≠ 0x0A ∧ instr.nn ≠ 0x15 ∧
        instr.nn ≠ 0x18 ∧ instr.nn ≠ 0x1E ∧ instr.nn ≠ 0x29 ∧ instr.nn ≠ 0x33 ∧
        instr.nn ≠ 0x55 ∧ instr.nn ≠ 0x65)) :
    ∃ handler, instruction_handlers instr.opcode = some handler ∧
      ∀ c : g2chip, handler c instr host = some (instruction_not_implemented c instr) := by
  rcases hclass with ⟨ho, h1, h2⟩ | ⟨ho, hn⟩ | ⟨ho, h1, h2⟩ |
    ⟨ho, h1, h2, h3, h4, h5, h6, h7, h8, h9⟩
  · refine ⟨_, by rw [ho]; rfl, fun c => ?_⟩
    simp [instruction_handler_opcode_0, h1, h2]
  · refine ⟨_, by rw [ho]; rfl, fun c => ?_⟩
    rcases hn with hn | hn | hn | hn | hn | hn | hn <;>
      simp [instruction_handler_opcode_8, hn]
  · refine ⟨_, by rw [ho]; rfl, fun c => ?_⟩
    simp [instruction_handler_opcode_E, h1, h2]
  · refine ⟨_, by rw [ho]; rfl, fun c => ?_⟩
    simp [instruction_handler_opcode_F, h1, h2, h3, h4, h5, h6, h7, h8, h9]

/-- Case `0x9E` of `instruction_handler_opcode_E` evaluated. -/
theorem opcode_E_case_9E (chip : g2chip) (instr : g2chip_instruction) (host : host_answers)
    (hnn : instr.nn = 0x9E) (hx : instr.x < 16) :
    instruction_handler_opcode_E chip instr host =
      some (if chip.config.key_is_pressed = true ∧ host.key_is_pressed (chip.V instr.x) ≠ 0 then
          { chip with pc := (chip.pc + 2) % 65536 }
        else chip) := by
  by_cases hc : chip.config.key_is_pressed = true <;>
    by_cases hk : host.key_is_pressed (chip.V instr.x) = 0 <;>
    simp [instruction_handler_opcode_E, hnn, V_get, hx, hc, hk]

/-- Case `0xA1` of `instruction_handler_opcode_E` evaluated. -/
theorem opcode_E_case_A1 (chip : g2chip) (instr : g2chip_instruction) (host : host_answers)
    (hnn : instr.nn = 0xA1) (hx : instr.x < 16) :
    instruction_handler_opcode_E chip instr host =
      some (if chip.config.key_is_pressed = true ∧ host.key_is_pressed (chip.V instr.x) = 0 then
          { chip with pc := (chip.pc + 2) % 65536 }
        else chip) := by
  by_cases hc : chip.config.key_is_pressed = true <;>
    by_cases hk : host.key_is_pressed (chip.V instr.x) = 0 <;>
    simp [instruction_handler_opcode_E, hnn, V_get, hx, hc, hk]

/-- A step that executes `Ex9E` or `ExA1`: the timer phase, then the program
counter moves by 4 if the callback is present and the key state matches the
instruction, and by 2 otherwise. -/
theorem g2chip_step_key (chip : g2chip) (host : host_answers) (instr : g2chip_instruction)
    (hf : fetch_instruction chip = some instr) (ho : instr.opcode = 0xE)
    (hnn : instr.nn = 0x9E ∨ instr.nn = 0xA1) :
    g2chip_step chip host =
      some (if chip.config.key_is_pressed = true ∧
            (host.key_is_pressed (chip.V instr.x) ≠ 0 ↔ instr.nn = 0x9E) then
          { update_timers chip host with pc := chip.pc + 4 }
        else { update_timers chip host with pc := chip.pc + 2 }) := by
  obtain ⟨hpc, hd⟩ := fetch_instruction_inv chip instr hf
  have hx : instr.x < 16 := by rw [hd, decode_x]; omega
  obtain ⟨dt, st, lt, calls, ht⟩ := update_timers_frame chip host
  have hf2 : fetch_instruction (update_timers chip host) = some instr := by
    rw [(update_timers_fetch chip host).2.2]; exact hf
  have hh : instruction_handlers instr.opcode = some instruction_handler_opcode_E := by
    rw [ho]; rfl
  have e : g2chip_step chip host = execute_step (update_timers chip host) host := rfl
  rw [e, execute_step_eq _ host instr _ hf2 hh]
  have h4 : (chip.pc + 2 + 2) % 65536 = chip.pc + 4 := by omega
  rcases hnn with hnn | hnn
  · rw [opcode_E_case_9E _ instr host hnn hx, ht]
    by_cases hc : chip.config.key_is_pressed = true <;>
      by_cases hk : host.key_is_pressed (chip.V instr.x) = 0 <;>
      simp [hc, hk, hnn, h4]
  · rw [opcode_E_case_A1 _ instr host hnn hx, ht]
    by_cases hc : chip.config.key_is_pressed = true <;>
      by_cases hk : host.key_is_pressed (chip.V instr.x) = 0 <;>
      simp [hc, hk, hnn, h4]

/-! ## Every handler returns -/

/-- A returned machine is returned. -/
theorem returns_some {c : g2chip} : ∃ s, some c = some s := ⟨c, rfl⟩

/-- A conditional returns when both branches return. -/
theorem returns_ite {p : Prop} [Decidable p] {a b : Option g2chip}
    (ha : ∃ s, a = some s) (hb : ∃ s, b = some s) : ∃ s, (if p then a else b) = some s := by
  split
  · exact ha
  · exact hb

/-- Sequencing after a register read inside the register file. -/
theorem returns_V_get {c : g2chip} {i : Nat} {f : Nat → Option g2chip} (hi : i < 16)
    (h : ∃ s, f (c.V i) = some s) : ∃ s, (V_get c i).bind f = some s := by
  simp only [V_get, G2CHIP_REGISTER_COUNT, hi, if_true, Option.some_bind]
  exact h

/-- A register store inside the register file returns. -/
theorem returns_V_set {c : g2chip} {i v : Nat} (hi : i < 16) : ∃ s, V_set c i v = some s := by
  simp only [V_set, G2CHIP_REGISTER_COUNT, hi, if_true]
  exact ⟨_, rfl⟩

/-- The handler of class `0x0` returns when the stack pointer is at most 16. -/
theorem opcode_0_returns (c : g2chip) (instr : g2chip_instruction) (hsp : c.sp ≤ 16) :
    ∃ s, instruction_handler_opcode_0 c instr = some s := by
  unfold instruction_handler_opcode_0 instruction_return_from_subroutine
  refine returns_ite returns_some (returns_ite (returns_ite returns_some ?_) returns_some)
  have h : c.sp - 1 < 16 := by omega
  simp [stack_get, h]

/-- The handler of class `0x2` returns when the stack has room. -/
theorem opcode_2_returns (c : g2chip) (instr : g2chip_instruction) (hsp : c.sp < 16) :
    ∃ s, instruction_handler_opcode_2 c instr = some s := by
  simp [instruction_handler_opcode_2, stack_set, hsp]

/-- The handler of class `0x3` returns. -/
theorem opcode_3_returns (c : g2chip) (instr : g2chip_instruction) (hx : instr.x < 16) :
    ∃ s, instruction_handler_opcode_3 c instr = some s := by
  unfold instruction_handler_opcode_3
  exact returns_V_get hx returns_some

/-- The handler of class `0x4` returns. -/
theorem opcode_4_returns (c : g2chip) (instr : g2chip_instruction) (hx : instr.x < 16) :
    ∃ s, instruction_handler_opcode_4 c instr = some s := by
  unfold instruction_handler_opcode_4
  exact returns_V_get hx returns_some

/-- The handler of class `0x5` returns. -/
theorem opcode_5_returns (c : g2chip) (instr : g2chip_instruction) (hx : instr.x < 16)
    (hy : instr.y < 16) : ∃ s, instruction_handler_opcode_5 c instr = some s := by
  unfold instruction_handler_opcode_5
  exact returns_V_get hx (returns_V_get hy returns_some)

/-- The handler of class `0x6` returns. -/
theorem opcode_6_returns (c : g2chip) (instr : g2chip_instruction) (hx : instr.x < 16) :
    ∃ s, instruction_handler_opcode_6 c instr = some s := by
  unfold instruction_handler_opcode_6
  exact returns_V_set hx

/-- The handler of class `0x7` returns. -/
theorem opcode_7_returns (c : g2chip) (instr : g2chip_instruction) (hx : instr.x < 16) :
    ∃ s, instruction_handler_opcode_7 c instr = some s := by
  unfold instruction_handler_opcode_7
  exact returns_V_get hx (returns_V_set hx)

/-- The handler of class `0x8` returns. -/
theorem opcode_8_returns (c : g2chip) (instr : g2chip_instruction) (hx : instr.x < 16)
    (hy : instr.y < 16) : ∃ s, instruction_handler_opcode_8 c instr = some s := by
  unfold instruction_handler_opcode_8
  repeat' first
    | exact returns_some
    | exact returns_V_set hx
    | apply returns_V_get hx
    | apply returns_V_get hy
    | apply returns_ite

/-- The handler of class `0x9` returns. -/
theorem opcode_9_returns (c : g2chip) (instr : g2chip_instruction) (hx : instr.x < 16)
    (hy : instr.y < 16) : ∃ s, instruction_handler_opcode_9 c instr = some s := by
  unfold instruction_handler_opcode_9
  exact returns_V_get hx (returns_V_get hy returns_some)

/-- The handler of class `0xC` returns. -/
theorem opcode_C_returns (c : g2chip) (instr : g2chip_instruction) (host : host_answers)
    (hx : instr.x < 16) : ∃ s, instruction_handler_opcode_C c instr host = some s := by
  unfold instruction_handler_opcode_C
  exact returns_ite returns_some (returns_V_set hx)

/-- The handler of class `0xD` returns when the sprite rows are inside the
memory. -/
theorem opcode_D_returns (c : g2chip) (instr : g2chip_instruction) (hx : instr.x < 16)
    (hy : instr.y < 16) (hI : c.I + instr.n ≤ 4096) :
    ∃ s, instruction_handler_opcode_D c instr = some s := by
  unfold instruction_handler_opcode_D
  refine returns_V_get hx (returns_V_get hy ?_)
  obtain ⟨s, e, -⟩ := draw_sprite_fields c (c.V instr.x) (c.V instr.y) instr.n (Or.inr hI)
  exact ⟨s, e⟩

/-- The handler of class `0xE` returns. -/
theorem opcode_E_returns (c : g2chip) (instr : g2chip_instruction) (host : host_answers)
    (hx : instr.x < 16) : ∃ s, instruction_handler_opcode_E c instr host = some s := by
  unfold instruction_handler_opcode_E
  repeat' first
    | exact returns_some
    | apply returns_V_get hx
    | apply returns_ite

/-- The handler of class `0xF` returns when sixteen bytes from `I` on are inside
the memory. -/
theorem opcode_F_returns (c : g2chip) (instr : g2chip_instruction) (host : host_answers)
    (hx : instr.x < 16) (hI : c.I + 16 ≤ 4096) :
    ∃ s, instruction_handler_opcode_F c instr host = some s := by
  by_cases h33 : instr.nn = 0x33
  · exact ⟨_, opcode_F_case_33 c instr host h33 hx (by omega)⟩
  by_cases h55 : instr.nn = 0x55
  · rw [opcode_F_case_55 c instr host h55]
    obtain ⟨s, e, -⟩ := opcode_F_store_loop_eq (instr.x + 1) c (by omega) (by omega)
    exact ⟨s, e⟩
  by_cases h65 : instr.nn = 0x65
  · rw [opcode_F_case_65 c instr host h65]
    obtain ⟨s, e, -⟩ := opcode_F_load_loop_eq (instr.x + 1) c (by omega) (by omega)
    exact ⟨s, e⟩
  unfold instruction_handler_opcode_F
  simp only [h33, h55, h65, if_false]
  repeat' first
    | exact returns_some
    | exact returns_V_set hx
    | apply returns_V_get hx
    | apply returns_ite

/-- With `pc ≤ 4094`, `I ≤ 4080` and `sp ≤ 15`, `execute_step` returns
whatever the instruction word and the host answers are. -/
theorem execute_step_returns (c : g2chip) (host : host_answers)
    (hpc : c.pc ≤ 4094) (hI : c.I ≤ 4080) (hsp : c.sp ≤ 15) :
    ∃ s, execute_step c host = some s := by
  have hf := fetch_instruction_some c hpc
  generalize hraw : ((c.memory c.pc <<< 8) ||| c.memory (c.pc + 1)) % 65536 = raw at hf
  have hlt : raw < 65536 := by rw [← hraw]; exact Nat.mod_lt _ (by decide)
  obtain ⟨-, -, hop, hx, hy, hn, -, -⟩ := decode_fields raw hlt
  generalize hinstr : decode raw = instr at hf hop hx hy hn
  obtain ⟨k, hk⟩ : ∃ k, instr.opcode = k := ⟨_, rfl⟩
  rw [hk] at hop
  have step : ∀ handler, instruction_handlers k = some handler →
      (∃ s, handler { c with pc := c.pc + 2 } instr host = some s) →
      ∃ s, execute_step c host = some s := by
    intro handler hh hret
    rw [execute_step_eq c host instr handler hf (by rw [hk]; exact hh)]
    exact hret
  interval_cases k
  · exact step _ rfl (opcode_0_returns _ instr (by show c.sp ≤ 16; omega))
  · exact step _ rfl returns_some
  · exact step _ rfl (opcode_2_returns _ instr (by show c.sp < 16; omega))
  · exact step _ rfl (opcode_3_returns _ instr hx)
  · exact step _ rfl (opcode_4_returns _ instr hx)
  · exact step _ rfl (opcode_5_returns _ instr hx hy)
  · exact step _ rfl (opcode_6_returns _ instr hx)
  · exact step _ rfl (opcode_7_returns _ instr hx)
  · exact step _ rfl (opcode_8_returns _ instr hx hy)
  · exact step _ rfl (opcode_9_returns _ instr hx hy)
  · exact step _ rfl returns_some
  · exact step _ rfl returns_some
  · exact step _ rfl (opcode_C_returns _ instr host hx)
  · exact step _ rfl (opcode_D_returns _ instr hx hy (by show c.I + instr.n ≤ 4096; omega))
  · exact step _ rfl (opcode_E_returns _ instr host hx)
  · exact step _ rfl (opcode_F_returns _ instr host hx (by show c.I + 16 ≤ 4096; omega))

/-- With `pc ≤ 4094`, `I ≤ 4080` and `sp ≤ 15`, `g2chip_step` returns whatever
the instruction word and the host answers are. -/
theorem g2chip_step_returns (c : g2chip) (host : host_answers)
    (hpc : c.pc ≤ 4094) (hI : c.I ≤ 4080) (hsp : c.sp ≤ 15) :
    ∃ s, g2chip_step c host = some s := by
  obtain ⟨dt, st, lt, calls, ht⟩ := update_timers_frame c host
  exact execute_step_returns (update_timers c host) host (by rw [ht]; exact hpc)
    (by rw [ht]; exact hI) (by rw [ht]; exact hsp)

/-! ## The display through the handlers: basics -/

/-- A machine keeps its own display. -/
theorem display_kept_refl (c : g2chip) : display_kept c c :=
  ⟨rfl, [], (List.append_nil _).symm, fun _ _ _ h => absurd h (List.not_mem_nil _)⟩

/-- A host call other than draw-pixel keeps the display. -/
theorem display_kept_notify (c0 c : g2chip) (call : host_call)
    (hcall : ∀ x y st, call ≠ host_call.display_draw_pixel x y st)
    (h : display_kept c0 c) : display_kept c0 (notify c call) := by
  obtain ⟨hd, l, hl, hno⟩ := h
  refine ⟨hd, l ++ [call], ?_, ?_⟩
  · show c.host_calls ++ [call] = _
    rw [hl, List.append_assoc]
  · intro x y st hmem
    rw [List.mem_append, List.mem_singleton] at hmem
    rcases hmem with hmem | hmem
    · exact hno x y st hmem
    · exact hcall x y st hmem.symm

/-- A debug log keeps the display. -/
theorem display_kept_log (c0 c : g2chip) (h : display_kept c0 c) :
    display_kept c0 (if c.config.debug_log = true then notify c host_call.debug_log else c) := by
  split
  · exact display_kept_notify c0 c _ (fun _ _ _ hh => by cases hh) h
  · exact h

/-- Logging an unmatched instruction keeps the display. -/
theorem display_kept_not_implemented (c0 c : g2chip) (instr : g2chip_instruction)
    (h : display_kept c0 c) : display_kept c0 (instruction_not_implemented c instr) :=
  display_kept_log c0 c h

/-- The timer phase keeps the display and makes no draw-pixel call. -/
theorem update_timers_display_kept (c : g2chip) (host : host_answers) :
    display_kept c (update_timers c host) := by
  by_cases hf : c.config.get_time_ms = true ∧
      16 ≤ (host.get_time_ms + 2 ^ 32 - c.last_time_ms) % 2 ^ 32
  · rw [update_timers_fired c host hf.1 hf.2]
    refine ⟨rfl, ?_⟩
    dsimp only
    split
    · exact ⟨[host_call.sound_beep_stop], rfl, fun x y st h => by simp at h⟩
    · exact ⟨[], (List.append_nil _).symm, fun _ _ _ h => absurd h (List.not_mem_nil _)⟩
  · rw [update_timers_idle c host (by
      by_cases hc : c.config.get_time_ms = true
      · exact Or.inr (Nat.lt_of_not_le (fun h => hf ⟨hc, h⟩))
      · exact Or.inl (by simpa using hc))]
    exact display_kept_refl c

/-! ## The display through the handlers: classes 1 to 9 -/

/-- The handler of class `0x1` keeps the display. -/
theorem opcode_1_display_kept (c0 c : g2chip) (instr : g2chip_instruction)
    (hc : display_kept c0 c) :
    ensures (display_kept c0) (instruction_handler_opcode_1 c instr) := by
  unfold instruction_handler_opcode_1
  repeat' first
    | exact ensures_none
    | exact hc
    | exact display_kept_not_implemented c0 c instr hc
    | exact display_kept_log c0 c hc
    | (show display_kept _ _; split <;> exact hc)
    | (show display_kept _ _; dsimp only; split <;> exact hc)
    | (show ensures _ _; apply ensures_V_set)
    | (show ensures _ _; apply ensures_mem_set)
    | (show ensures _ _; apply ensures_bind_get; intro _)
    | (show ensures _ _; apply ensures_ite)
    | (show ensures _ _; apply ensures_some)

/-- The handler of class `0x3` keeps the display. -/
theorem opcode_3_display_kept (c0 c : g2chip) (instr : g2chip_instruction)
    (hc : display_kept c0 c) :
    ensures (display_kept c0) (instruction_handler_opcode_3 c instr) := by
  unfold instruction_handler_opcode_3
  repeat' first
    | exact ensures_none
    | exact hc
    | exact display_kept_not_implemented c0 c instr hc
    | exact display_kept_log c0 c hc
    | (show display_kept _ _; split <;> exact hc)
    | (show display_kept _ _; dsimp only; split <;> exact hc)
    | (show ensures _ _; apply ensures_V_set)
    | (show ensures _ _; apply ensures_mem_set)
    | (show ensures _ _; apply ensures_bind_get; intro _)
    | (show ensures _ _; apply ensures_ite)
    | (show ensures _ _; apply ensures_some)

/-- The handler of class `0x4` keeps the display. -/
theorem opcode_4_display_kept (c0 c : g2chip) (instr : g2chip_instruction)
    (hc : display_kept c0 c) :
    ensures (display_kept c0) (instruction_handler_opcode_4 c instr) := by
  unfold instruction_handler_opcode_4
  repeat' first
    | exact ensures_none
    | exact hc
    | exact display_kept_not_implemented c0 c instr hc
    | exact display_kept_log c0 c hc
    | (show display_kept _ _; split <;> exact hc)
    | (show display_kept _ _; dsimp only; split <;> exact hc)
    | (show ensures _ _; apply ensures_V_set)
    | (show ensures _ _; apply ensures_mem_set)
    | (show ensures _ _; apply ensures_bind_get; intro _)
    | (show ensures _ _; apply ensures_ite)
    | (show ensures _ _; apply ensures_some)

/-- The handler of class `0x5` keeps the display. -/
theorem opcode_5_display_kept (c0 c : g2chip) (instr : g2chip_instruction)
    (hc : display_kept c0 c) :
    ensures (display_kept c0) (instruction_handler_opcode_5 c instr) := by
  unfold instruction_handler_opcode_5
  repeat' first
    | exact ensures_none
    | exact hc
    | exact display_kept_not_implemented c0 c instr hc
    | exact display_kept_log c0 c hc
    | (show display_kept _ _; split <;> exact hc)
    | (show display_kept _ _; dsimp only; split <;> exact hc)
    | (show ensures _ _; apply ensures_V_set)
    | (show ensures _ _; apply ensures_mem_set)
    | (show ensures _ _; apply ensures_bind_get; intro _)
    | (show ensures _ _; apply ensures_ite)
    | (show ensures _ _; apply ensures_some)

/-- The handler of class `0x6` keeps the display. -/
theorem opcode_6_display_kept (c0 c : g2chip) (instr : g2chip_instruction)
    (hc : display_kept c0 c) :
    ensures (display_kept c0) (instruction_handler_opcode_6 c instr) := by
  unfold instruction_handler_opcode_6
  repeat' first
    | exact ensures_none
    | exact hc
    | exact display_kept_not_implemented c0 c instr hc
    | exact display_kept_log c0 c hc
    | (show display_kept _ _; split <;> exact hc)
    | (show display_kept _ _; dsimp only; split <;> exact hc)
    | (show ensures _ _; apply ensures_V_set)
    | (show ensures _ _; apply ensures_mem_set)
    | (show ensures _ _; apply ensures_bind_get; intro _)
    | (show ensures _ _; apply ensures_ite)
    | (show ensures _ _; apply ensures_some)

/-- The handler of class `0x7` keeps the display. -/
theorem opcode_7_display_kept (c0 c : g2chip) (instr : g2chip_instruction)
    (hc : display_kept c0 c) :
    ensures (display_kept c0) (instruction_handler_opcode_7 c instr) := by
  unfold instruction_handler_opcode_7
  repeat' first
    | exact ensures_none
    | exact hc
    | exact display_kept_not_implemented c0 c instr hc
    | exact display_kept_log c0 c hc
    | (show display_kept _ _; split <;> exact hc)
    | (show display_kept _ _; dsimp only; split <;> exact hc)
    | (show ensures _ _; apply ensures_V_set)
    | (show ensures _ _; apply ensures_mem_set)
    | (show ensures _ _; apply ensures_bind_get; intro _)
    | (show ensures _ _; apply ensures_ite)
    | (show ensures _ _; apply ensures_some)

/-- The handler of class `0x8` keeps the display. -/
theorem opcode_8_display_kept (c0 c : g2chip) (instr : g2chip_instruction)
    (hc : display_kept c0 c) :
    ensures (display_kept c0) (instruction_handler_opcode_8 c instr) := by
  unfold instruction_handler_opcode_8
  repeat' first
    | exact ensures_none
    | exact hc
    | exact display_kept_not_implemented c0 c instr hc
    | exact display_kept_log c0 c hc
    | (show display_kept _ _; split <;> exact hc)
    | (show display_kept _ _; dsimp only; split <;> exact hc)
    | (show ensures _ _; apply ensures_V_set)
    | (show ensures _ _; apply ensures_mem_set)
    | (show ensures _ _; apply ensures_bind_get; intro _)
    | (show ensures _ _; apply ensures_ite)
    | (show ensures _ _; apply ensures_some)

/-- The handler of class `0x9` keeps the display. -/
theorem opcode_9_display_kept (c0 c : g2chip) (instr : g2chip_instruction)
    (hc : display_kept c0 c) :
    ensures (display_kept c0) (instruction_handler_opcode_9 c instr) := by
  unfold instruction_handler_opcode_9
  repeat' first
    | exact ensures_none
    | exact hc
    | exact display_kept_not_implemented c0 c instr hc
    | exact display_kept_log c0 c hc
    | (show display_kept _ _; split <;> exact hc)
    | (show display_kept _ _; dsimp only; split <;> exact hc)
    | (show ensures _ _; apply ensures_V_set)
    | (show ensures _ _; apply ensures_mem_set)
    | (show ensures _ _; apply ensures_bind_get; intro _)
    | (show ensures _ _; apply ensures_ite)
    | (show ensures _ _; apply ensures_some)

/-! ## The display through the handlers: the other classes -/

/-- The handler of class `0xA` keeps the display. -/
theorem opcode_A_display_kept (c0 c : g2chip) (instr : g2chip_instruction)
    (hc : display_kept c0 c) :
    ensures (display_kept c0) (instruction_handler_opcode_A c instr) := by
  unfold instruction_handler_opcode_A
  repeat' first
    | exact ensures_none
    | exact hc
    | exact display_kept_not_implemented c0 c instr hc
    | exact display_kept_log c0 c hc
    | (show display_kept _ _; split <;> exact hc)
    | (show display_kept _ _; dsimp only; split <;> exact hc)
    | (show ensures _ _; apply ensures_V_set)
    | (show ensures _ _; apply ensures_mem_set)
    | (show ensures _ _; apply ensures_bind_get; intro _)
    | (show ensures _ _; apply ensures_ite)
    | (show ensures _ _; apply ensures_some)

/-- The handler of class `0xB` keeps the display. -/
theorem opcode_B_display_kept (c0 c : g2chip) (instr : g2chip_instruction)
    (hc : display_kept c0 c) :
    ensures (display_kept c0) (instruction_handler_opcode_B c instr) := by
  unfold instruction_handler_opcode_B
  repeat' first
    | exact ensures_none
    | exact hc
    | exact display_kept_not_implemented c0 c instr hc
    | exact display_kept_log c0 c hc
    | (show display_kept _ _; split <;> exact hc)
    | (show display_kept _ _; dsimp only; split <;> exact hc)
    | (show ensures _ _; apply ensures_V_set)
    | (show ensures _ _; apply ensures_mem_set)
    | (show ensures _ _; apply ensures_bind_get; intro _)
    | (show ensures _ _; apply ensures_ite)
    | (show ensures _ _; apply ensures_some)

/-- The handler of class `0xC` keeps the display. -/
theorem opcode_C_display_kept (c0 c : g2chip) (instr : g2chip_instruction) (host : host_answers)
    (hc : display_kept c0 c) :
    ensures (display_kept c0) (instruction_handler_opcode_C c instr host) := by
  unfold instruction_handler_opcode_C
  repeat' first
    | exact ensures_none
    | exact hc
    | exact display_kept_not_implemented c0 c instr hc
    | exact display_kept_log c0 c hc
    | (show display_kept _ _; split <;> exact hc)
    | (show display_kept _ _; dsimp only; split <;> exact hc)
    | (show ensures _ _; apply ensures_V_set)
    | (show ensures _ _; apply ensures_mem_set)
    | (show ensures _ _; apply ensures_bind_get; intro _)
    | (show ensures _ _; apply ensures_ite)
    | (show ensures _ _; apply ensures_some)

/-- The handler of class `0xE` keeps the display. -/
theorem opcode_E_display_kept (c0 c : g2chip) (instr : g2chip_instruction) (host : host_answers)
    (hc : display_kept c0 c) :
    ensures (display_kept c0) (instruction_handler_opcode_E c instr host) := by
  unfold instruction_handler_opcode_E
  repeat' first
    | exact ensures_none
    | exact hc
    | exact display_kept_not_implemented c0 c instr hc
    | exact display_kept_log c0 c hc
    | (show display_kept _ _; split <;> exact hc)
    | (show display_kept _ _; dsimp only; split <;> exact hc)
    | (show ensures _ _; apply ensures_V_set)
    | (show ensures _ _; apply ensures_mem_set)
    | (show ensures _ _; apply ensures_bind_get; intro _)
    | (show ensures _ _; apply ensures_ite)
    | (show ensures _ _; apply ensures_some)

/-- The handler of class `0x0` keeps the display unless the instruction is
`00E0`. -/
theorem opcode_0_display_kept (c0 c : g2chip) (instr : g2chip_instruction)
    (hnnn : instr.nnn ≠ 0x0E0) (hc : display_kept c0 c) :
    ensures (display_kept c0) (instruction_handler_opcode_0 c instr) := by
  unfold instruction_handler_opcode_0 instruction_return_from_subroutine
  rw [if_neg hnnn]
  repeat' first
    | exact ensures_none
    | exact hc
    | exact display_kept_not_implemented c0 c instr hc
    | exact display_kept_log c0 c hc
    | (show ensures _ _; apply ensures_bind_get; intro _)
    | (show ensures _ _; apply ensures_ite)
    | (show ensures _ _; apply ensures_some)

/-- The handler of class `0x2` keeps the display. -/
theorem opcode_2_display_kept (c0 c : g2chip) (instr : g2chip_instruction)
    (hc : display_kept c0 c) :
    ensures (display_kept c0) (instruction_handler_opcode_2 c instr) := by
  unfold instruction_handler_opcode_2
  refine @ensures_bind _ (display_kept c0) _ _ ?_ ?_
  · apply ensures_stack_set
    intro _
    exact hc
  · intro c2 h2
    apply ensures_some
    exact h2

/-- The loop of `Fx55` keeps the display. -/
theorem opcode_F_store_loop_display_kept (c0 : g2chip) (n : Nat) :
    ∀ c : g2chip, display_kept c0 c → ensures (display_kept c0) (opcode_F_store_loop n c) := by
  induction n with
  | zero => intro c hc; exact ensures_some hc
  | succ n ih =>
    intro c hc
    unfold opcode_F_store_loop
    refine @ensures_bind _ (display_kept c0) _ _ (ih c hc) ?_
    intro c2 h2
    apply ensures_bind_get; intro _
    exact ensures_mem_set h2

/-- The loop of `Fx65` keeps the display. -/
theorem opcode_F_load_loop_display_kept (c0 : g2chip) (n : Nat) :
    ∀ c : g2chip, display_kept c0 c → ensures (display_kept c0) (opcode_F_load_loop n c) := by
  induction n with
  | zero => intro c hc; exact ensures_some hc
  | succ n ih =>
    intro c hc
    unfold opcode_F_load_loop
    refine @ensures_bind _ (display_kept c0) _ _ (ih c hc) ?_
    intro c2 h2
    apply ensures_bind_get; intro _
    exact ensures_V_set h2

/-- The three stores of `Fx33` keep the display. -/
theorem opcode_F_33_display_kept (c0 c : g2chip) (instr : g2chip_instruction)
    (hc : display_kept c0 c) :
    ensures (display_kept c0) (do
      let vx ← V_get c instr.x
      let chip ← mem_set c c.I (vx / 100)
      let vx ← V_get chip instr.x
      let chip ← mem_set chip (chip.I + 1) ((vx / 10) % 10)
      let vx ← V_get chip instr.x
      mem_set chip (chip.I + 2) (vx % 10)) := by
  apply ensures_bind_get; intro _
  refine @ensures_bind _ (display_kept c0) _ _ (ensures_mem_set hc) ?_
  intro c1 h1
  apply ensures_bind_get; intro _
  refine @ensures_bind _ (display_kept c0) _ _ (ensures_mem_set h1) ?_
  intro c2 h2
  apply ensures_bind_get; intro _
  exact ensures_mem_set h2

/-- The handler of class `0xF` keeps the display. -/
theorem opcode_F_display_kept (c0 c : g2chip) (instr : g2chip_instruction)
    (host : host_answers) (hc : display_kept c0 c) :
    ensures (display_kept c0) (instruction_handler_opcode_F c instr host) := by
  unfold instruction_handler_opcode_F
  repeat' first
    | exact ensures_none
    | exact hc
    | exact opcode_F_store_loop_display_kept c0 _ c hc
    | exact opcode_F_load_loop_display_kept c0 _ c hc
    | exact opcode_F_33_display_kept c0 c instr hc
    | exact display_kept_not_implemented c0 c instr hc
    | exact display_kept_log c0 c hc
    | (show display_kept _ _; split
       · exact display_kept_notify c0 _ _ (fun _ _ _ hh => by cases hh) hc
       · exact hc)
    | (show display_kept _ _; dsimp only; split
       · exact display_kept_notify c0 _ _ (fun _ _ _ hh => by cases hh) hc
       · exact hc)
    | (show ensures _ _; apply ensures_V_set)
    | (show ensures _ _; apply ensures_bind_get; intro _)
    | (show ensures _ _; apply ensures_ite)
    | (show ensures _ _; apply ensures_some)

/-! ## The display through a step -/

/-- One `execute_step` keeps the display when the fetched instruction is
neither `00E0` nor of class `0xD`. -/
theorem execute_step_display_kept (c0 c : g2chip) (host : host_answers)
    (hc : display_kept c0 c)
    (hno : ∀ instr, fetch_instruction c = some instr →
      ¬ (instr.opcode = 0 ∧ instr.nnn = 0x0E0) ∧ instr.opcode ≠ 13) :
    ensures (display_kept c0) (execute_step c host) := by
  intro s hs
  cases hf : fetch_instruction c with
  | none => simp [execute_step, hf] at hs
  | some instr =>
    obtain ⟨h00, hD⟩ := hno instr hf
    have hc2 : display_kept c0 { c with pc := c.pc + 2 } := hc
    by_cases hop : instr.opcode < 16
    · obtain ⟨k, hk⟩ : ∃ k, instr.opcode = k := ⟨_, rfl⟩
      rw [hk] at hop hD
      have step : ∀ handler, instruction_handlers k = some handler →
          ensures (display_kept c0) (handler { c with pc := c.pc + 2 } instr host) →
          display_kept c0 s := by
        intro handler hh he
        rw [execute_step_eq c host instr handler hf (by rw [hk]; exact hh)] at hs
        exact he s hs
      interval_cases k
      · exact step _ rfl (opcode_0_display_kept c0 _ instr (fun h => h00 ⟨hk, h⟩) hc2)
      · exact step _ rfl (opcode_1_display_kept c0 _ instr hc2)
      · exact step _ rfl (opcode_2_display_kept c0 _ instr hc2)
      · exact step _ rfl (opcode_3_display_kept c0 _ instr hc2)
      · exact step _ rfl (opcode_4_display_kept c0 _ instr hc2)
      · exact step _ rfl (opcode_5_display_kept c0 _ instr hc2)
      · exact step _ rfl (opcode_6_display_kept c0 _ instr hc2)
      · exact step _ rfl (opcode_7_display_kept c0 _ instr hc2)
      · exact step _ rfl (opcode_8_display_kept c0 _ instr hc2)
      · exact step _ rfl (opcode_9_display_kept c0 _ instr hc2)
      · exact step _ rfl (opcode_A_display_kept c0 _ instr hc2)
      · exact step _ rfl (opcode_B_display_kept c0 _ instr hc2)
      · exact step _ rfl (opcode_C_display_kept c0 _ instr host hc2)
      · exact absurd rfl hD
      · exact step _ rfl (opcode_E_display_kept c0 _ instr host hc2)
      · exact step _ rfl (opcode_F_display_kept c0 _ instr host hc2)
    · simp [execute_step, hf, instruction_handlers_none _ hop] at hs

/-- One `g2chip_step` keeps the display when the fetched instruction is
neither `00E0` nor of class `0xD`. -/
theorem g2chip_step_display_kept (c : g2chip) (host : host_answers)
    (hno : ∀ instr, fetch_instruction c = some instr →
      ¬ (instr.opcode = 0 ∧ instr.nnn = 0x0E0) ∧ instr.opcode ≠ 13) :
    ensures (display_kept c) (g2chip_step c host) := by
  refine execute_step_display_kept c (update_timers c host) host
    (update_timers_display_kept c host) ?_
  rw [(update_timers_fetch c host).2.2]
  exact hno

/-- The effect of `execute_step` on `00E0`. -/
theorem execute_step_clear (c : g2chip) (host : host_answers) (instr : g2chip_instruction)
    (hf : fetch_instruction c = some instr) (hop : instr.opcode = 0) (hnnn : instr.nnn = 0x0E0) :
    execute_step c host =
      some { c with
        pc := c.pc + 2, display := fun _ => 0,
        host_calls := if c.config.display_clear = true then
            c.host_calls ++ [host_call.display_clear]
          else c.host_calls } := by
  have hh : instruction_handlers instr.opcode =
      some (fun chip instr _ => instruction_handler_opcode_0 chip instr) := by
    rw [hop]; rfl
  rw [execute_step_eq c host instr _ hf hh]
  cases hcl : c.config.display_clear <;>
    simp [instruction_handler_opcode_0, hnnn, instruction_clear_display, hcl, notify]

/-! ## Binary display cells -/

/-- A machine with a binary display is binary from itself. -/
theorem binary_from_refl (c : g2chip) (h : ∀ i, c.display i ≤ 1) : binary_from c c :=
  ⟨h, [], (List.append_nil _).symm, fun _ _ _ hm => absurd hm (List.not_mem_nil _)⟩

/-- Keeping the display keeps it binary. -/
theorem binary_from_of_kept (c0 c s : g2chip) (hc : binary_from c0 c) (hk : display_kept c s) :
    binary_from c0 s := by
  obtain ⟨hd, l, hl, hb⟩ := hc
  obtain ⟨hd2, l2, hl2, hno⟩ := hk
  refine ⟨fun i => by rw [hd2]; exact hd i, l ++ l2, ?_, ?_⟩
  · rw [hl2, hl, List.append_assoc]
  · intro x y st hm
    rw [List.mem_append] at hm
    rcases hm with hm | hm
    · exact hb x y st hm
    · exact absurd hm (hno x y st)

/-- The operation `^= 1` maps 0 and 1 to 1 and 0. -/
theorem xor_one_le (d : Nat) (h : d ≤ 1) : d ^^^ 1 ≤ 1 := by
  interval_cases d <;> decide

/-- The body of the column loop of `draw_sprite` keeps the display binary and
reports 0 or 1. -/
theorem pixel_effect_binary (c0 c : g2chip) (x y : Nat) (p : Nat × Nat)
    (hc : binary_from c0 c) : binary_from c0 (pixel_effect x y c p) := by
  obtain ⟨hd, l, hl, hb⟩ := hc
  have hx := xor_one_le _ (hd (pixel_index x y p.1 p.2))
  constructor
  · intro i
    show toggle c.display (pixel_index x y p.1 p.2) i ≤ 1
    by_cases hi : i = pixel_index x y p.1 p.2
    · rw [hi, toggle_same]; exact hx
    · rw [toggle_other _ _ _ hi]; exact hd i
  · have hcalls : (pixel_effect x y c p).host_calls =
        if c.config.display_draw_pixel = true then
          c.host_calls ++
            [host_call.display_draw_pixel ((x + p.2) % G2CHIP_DISPLAY_WIDTH)
              ((y + p.1) % G2CHIP_DISPLAY_HEIGHT) (c.display (pixel_index x y p.1 p.2) ^^^ 1)]
        else c.host_calls := rfl
    rw [hcalls]
    split
    · refine ⟨l ++ [host_call.display_draw_pixel ((x + p.2) % G2CHIP_DISPLAY_WIDTH)
          ((y + p.1) % G2CHIP_DISPLAY_HEIGHT) (c.display (pixel_index x y p.1 p.2) ^^^ 1)],
        by rw [hl, List.append_assoc], ?_⟩
      intro x2 y2 st hm
      rw [List.mem_append, List.mem_singleton] at hm
      rcases hm with hm | hm
      · exact hb x2 y2 st hm
      · cases hm
        exact hx
    · exact ⟨l, hl, hb⟩

/-- The inner loop of `draw_sprite` keeps the display binary. -/
theorem draw_sprite_cols_binary (c0 : g2chip) (x y row sprite_byte : Nat) (n : Nat) :
    ∀ c : g2chip, binary_from c0 c →
      ensures (binary_from c0) (draw_sprite_cols x y row sprite_byte n c) := by
  induction n with
  | zero => intro c hc; exact ensures_some hc
  | succ n ih =>
    intro c hc
    unfold draw_sprite_cols
    refine @ensures_bind _ (binary_from c0) _ _ (ih c hc) ?_
    intro c2 h2
    apply ensures_ite
    · rw [draw_sprite_pixel_eq]
      exact ensures_some (pixel_effect_binary c0 c2 x y _ h2)
    · exact ensures_some h2

/-- The outer loop of `draw_sprite` keeps the display binary. -/
theorem draw_sprite_rows_binary (c0 : g2chip) (x y : Nat) (n : Nat) :
    ∀ c : g2chip, binary_from c0 c → ensures (binary_from c0) (draw_sprite_rows x y n c) := by
  induction n with
  | zero => intro c hc; exact ensures_some hc
  | succ n ih =>
    intro c hc
    unfold draw_sprite_rows
    refine @ensures_bind _ (binary_from c0) _ _ (ih c hc) ?_
    intro c2 h2
    apply ensures_bind_get; intro b
    exact draw_sprite_cols_binary c0 x y n b 8 c2 h2

/-- The function `draw_sprite` keeps the display binary. -/
theorem draw_sprite_binary (c0 c : g2chip) (x y height : Nat) (hc : binary_from c0 c) :
    ensures (binary_from c0) (draw_sprite c x y height) := by
  unfold draw_sprite
  refine @ensures_bind _ (binary_from c0) _ _
    (draw_sprite_rows_binary c0 x y height (V_set_last c 0) hc) ?_
  intro c2 h2
  apply ensures_some
  split
  · exact binary_from_of_kept c0 c2 _ h2
      (display_kept_notify c2 c2 _ (fun _ _ _ hh => by cases hh) (display_kept_refl c2))
  · exact h2

/-- The handler of class `0xD` keeps the display binary. -/
theorem opcode_D_binary (c0 c : g2chip) (instr : g2chip_instruction) (hc : binary_from c0 c) :
    ensures (binary_from c0) (instruction_handler_opcode_D c instr) := by
  unfold instruction_handler_opcode_D
  apply ensures_bind_get; intro vx
  apply ensures_bind_get; intro vy
  exact draw_sprite_binary c0 c vx vy instr.n hc

/-- One `execute_step` keeps the display binary and reports only 0 or 1 to
draw-pixel. -/
theorem execute_step_binary (c0 c : g2chip) (host : host_answers) (hc : binary_from c0 c) :
    ensures (binary_from c0) (execute_step c host) := by
  intro s hs
  cases hf : fetch_instruction c with
  | none => simp [execute_step, hf] at hs
  | some instr =>
    by_cases h00 : instr.opcode = 0 ∧ instr.nnn = 0x0E0
    · rw [execute_step_clear c host instr hf h00.1 h00.2] at hs
      cases hs
      obtain ⟨-, l, hl, hb⟩ := hc
      refine ⟨fun _ => Nat.zero_le _, ?_⟩
      dsimp only
      split
      · refine ⟨l ++ [host_call.display_clear], by rw [hl, List.append_assoc], ?_⟩
        intro x y st hm
        rw [List.mem_append, List.mem_singleton] at hm
        rcases hm with hm | hm
        · exact hb x y st hm
        · cases hm
      · exact ⟨l, hl, hb⟩
    · by_cases hD : instr.opcode = 13
      · have hh : instruction_handlers instr.opcode =
            some (fun chip instr _ => instruction_handler_opcode_D chip instr) := by
          rw [hD]; rfl
        rw [execute_step_eq c host instr _ hf hh] at hs
        exact opcode_D_binary c0 { c with pc := c.pc + 2 } instr hc s hs
      · have hno : ∀ i2, fetch_instruction c = some i2 →
            ¬ (i2.opcode = 0 ∧ i2.nnn = 0x0E0) ∧ i2.opcode ≠ 13 := by
          intro i2 h2
          rw [hf] at h2
          cases h2
          exact ⟨h00, hD⟩
        exact binary_from_of_kept c0 c s hc
          (execute_step_display_kept c c host (display_kept_refl c) hno s hs)

/-- One `g2chip_step` from a binary display keeps the display binary and
reports only 0 or 1 to draw-pixel. -/
theorem g2chip_step_binary (c : g2chip) (host : host_answers) (hc : ∀ i, c.display i ≤ 1) :
    ensures (binary_from c) (g2chip_step c host) :=
  execute_step_binary c (update_timers c host) host
    (binary_from_of_kept c c _ (binary_from_refl c hc) (update_timers_display_kept c host))

/-- A load changes neither the display nor the host calls. -/
theorem g2chip_load_rom_display (chip : g2chip) (rom_data : Option (List Nat)) (size : Nat) :
    (g2chip_load_rom chip rom_data size).2.display = chip.display ∧
      (g2chip_load_rom chip rom_data size).2.host_calls = chip.host_calls := by
  unfold g2chip_load_rom
  split
  · exact ⟨rfl, rfl⟩
  · split <;> exact ⟨rfl, rfl⟩

/-- In every reachable machine each display cell is at most 1. -/
theorem reachable_display_le (s : g2chip) (h : reachable s) : ∀ i, s.display i ≤ 1 := by
  induction h with
  | reset chip host =>
    intro i
    rw [g2chip_reset_eq]
    exact Nat.zero_le _
  | load_rom chip rom_data size _ ih =>
    intro i
    rw [(g2chip_load_rom_display chip rom_data size).1]
    exact ih i
  | step chip s host _ hstep ih => exact (g2chip_step_binary chip host ih s hstep).1

/-! ## The claims -/

/-- Claim C1.  On a non-null image, `g2chip_load_rom` returns `-1` exactly when
`size = 0` or `size > 3584`, and `0` otherwise; size 3584 is accepted and size
3585 is rejected; when it fails the machine is returned exactly as it was. -/
theorem load_rom_fails_iff (chip : g2chip) (data : List Nat) (size : Nat) :
    ((g2chip_load_rom chip (some data) size).1 = -1 ↔ (size = 0 ∨ size > 3584)) ∧
    ((g2chip_load_rom chip (some data) size).1 = 0 ↔ ¬ (size = 0 ∨ size > 3584)) ∧
    (g2chip_load_rom chip (some data) 3584).1 = 0 ∧
    (g2chip_load_rom chip (some data) 3585).1 = -1 ∧
    ((g2chip_load_rom chip (some data) size).1 = -1 →
      (g2chip_load_rom chip (some data) size).2 = chip) := by
  refine ⟨?_, ?_, ?_, ?_, ?_⟩
  · by_cases h : size = 0 ∨ size > 3584 <;> simp [g2chip_load_rom, h]
  · by_cases h : size = 0 ∨ size > 3584 <;> simp [g2chip_load_rom, h]
  · simp [g2chip_load_rom]
  · simp [g2chip_load_rom]
  · by_cases h : size = 0 ∨ size > 3584 <;> simp [g2chip_load_rom, h]

/-- Claim C2.  A load of an image of `size` bytes, `1 ≤ size ≤ 3584`, succeeds;
afterwards `memory[0x200 + i]` is the image byte `i` for every `i < size`,
every memory byte below `0x200` or from `0x200 + size` on is unchanged, and so
are the registers, the index register, the program counter, the stack, the
stack pointer, the display, both timers and the timer baseline. -/
theorem load_rom_copies (chip : g2chip) (data : List Nat) (size : Nat)
    (hlen : data.length = size) (h1 : 1 ≤ size) (h2 : size ≤ 3584) :
    (g2chip_load_rom chip (some data) size).1 = 0 ∧
    (∀ i (hi : i < data.length),
      (g2chip_load_rom chip (some data) size).2.memory (0x200 + i) = data.get ⟨i, hi⟩) ∧
    (∀ a, a < 0x200 ∨ 0x200 + size ≤ a →
      (g2chip_load_rom chip (some data) size).2.memory a = chip.memory a) ∧
    (g2chip_load_rom chip (some data) size).2.V = chip.V ∧
    (g2chip_load_rom chip (some data) size).2.I = chip.I ∧
    (g2chip_load_rom chip (some data) size).2.pc = chip.pc ∧
    (g2chip_load_rom chip (some data) size).2.stack = chip.stack ∧
    (g2chip_load_rom chip (some data) size).2.sp = chip.sp ∧
    (g2chip_load_rom chip (some data) size).2.display = chip.display ∧
    (g2chip_load_rom chip (some data) size).2.delay_timer = chip.delay_timer ∧
    (g2chip_load_rom chip (some data) size).2.sound_timer = chip.sound_timer ∧
    (g2chip_load_rom chip (some data) size).2.last_time_ms = chip.last_time_ms := by
  have hs : ¬ (size = 0 ∨ size > G2CHIP_MAX_ROM_SIZE) := by
    simp; omega
  simp only [g2chip_load_rom, hs, if_false, load_rom_loop_apply, and_true, true_and]
  refine ⟨?_, ?_⟩
  · intro i hi
    have : G2CHIP_PROGRAM_START_ADDRESS ≤ 0x200 + i ∧ 0x200 + i < G2CHIP_PROGRAM_START_ADDRESS + size :=
      ⟨by simp, by simp; omega⟩
    rw [if_pos this]
    simp [List.getD_eq_getElem?_getD, List.getElem?_eq_getElem hi]
  · intro a ha
    have : ¬ (G2CHIP_PROGRAM_START_ADDRESS ≤ a ∧ a < G2CHIP_PROGRAM_START_ADDRESS + size) := by
      simp; omega
    rw [if_neg this]

/-- Example for claim C2: the two-byte image `61 00` lands at `0x200` and
`0x201`. -/
theorem load_rom_copies_witness :
    [0x61, 0x00].length = 2 ∧ 1 ≤ 2 ∧ 2 ≤ 3584 ∧
    (g2chip_load_rom (calloc_chip no_callbacks) (some [0x61, 0x00]) 2).2.memory (0x200 + 0) = 0x61 ∧
    (g2chip_load_rom (calloc_chip no_callbacks) (some [0x61, 0x00]) 2).2.memory (0x200 + 1) = 0x00 :=
  ⟨rfl, by decide, by decide,
    (load_rom_copies (calloc_chip no_callbacks) [0x61, 0x00] 2 rfl (by decide) (by decide)).2.1 0
      (by decide),
    (load_rom_copies (calloc_chip no_callbacks) [0x61, 0x00] 2 rfl (by decide) (by decide)).2.1 1
      (by decide)⟩

/-- Claim C3.  After `g2chip_reset` every register, every stack slot, the stack
pointer, the index register, both timers and every display cell are 0, the
program counter is `0x200`, and the timer baseline is the value the host clock
returned, or 0 when the machine has no clock callback. -/
theorem reset_state (chip : g2chip) (host : host_answers) :
    (∀ i, (g2chip_reset chip host).V i = 0) ∧
    (∀ i, (g2chip_reset chip host).stack i = 0) ∧
    (g2chip_reset chip host).sp = 0 ∧
    (g2chip_reset chip host).I = 0 ∧
    (g2chip_reset chip host).delay_timer = 0 ∧
    (g2chip_reset chip host).sound_timer = 0 ∧
    (∀ i, (g2chip_reset chip host).display i = 0) ∧
    (g2chip_reset chip host).pc = 0x200 ∧
    (g2chip_reset chip host).last_time_ms =
      (if chip.config.get_time_ms = true then host.get_time_ms else 0) := by
  cases hc : chip.config.display_clear <;> cases ht : chip.config.get_time_ms <;>
    simp [g2chip_reset, load_font_data, notify, hc, ht]

/-- Claim C4.  Call and return: from a machine with `sp < 16` whose instruction
at the program counter `p` is `2nnn` and whose instruction at `nnn` is `00EE`,
two steps (whatever the host answers) return machines, and the second one has
program counter `p + 2`, the stack pointer of the start, and unchanged
registers, memory and display. -/
theorem call_return_round_trip (chip : g2chip) (host1 host2 : host_answers) (nnn : Nat)
    (hpc : chip.pc + 1 < 4096) (hsp : chip.sp < 16) (hnnn : nnn + 1 < 4096)
    (hcall_hi : chip.memory chip.pc = 0x20 + nnn / 256)
    (hcall_lo : chip.memory (chip.pc + 1) = nnn % 256)
    (hret_hi : chip.memory nnn = 0x00) (hret_lo : chip.memory (nnn + 1) = 0xEE) :
    ∃ s1 s2, g2chip_step chip host1 = some s1 ∧ g2chip_step s1 host2 = some s2 ∧
      s2.pc = chip.pc + 2 ∧ s2.sp = chip.sp ∧ s2.V = chip.V ∧
      s2.memory = chip.memory ∧ s2.display = chip.display := by
  obtain ⟨s1, e1, hpc1, hsp1, hst1, hV1, hm1, hd1, -, -⟩ :=
    g2chip_step_call chip host1 nnn hpc hsp (by omega) hcall_hi hcall_lo
  obtain ⟨s2, e2, hpc2, hsp2, -, hV2, hm2, hd2, -, -⟩ :=
    g2chip_step_ret s1 host2 (by rw [hpc1]; exact hnnn) (by omega) (by omega)
      (by rw [hpc1, hm1]; exact hret_hi) (by rw [hpc1, hm1]; exact hret_lo)
  refine ⟨s1, s2, e1, e2, ?_, by omega, by rw [hV2, hV1], by rw [hm2, hm1], by rw [hd2, hd1]⟩
  rw [hpc2, hst1, hsp1]
  simp [upd]

/-- Example for claim C4: the program `2204 0000 00EE` from reset is back at
`0x202` with an empty stack after two steps. -/
theorem call_return_round_trip_witness :
    call_return_chip.pc + 1 < 4096 ∧ call_return_chip.sp < 16 ∧ 0x204 + 1 < 4096 ∧
    call_return_chip.memory call_return_chip.pc = 0x20 + 0x204 / 256 ∧
    call_return_chip.memory (call_return_chip.pc + 1) = 0x204 % 256 ∧
    call_return_chip.memory 0x204 = 0x00 ∧ call_return_chip.memory (0x204 + 1) = 0xEE ∧
    (∃ s1 s2, g2chip_step call_return_chip quiet_host = some s1 ∧
      g2chip_step s1 quiet_host = some s2 ∧
      s2.pc = 0x200 + 2 ∧ s2.sp = 0 ∧ s2.V = call_return_chip.V ∧
      s2.memory = call_return_chip.memory ∧ s2.display = call_return_chip.display) :=
  ⟨by decide, by decide, by decide, by decide, by decide, by decide, by decide,
    call_return_round_trip call_return_chip quiet_host quiet_host 0x204 (by decide) (by decide)
      (by decide) (by decide) (by decide) (by decide) (by decide)⟩

/-- Counterexample to claim C5 as stated: from reset, with the program `2200`
loaded (a call to itself), sixteen steps stay inside every array and end with
the stack pointer at 16, which is outside `[0,16)`. -/
theorem sp_reaches_16 :
    ∃ s, run_steps (List.replicate 16 quiet_host) call_loop_chip = some s ∧
      reachable s ∧ s.sp = 16 ∧ ¬ s.sp < 16 := by
  have hpc : call_loop_chip.pc = 0x200 := by decide
  have hhi : call_loop_chip.memory 0x200 = 0x22 := by decide
  have hlo : call_loop_chip.memory 0x201 = 0x00 := by decide
  have hsp : call_loop_chip.sp = 0 := by decide
  obtain ⟨s, e, hs⟩ := run_steps_call_loop quiet_host 16 call_loop_chip hpc hhi hlo
    (by rw [hsp])
  have hr : reachable call_loop_chip := reachable.load_rom _ _ _ (reachable.reset _ _)
  refine ⟨s, e, reachable_run_steps _ _ _ hr e, by omega, by omega⟩

/-- Claim C5, amended.  In every machine reachable from a reset by loads and by
steps that stay inside the arrays, the stack pointer is at most 16 (the bound
16 itself is attained, see the counterexample). -/
theorem sp_le_of_reachable (s : g2chip) (h : reachable s) : s.sp ≤ 16 := by
  induction h with
  | reset chip host => rw [g2chip_reset_sp]; exact Nat.zero_le _
  | load_rom chip rom_data size _ ih => rw [g2chip_load_rom_sp]; exact ih
  | step chip s host _ hstep ih => exact g2chip_step_sp chip s host ih hstep

/-- Example for claim C5: a freshly reset machine is reachable and its stack
pointer is within the bound. -/
theorem sp_le_of_reachable_witness :
    reachable (g2chip_reset (calloc_chip no_callbacks) quiet_host) ∧
      (g2chip_reset (calloc_chip no_callbacks) quiet_host).sp ≤ 16 :=
  ⟨reachable.reset _ _, sp_le_of_reachable _ (reachable.reset _ _)⟩

/-- Claim C6.  Return on an empty stack: when the stack pointer is 0 the return
helper returns the machine with program counter, stack pointer, stack,
registers, index register, memory and display as they were; so a step that
executes `00EE` ends with the program counter at the fetch address plus 2, the
stack pointer still 0, and stack, registers, index register, memory and
display unchanged. -/
theorem ret_underflow_noop (chip : g2chip) (host : host_answers)
    (hsp : chip.sp = 0) (hpc : chip.pc + 1 < 4096)
    (hhi : chip.memory chip.pc = 0x00) (hlo : chip.memory (chip.pc + 1) = 0xEE) :
    (∃ s, instruction_return_from_subroutine chip = some s ∧ s.pc = chip.pc ∧ s.sp = 0 ∧
      s.stack = chip.stack ∧ s.V = chip.V ∧ s.I = chip.I ∧ s.memory = chip.memory ∧
      s.display = chip.display) ∧
    (∃ s, g2chip_step chip host = some s ∧ s.pc = chip.pc + 2 ∧ s.sp = 0 ∧
      s.stack = chip.stack ∧ s.V = chip.V ∧ s.I = chip.I ∧ s.memory = chip.memory ∧
      s.display = chip.display) := by
  constructor
  · refine ⟨_, by rw [instruction_return_from_subroutine, if_pos hsp], ?_⟩
    split <;> simp [notify, hsp]
  · obtain ⟨dt, st, lt, calls, ht⟩ := update_timers_frame chip host
    have e := execute_step_ret_underflow (update_timers chip host) host
      (by rw [ht]; exact hpc) (by rw [ht]; exact hsp)
      (by rw [ht]; exact hhi) (by rw [ht]; exact hlo)
    refine ⟨_, e, ?_⟩
    rw [ht]
    split <;> simp [notify, hsp]

/-- Example for claim C6: the program `00EE` on a freshly reset machine. -/
theorem ret_underflow_noop_witness :
    ret_underflow_chip.sp = 0 ∧ ret_underflow_chip.pc + 1 < 4096 ∧
    ret_underflow_chip.memory ret_underflow_chip.pc = 0x00 ∧
    ret_underflow_chip.memory (ret_underflow_chip.pc + 1) = 0xEE ∧
    (∃ s, g2chip_step ret_underflow_chip quiet_host = some s ∧ s.pc = 0x200 + 2 ∧ s.sp = 0 ∧
      s.stack = ret_underflow_chip.stack ∧ s.V = ret_underflow_chip.V ∧
      s.I = ret_underflow_chip.I ∧ s.memory = ret_underflow_chip.memory ∧
      s.display = ret_underflow_chip.display) :=
  ⟨by decide, by decide, by decide, by decide,
    (ret_underflow_noop ret_underflow_chip quiet_host (by decide) (by decide) (by decide)
      (by decide)).2⟩

/-- Claim C7.  Add with carry `8xy4`, for `x` other than 15, any `y` (also
`y = x` and `y = 15`) and byte-valued registers: afterwards `Vx` is
`(Vx + Vy) mod 256` and `V15` is 1 if `Vx + Vy > 255` and 0 otherwise, both
from the values before the instruction; so `256 * V15 + Vx` is the full sum. -/
theorem opcode_8_add_carry (chip : g2chip) (instr : g2chip_instruction)
    (hn : instr.n = 0x4) (hx : instr.x < 16) (hx15 : instr.x ≠ 15) (hy : instr.y < 16)
    (hvx : chip.V instr.x < 256) (hvy : chip.V instr.y < 256) :
    ∃ s, instruction_handler_opcode_8 chip instr = some s ∧
      s.V instr.x = (chip.V instr.x + chip.V instr.y) % 256 ∧
      s.V 15 = (if chip.V instr.x + chip.V instr.y > 255 then 1 else 0) ∧
      256 * s.V 15 + s.V instr.x = chip.V instr.x + chip.V instr.y := by
  have hmask : ∀ a : Nat, a &&& 0xFF = a % 256 := fun a => and_mask a 8 _ (by decide)
  have hsum : (chip.V instr.x + chip.V instr.y) % 65536 = chip.V instr.x + chip.V instr.y := by
    omega
  have h15 : (15 : Nat) ≠ instr.x := fun h => hx15 h.symm
  refine ⟨_, opcode_8_case_4 chip instr hn hx hy, ?_⟩
  simp only [hsum, hmask, upd_same, upd_other _ _ _ _ h15]
  refine ⟨trivial, trivial, ?_⟩
  split <;> omega

/-- Examples for claim C7: `0xFF + 0x01` gives `Vx = 0x00`, `V15 = 1`, and
`0x01 + 0x01` gives `Vx = 0x02`, `V15 = 0`; the first one also as the program
`60FF 6101 8014` run from reset. -/
theorem opcode_8_add_carry_witness :
    (decode 0x8014).n = 0x4 ∧ (decode 0x8014).x < 16 ∧ (decode 0x8014).x ≠ 15 ∧
    (decode 0x8014).y < 16 ∧
    (chip_with_registers 0xFF 0x01 0).V (decode 0x8014).x < 256 ∧
    (chip_with_registers 0xFF 0x01 0).V (decode 0x8014).y < 256 ∧
    (∃ s, instruction_handler_opcode_8 (chip_with_registers 0xFF 0x01 0) (decode 0x8014) = some s ∧
      s.V 0 = 0x00 ∧ s.V 15 = 1 ∧ 256 * s.V 15 + s.V 0 = 0xFF + 0x01) ∧
    (∃ s, instruction_handler_opcode_8 (chip_with_registers 0x01 0x01 0) (decode 0x8014) = some s ∧
      s.V 0 = 0x02 ∧ s.V 15 = 0 ∧ 256 * s.V 15 + s.V 0 = 0x01 + 0x01) ∧
    (run_steps [quiet_host, quiet_host, quiet_host] add_carry_chip).map
      (fun s => (s.V 0, s.V 1, s.V 15)) = some (0x00, 0x01, 1) :=
  ⟨by decide, by decide, by decide, by decide, by decide, by decide,
    opcode_8_add_carry (chip_with_registers 0xFF 0x01 0) (decode 0x8014) (by decide) (by decide)
      (by decide) (by decide) (by decide) (by decide),
    opcode_8_add_carry (chip_with_registers 0x01 0x01 0) (decode 0x8014) (by decide) (by decide)
      (by decide) (by decide) (by decide) (by decide),
    by decide⟩

/-- Claim C8, the code at the failing input.  Instruction `80F5` (`x = 0`,
`y = 15`) with `V0 = 5` and `V15 = 3`: the flag is stored first (`5 > 3`, so
`V15 = 1`) and the subtraction then reads the new `V15`, leaving `V0 = 4`; the
difference of the values held before the instruction is `(5 - 3) mod 256 = 2`.
The program `6005 6F03 80F5` run from reset ends the same way. -/
theorem opcode_8_sub_flag_operand :
    (decode 0x80F5).n = 0x5 ∧ (decode 0x80F5).x = 0 ∧ (decode 0x80F5).y = 15 ∧
    (chip_with_registers 5 0 3).V 0 = 5 ∧ (chip_with_registers 5 0 3).V 15 = 3 ∧
    (∃ s, instruction_handler_opcode_8 (chip_with_registers 5 0 3) (decode 0x80F5) = some s ∧
      s.V 0 = 4 ∧ s.V 15 = 1 ∧ ((s.V 0 : Int) ≠ ((5 : Int) - 3) % 256)) ∧
    (run_steps [quiet_host, quiet_host, quiet_host] sub_flag_chip).map
      (fun s => (s.V 0, s.V 15)) = some (4, 1) := by
  refine ⟨by decide, by decide, by decide, by decide, by decide, ⟨_,
    opcode_8_case_5 _ _ (by decide) (by decide) (by decide), by decide, by decide, by decide⟩,
    by decide⟩

/-- Counterexample to claim C9 as stated: instruction `8017` with
`V0 = V1 = 5` does not borrow (`V1 ≥ V0`), and the handler leaves `V15 = 0`;
so does the program `6005 6105 8017` run from reset. -/
theorem opcode_8_subn_flag_on_equal :
    (decode 0x8017).n = 0x7 ∧ (decode 0x8017).x = 0 ∧ (decode 0x8017).y = 1 ∧
    (chip_with_registers 5 5 1).V 1 ≥ (chip_with_registers 5 5 1).V 0 ∧
    (∃ s, instruction_handler_opcode_8 (chip_with_registers 5 5 1) (decode 0x8017) = some s ∧
      s.V 0 = 0 ∧ s.V 15 = 0 ∧ s.V 15 ≠ 1) ∧
    (run_steps [quiet_host, quiet_host, quiet_host] subn_equal_chip).map
      (fun s => (s.V 0, s.V 1, s.V 15)) = some (0, 5, 0) := by
  refine ⟨by decide, by decide, by decide, by decide, ⟨_,
    opcode_8_case_7 _ _ (by decide) (by decide) (by decide), by decide, by decide, by decide⟩,
    by decide⟩

/-- Claim C9, amended.  Reverse subtract `8xy7`, for `x` and `y` both other than
15 and byte-valued registers: afterwards `Vx` is `(Vy - Vx) mod 256`, and `V15`
is 1 exactly when `Vy > Vx` held before the instruction and 0 otherwise; in
particular it is 0 when `Vy = Vx`. -/
theorem opcode_8_subn (chip : g2chip) (instr : g2chip_instruction)
    (hn : instr.n = 0x7) (hx : instr.x < 16) (hx15 : instr.x ≠ 15)
    (hy : instr.y < 16) (hy15 : instr.y ≠ 15)
    (hvx : chip.V instr.x < 256) (hvy : chip.V instr.y < 256) :
    ∃ s, instruction_handler_opcode_8 chip instr = some s ∧
      (s.V instr.x : Int) = ((chip.V instr.y : Int) - (chip.V instr.x : Int)) % 256 ∧
      s.V 15 = (if chip.V instr.y > chip.V instr.x then 1 else 0) ∧
      (chip.V instr.y = chip.V instr.x → s.V 15 = 0) := by
  have h15 : (15 : Nat) ≠ instr.x := fun h => hx15 h.symm
  refine ⟨_, opcode_8_case_7 chip instr hn hx hy, ?_⟩
  simp only [upd_same, upd_other _ _ _ _ h15, upd_other _ _ _ _ hx15, upd_other _ _ _ _ hy15]
  refine ⟨?_, trivial, ?_⟩
  · omega
  · intro h; simp [h]

/-- Example for claim C9: `5 - 7` wraps to 254 with `V15 = 0`. -/
theorem opcode_8_subn_witness :
    (decode 0x8017).n = 0x7 ∧ (decode 0x8017).x < 16 ∧ (decode 0x8017).x ≠ 15 ∧
    (decode 0x8017).y < 16 ∧ (decode 0x8017).y ≠ 15 ∧
    (chip_with_registers 7 5 1).V (decode 0x8017).x < 256 ∧
    (chip_with_registers 7 5 1).V (decode 0x8017).y < 256 ∧
    (∃ s, instruction_handler_opcode_8 (chip_with_registers 7 5 1) (decode 0x8017) = some s ∧
      (s.V 0 : Int) = ((5 : Int) - 7) % 256 ∧ s.V 15 = 0 ∧ (5 = 7 → s.V 15 = 0)) :=
  ⟨by decide, by decide, by decide, by decide, by decide, by decide, by decide,
    opcode_8_subn (chip_with_registers 7 5 1) (decode 0x8017) (by decide) (by decide)
      (by decide) (by decide) (by decide) (by decide) (by decide)⟩

/-- Counterexample to claim C10 as stated: instruction `7F01` has `V15` as its
destination and changes it from 0 to 1, also as a program run from reset. -/
theorem opcode_7_touches_flag_register :
    (decode 0x7F01).x = 15 ∧ (decode 0x7F01).nn = 1 ∧ (chip_with_registers 0 0 0).V 15 = 0 ∧
    (∃ s, instruction_handler_opcode_7 (chip_with_registers 0 0 0) (decode 0x7F01) = some s ∧
      s.V 15 = 1 ∧ s.V 15 ≠ (chip_with_registers 0 0 0).V 15) ∧
    add_flag_chip.V 15 = 0 ∧
    (run_steps [quiet_host] add_flag_chip).map (fun s => s.V 15) = some 1 := by
  refine ⟨by decide, by decide, by decide,
    ⟨_, opcode_7_eq _ _ (by decide), by decide, by decide⟩, by decide, by decide⟩

/-- Claim C10, amended.  Add immediate `7xnn`, for every register index `x`:
afterwards `Vx` is `(Vx + nn) mod 256` and every other register is unchanged;
`V15` is unchanged whenever `x` is not 15 (no carry flag is written). -/
theorem opcode_7_add_immediate (chip : g2chip) (instr : g2chip_instruction)
    (hx : instr.x < 16) :
    ∃ s, instruction_handler_opcode_7 chip instr = some s ∧
      s.V instr.x = (chip.V instr.x + instr.nn) % 256 ∧
      (∀ j, j ≠ instr.x → s.V j = chip.V j) ∧
      (instr.x ≠ 15 → s.V 15 = chip.V 15) := by
  refine ⟨_, opcode_7_eq chip instr hx, upd_same _ _ _, fun j hj => upd_other _ _ _ _ hj, ?_⟩
  intro h
  exact upd_other _ _ _ _ (fun h2 => h h2.symm)

/-- Example for claim C10: `7001` on `V0 = 0xFF` wraps to `0x00`, and applied
twice leaves `V0 = 0x01` with `V15` still 0 (on the handler, and as the
program `60FF 7001 7001` run from reset). -/
theorem opcode_7_add_immediate_witness :
    (decode 0x7001).x < 16 ∧
    (∃ s, instruction_handler_opcode_7 (chip_with_registers 0xFF 0 0) (decode 0x7001) = some s ∧
      s.V (decode 0x7001).x = (0xFF + 1) % 256 ∧
      (∀ j, j ≠ (decode 0x7001).x → s.V j = (chip_with_registers 0xFF 0 0).V j) ∧
      ((decode 0x7001).x ≠ 15 → s.V 15 = (chip_with_registers 0xFF 0 0).V 15)) ∧
    ((instruction_handler_opcode_7 (chip_with_registers 0xFF 0 0) (decode 0x7001)).bind
        (fun s => instruction_handler_opcode_7 s (decode 0x7001))).map
      (fun s => (s.V 0, s.V 15)) = some (0x01, 0) ∧
    (run_steps [quiet_host, quiet_host, quiet_host] add_immediate_chip).map
      (fun s => (s.V 0, s.V 15)) = some (0x01, 0) :=
  ⟨by decide, opcode_7_add_immediate (chip_with_registers 0xFF 0 0) (decode 0x7001) (by decide),
    by decide, by decide⟩

/-- Counterexample to claim C11 as stated: `80F6`, a shift right of `V0` whose
`y` field names register 15, on `V0 = 3` takes `Vy = V15` from 0 to 1, so `Vy`
is written; the same as the program `6003 80F6` run from reset. -/
theorem shifts_flag_register_as_y :
    (decode 0x80F6).n = 0x6 ∧ (decode 0x80F6).x = 0 ∧ (decode 0x80F6).y = 15 ∧
    (chip_with_registers 3 0 0).V (decode 0x80F6).y = 0 ∧
    (∃ s, instruction_handler_opcode_8 (chip_with_registers 3 0 0) (decode 0x80F6) = some s ∧
      s.V (decode 0x80F6).y = 1 ∧
      s.V (decode 0x80F6).y ≠ (chip_with_registers 3 0 0).V (decode 0x80F6).y) ∧
    (run_steps [quiet_host, quiet_host] shift_flag_chip).map (fun s => (s.V 0, s.V 15)) =
      some (1, 1) := by
  refine ⟨by decide, by decide, by decide, by decide,
    ⟨_, opcode_8_case_6 _ _ (by decide) (by decide), by decide, by decide⟩, by decide⟩

/-- Claim C11, amended.  For `x` other than 15, any `y` and a byte in `Vx`: after
`8xy6` `V15` is the least significant bit of the old `Vx` and `Vx` is
`Vx / 2`, so `2 * Vx' + V15' = Vx`; after `8xyE` `V15` is the most significant
bit of the old `Vx` and `Vx` is `(2 * Vx) mod 256`, so
`256 * V15' + Vx' = 2 * Vx`.  Every register other than `Vx` and `V15` is
unchanged and the machine returned is the same for every `y` field: the `y`
field is ignored, and `Vy` changes only when `y` is `x` or 15. -/
theorem shifts (chip : g2chip) (instr : g2chip_instruction)
    (hx : instr.x < 16) (hx15 : instr.x ≠ 15) (hvx : chip.V instr.x < 256) :
    (instr.n = 0x6 →
      ∃ s, instruction_handler_opcode_8 chip instr = some s ∧
        s.V 15 = chip.V instr.x % 2 ∧ s.V instr.x = chip.V instr.x / 2 ∧
        2 * s.V instr.x + s.V 15 = chip.V instr.x ∧
        (∀ j, j ≠ instr.x → j ≠ 15 → s.V j = chip.V j) ∧
        (∀ y2, instruction_handler_opcode_8 chip { instr with y := y2 } = some s)) ∧
    (instr.n = 0xE →
      ∃ s, instruction_handler_opcode_8 chip instr = some s ∧
        s.V 15 = chip.V instr.x / 128 ∧ s.V instr.x = (2 * chip.V instr.x) % 256 ∧
        256 * s.V 15 + s.V instr.x = 2 * chip.V instr.x ∧
        (∀ j, j ≠ instr.x → j ≠ 15 → s.V j = chip.V j) ∧
        (∀ y2, instruction_handler_opcode_8 chip { instr with y := y2 } = some s)) := by
  have h15 : (15 : Nat) ≠ instr.x := fun h => hx15 h.symm
  constructor
  · intro hn
    refine ⟨_, opcode_8_case_6 chip instr hn hx, ?_⟩
    simp only [upd_same, upd_other _ _ _ _ h15, upd_other _ _ _ _ hx15, lsb_eq,
      Nat.shiftRight_eq_div_pow, Nat.pow_one]
    refine ⟨trivial, trivial, by omega, ?_, ?_⟩
    · intro j hj hj15
      rw [upd_other _ _ _ _ hj, upd_other _ _ _ _ hj15]
    · intro y2
      rw [opcode_8_case_6 chip { instr with y := y2 } hn hx]
      simp only [upd_other _ _ _ _ hx15, lsb_eq, Nat.shiftRight_eq_div_pow, Nat.pow_one]
  · intro hn
    refine ⟨_, opcode_8_case_E chip instr hn hx, ?_⟩
    simp only [upd_same, upd_other _ _ _ _ h15, upd_other _ _ _ _ hx15, msb_eq _ hvx,
      Nat.shiftLeft_eq, Nat.pow_one]
    refine ⟨trivial, by omega, by omega, ?_, ?_⟩
    · intro j hj hj15
      rw [upd_other _ _ _ _ hj, upd_other _ _ _ _ hj15]
    · intro y2
      rw [opcode_8_case_E chip { instr with y := y2 } hn hx]
      simp only [upd_other _ _ _ _ hx15, msb_eq _ hvx, Nat.shiftLeft_eq, Nat.pow_one]

/-- Examples for claim C11: on `V0 = 0x85`, `V1 = 7`, `8016` leaves `V15 = 1`,
`V0 = 0x42`, and `801E` leaves `V15 = 1`, `V0 = 0x0A`; `V1` keeps its value. -/
theorem shifts_witness :
    (decode 0x8016).x < 16 ∧ (decode 0x8016).x ≠ 15 ∧
    (chip_with_registers 0x85 7 0).V (decode 0x8016).x < 256 ∧
    (decode 0x8016).n = 0x6 ∧ (decode 0x801E).n = 0xE ∧
    (∃ s, instruction_handler_opcode_8 (chip_with_registers 0x85 7 0) (decode 0x8016) = some s ∧
      s.V 15 = 1 ∧ s.V 0 = 0x42 ∧ 2 * s.V 0 + s.V 15 = 0x85 ∧
      (∀ j, j ≠ 0 → j ≠ 15 → s.V j = (chip_with_registers 0x85 7 0).V j) ∧
      (∀ y2, instruction_handler_opcode_8 (chip_with_registers 0x85 7 0)
        { decode 0x8016 with y := y2 } = some s)) ∧
    (∃ s, instruction_handler_opcode_8 (chip_with_registers 0x85 7 0) (decode 0x801E) = some s ∧
      s.V 15 = 1 ∧ s.V 0 = 0x0A ∧ 256 * s.V 15 + s.V 0 = 2 * 0x85 ∧
      (∀ j, j ≠ 0 → j ≠ 15 → s.V j = (chip_with_registers 0x85 7 0).V j) ∧
      (∀ y2, instruction_handler_opcode_8 (chip_with_registers 0x85 7 0)
        { decode 0x801E with y := y2 } = some s)) :=
  ⟨by decide, by decide, by decide, by decide, by decide,
    (shifts (chip_with_registers 0x85 7 0) (decode 0x8016) (by decide) (by decide)
      (by decide)).1 (by decide),
    (shifts (chip_with_registers 0x85 7 0) (decode 0x801E) (by decide) (by decide)
      (by decide)).2 (by decide)⟩

/-- Claim C12.  For every machine (any display contents), coordinates and
height with `I + height ≤ 4096`, `draw_sprite` returns, leaves memory and the
index register as they were, and returns again when applied to its result with
the same arguments; after the second draw each of the `64 * 32` display cells
(indeed the whole display array) equals its value before the first draw. -/
theorem draw_sprite_twice (chip : g2chip) (x y height : Nat)
    (hI : chip.I + height ≤ 4096) :
    ∃ s1 s2, draw_sprite chip x y height = some s1 ∧ draw_sprite s1 x y height = some s2 ∧
      s1.memory = chip.memory ∧ s1.I = chip.I ∧
      (∀ i, i < G2CHIP_DISPLAY_WIDTH * G2CHIP_DISPLAY_HEIGHT → s2.display i = chip.display i) ∧
      s2.display = chip.display := by
  obtain ⟨s1, e1, hm1, hI1, -, hd1, -, -⟩ := draw_sprite_fields chip x y height (Or.inr hI)
  obtain ⟨s2, e2, -, -, -, hd2, -, -⟩ :=
    draw_sprite_fields s1 x y height (Or.inr (by rw [hI1]; exact hI))
  have hd : s2.display = chip.display := by
    rw [hd2, hm1, hI1, hd1, foldl_toggle_twice]
  exact ⟨s1, s2, e1, e2, hm1, hI1, fun i _ => by rw [hd], hd⟩

/-- Example for claim C12: the row `0xC0` drawn at `(63, 0)` on a display with
cell `(63, 0)` lit gives cells `(63, 0)`, `(0, 0)`, `(1, 0)` the values 0, 1, 0,
and drawn again gives back 1, 0, 0. -/
theorem draw_sprite_twice_witness :
    lit_sprite_chip.I + 1 ≤ 4096 ∧
    (∃ s1 s2, draw_sprite lit_sprite_chip 63 0 1 = some s1 ∧ draw_sprite s1 63 0 1 = some s2 ∧
      s1.memory = lit_sprite_chip.memory ∧ s1.I = lit_sprite_chip.I ∧
      (∀ i, i < G2CHIP_DISPLAY_WIDTH * G2CHIP_DISPLAY_HEIGHT →
        s2.display i = lit_sprite_chip.display i) ∧
      s2.display = lit_sprite_chip.display) ∧
    (draw_sprite lit_sprite_chip 63 0 1).map (fun s => [s.display 63, s.display 0, s.display 1]) =
      some [0, 1, 0] ∧
    ((draw_sprite lit_sprite_chip 63 0 1).bind (fun s => draw_sprite s 63 0 1)).map
      (fun s => [s.display 63, s.display 0, s.display 1]) = some [1, 0, 0] :=
  ⟨by decide, draw_sprite_twice lit_sprite_chip 63 0 1 (by decide), by decide, by decide⟩

/-- Claim C13.  For a sprite of `n ≤ 15` rows with `I + n ≤ 4096` and any
coordinates, `draw_sprite` returns with `V15 = 1` if some set sprite bit lands
on a cell holding 1, and with `V15 = 0` otherwise, whatever `V15` held before.
No two sprite positions land on the same cell, so a cell is lit when its bit is
processed exactly when it was lit before the draw.  Against an all-clear
display, with at least one set bit, the first draw leaves `V15 = 0` and a
second draw with the same arguments leaves `V15 = 1`. -/
theorem collision_flag (chip : g2chip) (x y n : Nat) (hn : n ≤ 15)
    (hI : chip.I + n ≤ 4096) :
    (∃ s, draw_sprite chip x y n = some s ∧
      ((∃ row col, row < n ∧ col < 8 ∧ chip.memory (chip.I + row) &&& (0x80 >>> col) ≠ 0 ∧
          chip.display (pixel_index x y row col) = 1) → s.V 15 = 1) ∧
      ((¬ ∃ row col, row < n ∧ col < 8 ∧ chip.memory (chip.I + row) &&& (0x80 >>> col) ≠ 0 ∧
          chip.display (pixel_index x y row col) = 1) → s.V 15 = 0)) ∧
    (∀ row col row2 col2, row < n → col < 8 → row2 < n → col2 < 8 →
      pixel_index x y row col = pixel_index x y row2 col2 → row = row2 ∧ col = col2) ∧
    ((∀ i, i < G2CHIP_DISPLAY_WIDTH * G2CHIP_DISPLAY_HEIGHT → chip.display i = 0) →
      (∃ row col, row < n ∧ col < 8 ∧ chip.memory (chip.I + row) &&& (0x80 >>> col) ≠ 0) →
      ∃ s1 s2, draw_sprite chip x y n = some s1 ∧ draw_sprite s1 x y n = some s2 ∧
        s1.V 15 = 0 ∧ s2.V 15 = 1) := by
  obtain ⟨s1, e1, hm1, hI1, -, hd1, hy1, hn1, -⟩ := draw_sprite_flag chip x y n (by omega) hI
  refine ⟨⟨s1, e1, hy1, hn1⟩, ?_, ?_⟩
  · intro row col row2 col2 hr hc hr2 hc2 h
    have := pixel_index_inj x y (row, col) (row2, col2) (by simp; omega) hc (by simp; omega) hc2 h
    exact ⟨congrArg Prod.fst this, congrArg Prod.snd this⟩
  · intro hclear ⟨row, col, hr, hc, hb⟩
    obtain ⟨s2, e2, -, -, -, -, hy2, -, -⟩ :=
      draw_sprite_flag s1 x y n (by omega) (by rw [hI1]; exact hI)
    refine ⟨s1, s2, e1, e2, ?_, ?_⟩
    · apply hn1
      rintro ⟨r, c, -, -, -, hl⟩
      rw [hclear _ (pixel_index_lt_size x y r c)] at hl
      exact absurd hl (by decide)
    · apply hy2
      have hmem : pixel_index x y row col ∈
          (sprite_bits chip.memory chip.I n).map (fun p => pixel_index x y p.1 p.2) :=
        List.mem_map.mpr ⟨(row, col),
          (mem_sprite_bits chip.memory chip.I n (row, col)).mpr ⟨hr, hc, hb⟩, rfl⟩
      have hlit := hd1 (pixel_index x y row col)
      rw [if_pos hmem, hclear _ (pixel_index_lt_size x y row col)] at hlit
      exact ⟨row, col, hr, hc, by rw [hm1, hI1]; exact hb, hlit⟩

/-- Examples for claim C13: the row `0xC0` drawn at `(63, 0)` on a clear display
with `V15 = 7` leaves `V15 = 0`, drawn again leaves `V15 = 1`; drawn once on a
display with cell `(63, 0)` lit it leaves `V15 = 1`. -/
theorem collision_flag_witness :
    1 ≤ 15 ∧ sprite_chip.I + 1 ≤ 4096 ∧
    (∀ i, i < G2CHIP_DISPLAY_WIDTH * G2CHIP_DISPLAY_HEIGHT → sprite_chip.display i = 0) ∧
    (∃ row col, row < 1 ∧ col < 8 ∧
      sprite_chip.memory (sprite_chip.I + row) &&& (0x80 >>> col) ≠ 0) ∧
    (∃ s1 s2, draw_sprite sprite_chip 63 0 1 = some s1 ∧ draw_sprite s1 63 0 1 = some s2 ∧
      s1.V 15 = 0 ∧ s2.V 15 = 1) ∧
    sprite_chip.V 15 = 7 ∧
    (draw_sprite sprite_chip 63 0 1).map (fun s => s.V 15) = some 0 ∧
    ((draw_sprite sprite_chip 63 0 1).bind (fun s => draw_sprite s 63 0 1)).map
      (fun s => s.V 15) = some 1 ∧
    (draw_sprite lit_sprite_chip 63 0 1).map (fun s => s.V 15) = some 1 :=
  ⟨by decide, by decide, fun _ _ => rfl, ⟨0, 0, by decide, by decide, by decide⟩,
    (collision_flag sprite_chip 63 0 1 (by decide) (by decide)).2.2 (fun _ _ => rfl)
      ⟨0, 0, by decide, by decide, by decide⟩,
    by decide, by decide, by decide, by decide⟩

/-- Counterexample to claim C14 as stated: on a machine without the draw-pixel
callback `D011` with `V0 = 63`, `V1 = 0` and sprite row `0xC0` toggles cell
`(63, 0)` from 0 to 1 and makes no host call, so the toggled cell is not
reported. -/
theorem draw_without_pixel_callback :
    (decode 0xD011).x < 16 ∧ (decode 0xD011).y < 16 ∧ (decode 0xD011).n ≤ 15 ∧
    silent_sprite_chip.I + (decode 0xD011).n ≤ 4096 ∧
    (silent_sprite_chip.memory (silent_sprite_chip.I + 0)).testBit (7 - 0) = true ∧
    63 = (silent_sprite_chip.V (decode 0xD011).x + 0) % 64 ∧
    0 = (silent_sprite_chip.V (decode 0xD011).y + 0) % 32 ∧
    silent_sprite_chip.display (0 * 64 + 63) = 0 ∧
    (instruction_handler_opcode_D silent_sprite_chip (decode 0xD011)).map
      (fun s => (s.display (0 * 64 + 63), s.host_calls)) = some (1, []) := by
  decide

/-- Claim C14, amended.  For `Dxyn` with `I + n ≤ 4096` and any values in `Vx`
and `Vy`, the handler returns; a display cell `(px, py)` is toggled (XORed
with 1, hence changed) if there are `row < n` and `col < 8` with bit `7 - col`
of `memory[I + row]` set, `px = (Vx + col) mod 64` and
`py = (Vy + row) mod 32`, and is unchanged otherwise.  The host calls made are
`calls` followed by the refresh notification when that callback is present;
with the draw-pixel callback present `calls` holds, once each, exactly the
notifications of the toggled cells with their wrapped coordinates and new
state, and without that callback `calls` is empty. -/
theorem toroidal_sprite_placement (chip : g2chip) (instr : g2chip_instruction)
    (hx : instr.x < 16) (hy : instr.y < 16) (hn : instr.n ≤ 15)
    (hI : chip.I + instr.n ≤ 4096) :
    ∃ s calls, instruction_handler_opcode_D chip instr = some s ∧
      (∀ px py, px < 64 →
        ((∃ row col, row < instr.n ∧ col < 8 ∧
            (chip.memory (chip.I + row)).testBit (7 - col) = true ∧
            px = (chip.V instr.x + col) % 64 ∧ py = (chip.V instr.y + row) % 32) →
          s.display (py * 64 + px) = chip.display (py * 64 + px) ^^^ 1 ∧
          s.display (py * 64 + px) ≠ chip.display (py * 64 + px)) ∧
        ((¬ ∃ row col, row < instr.n ∧ col < 8 ∧
            (chip.memory (chip.I + row)).testBit (7 - col) = true ∧
            px = (chip.V instr.x + col) % 64 ∧ py = (chip.V instr.y + row) % 32) →
          s.display (py * 64 + px) = chip.display (py * 64 + px))) ∧
      s.host_calls = chip.host_calls ++ calls ++
        (if chip.config.display_refresh = true then [host_call.display_refresh] else []) ∧
      calls.Nodup ∧
      (chip.config.display_draw_pixel = true →
        ∀ c, c ∈ calls ↔ ∃ px py, px < 64 ∧ py < 32 ∧
          (∃ row col, row < instr.n ∧ col < 8 ∧
            (chip.memory (chip.I + row)).testBit (7 - col) = true ∧
            px = (chip.V instr.x + col) % 64 ∧ py = (chip.V instr.y + row) % 32) ∧
          c = host_call.display_draw_pixel px py (s.display (py * 64 + px))) ∧
      (chip.config.display_draw_pixel = false → calls = []) := by
  have hD : instruction_handler_opcode_D chip instr =
      draw_sprite chip (chip.V instr.x) (chip.V instr.y) instr.n := by
    simp [instruction_handler_opcode_D, V_get, hx, hy]
  obtain ⟨s, e, -, -, -, hd, -, -, -⟩ :=
    draw_sprite_flag chip (chip.V instr.x) (chip.V instr.y) instr.n (by omega) hI
  obtain ⟨s2, e2, hc⟩ :=
    draw_sprite_calls chip (chip.V instr.x) (chip.V instr.y) instr.n (by omega) hI
  have hs : s2 = s := Option.some.inj (e2.symm.trans e)
  subst hs
  have hbits := nodup_sprite_bits chip.memory chip.I instr.n
  refine ⟨s2, _, hD.trans e, ?_, hc, ?_, ?_, ?_⟩
  · intro px py hpx
    have hm := mem_sprite_indices chip.memory chip.I instr.n (chip.V instr.x) (chip.V instr.y)
      px py hpx
    constructor
    · intro h
      have h1 : s2.display (py * 64 + px) = chip.display (py * 64 + px) ^^^ 1 := by
        rw [hd, if_pos (hm.mpr h)]
      exact ⟨h1, by rw [h1]; exact xor_one_ne _⟩
    · intro h
      rw [hd, if_neg (fun hh => h (hm.mp hh))]
  · split
    · refine List.Nodup.map_on ?_ hbits
      intro a ha b hb hab
      rw [mem_sprite_bits] at ha hb
      simp only [host_call.display_draw_pixel.injEq] at hab
      apply pixel_index_inj (chip.V instr.x) (chip.V instr.y) a b (by omega) ha.2.1 (by omega)
        hb.2.1
      unfold pixel_index
      rw [hab.1, hab.2.1]
    · exact List.nodup_nil
  · intro hcap c
    rw [if_pos hcap, List.mem_map]
    constructor
    · rintro ⟨p, hp, rfl⟩
      have hp2 := (mem_sprite_bits _ _ _ _).mp hp
      have hmem : pixel_index (chip.V instr.x) (chip.V instr.y) p.1 p.2 ∈
          (sprite_bits chip.memory chip.I instr.n).map
            (fun p => pixel_index (chip.V instr.x) (chip.V instr.y) p.1 p.2) :=
        List.mem_map.mpr ⟨p, hp, rfl⟩
      have hst := hd (pixel_index (chip.V instr.x) (chip.V instr.y) p.1 p.2)
      rw [if_pos hmem] at hst
      refine ⟨(chip.V instr.x + p.2) % 64, (chip.V instr.y + p.1) % 32,
        Nat.mod_lt _ (by decide), Nat.mod_lt _ (by decide),
        ⟨p.1, p.2, hp2.1, hp2.2.1, (sprite_bit_set _ _ hp2.2.1).mp hp2.2.2, rfl, rfl⟩, ?_⟩
      rw [← hst]
      rfl
    · rintro ⟨px, py, hpx, -, ⟨row, col, hr, hcol, hb, hpxe, hpye⟩, rfl⟩
      have hmem : (row, col) ∈ sprite_bits chip.memory chip.I instr.n :=
        (mem_sprite_bits chip.memory chip.I instr.n (row, col)).mpr
          ⟨hr, hcol, (sprite_bit_set _ _ hcol).mpr hb⟩
      have hidx : pixel_index (chip.V instr.x) (chip.V instr.y) row col = py * 64 + px :=
        (pixel_index_eq_iff _ _ row col px py hpx).mpr ⟨hpxe, hpye⟩
      have hst := hd (py * 64 + px)
      rw [if_pos (List.mem_map.mpr ⟨(row, col), hmem, hidx⟩)] at hst
      refine ⟨(row, col), hmem, ?_⟩
      rw [hst, hpxe, hpye]
      show host_call.display_draw_pixel _ _
        (chip.display (pixel_index (chip.V instr.x) (chip.V instr.y) row col) ^^^ 1) = _
      rw [hidx, hpxe, hpye]
  · intro hcap
    rw [if_neg (by rw [hcap]; decide)]

/-- Example for claim C14: the row `0xC0` drawn by `D011` with `V0 = 63`,
`V1 = 0` toggles cells `(63, 0)` and `(0, 0)` and no neighbour, and reports
`(63, 0, 1)`, then `(0, 0, 1)`, then the refresh. -/
theorem toroidal_sprite_placement_witness :
    (decode 0xD011).x < 16 ∧ (decode 0xD011).y < 16 ∧ (decode 0xD011).n ≤ 15 ∧
    sprite_chip.I + (decode 0xD011).n ≤ 4096 ∧
    (∃ s calls, instruction_handler_opcode_D sprite_chip (decode 0xD011) = some s ∧
      s.host_calls = sprite_chip.host_calls ++ calls ++
        (if sprite_chip.config.display_refresh = true then [host_call.display_refresh] else []) ∧
      calls.Nodup) ∧
    (instruction_handler_opcode_D sprite_chip (decode 0xD011)).map
      (fun s => ([s.display (0 * 64 + 63), s.display (0 * 64 + 0), s.display (0 * 64 + 1),
        s.display (0 * 64 + 62), s.display (1 * 64 + 63), s.display (1 * 64 + 0)],
        s.host_calls)) =
      some ([1, 1, 0, 0, 0, 0],
        [host_call.display_draw_pixel 63 0 1, host_call.display_draw_pixel 0 0 1,
          host_call.display_refresh]) :=
  ⟨by decide, by decide, by decide, by decide,
    (toroidal_sprite_placement sprite_chip (decode 0xD011) (by decide) (by decide) (by decide)
      (by decide)).elim (fun s h => h.elim (fun calls h2 => ⟨s, calls, h2.1, h2.2.2.1, h2.2.2.2.1⟩)),
    by decide⟩

/-- Claim C15.  With clock reading `t` and baseline `b < 2^32`, let
`e = (t - b) mod 2^32`.  With a clock: if `e ≥ 16` then `update_timers` makes
each timer one less when it was non-zero and leaves it 0 otherwise, and the
baseline becomes `t`; if `e < 16` both timers and the baseline are unchanged.
In every case a timer drops by at most 1; without a clock `update_timers`
changes nothing; and `g2chip_step` is `update_timers` followed by the
execution of one instruction. -/
theorem timer_decay_quantum (chip : g2chip) (host : host_answers)
    (hb : chip.last_time_ms < 2 ^ 32) :
    (chip.config.get_time_ms = true →
      (16 ≤ ((host.get_time_ms : Int) - (chip.last_time_ms : Int)) % 2 ^ 32 →
        (update_timers chip host).delay_timer =
          (if chip.delay_timer ≠ 0 then chip.delay_timer - 1 else 0) ∧
        (update_timers chip host).sound_timer =
          (if chip.sound_timer ≠ 0 then chip.sound_timer - 1 else 0) ∧
        (update_timers chip host).last_time_ms = host.get_time_ms) ∧
      (((host.get_time_ms : Int) - (chip.last_time_ms : Int)) % 2 ^ 32 < 16 →
        (update_timers chip host).delay_timer = chip.delay_timer ∧
        (update_timers chip host).sound_timer = chip.sound_timer ∧
        (update_timers chip host).last_time_ms = chip.last_time_ms)) ∧
    ((update_timers chip host).delay_timer ≤ chip.delay_timer ∧
      chip.delay_timer ≤ (update_timers chip host).delay_timer + 1 ∧
      (update_timers chip host).sound_timer ≤ chip.sound_timer ∧
      chip.sound_timer ≤ (update_timers chip host).sound_timer + 1) ∧
    (chip.config.get_time_ms = false → update_timers chip host = chip) ∧
    g2chip_step chip host = execute_step (update_timers chip host) host := by
  have hint := elapsed_int host.get_time_ms chip.last_time_ms hb
  refine ⟨?_, ?_, ?_, rfl⟩
  · intro hc
    constructor
    · intro he
      rw [update_timers_fired chip host hc (by omega)]
      refine ⟨?_, ?_, rfl⟩
      · by_cases h : chip.delay_timer = 0 <;> simp [h, Nat.pos_iff_ne_zero]
      · by_cases h : chip.sound_timer = 0 <;> simp [h, Nat.pos_iff_ne_zero]
    · intro he
      rw [update_timers_idle chip host (Or.inr (by omega))]
      exact ⟨rfl, rfl, rfl⟩
  · by_cases hf : chip.config.get_time_ms = true ∧
        16 ≤ (host.get_time_ms + 2 ^ 32 - chip.last_time_ms) % 2 ^ 32
    · rw [update_timers_fired chip host hf.1 hf.2]
      dsimp only
      refine ⟨?_, ?_, ?_, ?_⟩ <;> split <;> omega
    · rw [update_timers_idle chip host (by
        by_cases hc : chip.config.get_time_ms = true
        · exact Or.inr (Nat.lt_of_not_le (fun h => hf ⟨hc, h⟩))
        · exact Or.inl (by simpa using hc))]
      omega
  · intro hc
    exact update_timers_idle chip host (Or.inl hc)

/-- Example for claim C15: `delay_timer = 5` with baseline 100 reads 4 at clock
116 and still 4 at clock 131, in `update_timers` and in two calls of
`g2chip_step`. -/
theorem timer_decay_quantum_witness :
    (timer_chip 5 0 100).last_time_ms < 2 ^ 32 ∧
    ((timer_chip 5 0 100).config.get_time_ms = true →
      (16 ≤ (((clock_host 116).get_time_ms : Int) - ((timer_chip 5 0 100).last_time_ms : Int)) %
          2 ^ 32 →
        (update_timers (timer_chip 5 0 100) (clock_host 116)).delay_timer =
          (if (timer_chip 5 0 100).delay_timer ≠ 0 then (timer_chip 5 0 100).delay_timer - 1
            else 0) ∧
        (update_timers (timer_chip 5 0 100) (clock_host 116)).sound_timer =
          (if (timer_chip 5 0 100).sound_timer ≠ 0 then (timer_chip 5 0 100).sound_timer - 1
            else 0) ∧
        (update_timers (timer_chip 5 0 100) (clock_host 116)).last_time_ms =
          (clock_host 116).get_time_ms) ∧
      ((((clock_host 116).get_time_ms : Int) - ((timer_chip 5 0 100).last_time_ms : Int)) %
          2 ^ 32 < 16 →
        (update_timers (timer_chip 5 0 100) (clock_host 116)).delay_timer =
          (timer_chip 5 0 100).delay_timer ∧
        (update_timers (timer_chip 5 0 100) (clock_host 116)).sound_timer =
          (timer_chip 5 0 100).sound_timer ∧
        (update_timers (timer_chip 5 0 100) (clock_host 116)).last_time_ms =
          (timer_chip 5 0 100).last_time_ms)) ∧
    (update_timers (timer_chip 5 0 100) (clock_host 116)).delay_timer = 4 ∧
    (update_timers (update_timers (timer_chip 5 0 100) (clock_host 116))
      (clock_host 131)).delay_timer = 4 ∧
    ((g2chip_step (timer_chip 5 0 100) (clock_host 116)).bind
      (fun s => g2chip_step s (clock_host 131))).map (fun s => s.delay_timer) = some 4 :=
  ⟨by decide, (timer_decay_quantum (timer_chip 5 0 100) (clock_host 116) (by decide)).1,
    by decide, by decide, by decide⟩

/-- Claim C16.  For every machine (baseline below `2^32`) and clock reading,
`update_timers` appends the sound-stop call exactly when a decay fires (clock
present and at least 16 units elapsed), `sound_timer` goes from 1 to 0 and the
sound-stop callback is present, and appends nothing otherwise; it adds no
sound-start call; and with `sound_timer = 0` before, the host calls are
unchanged. -/
theorem timer_audio_calls (chip : g2chip) (host : host_answers)
    (hb : chip.last_time_ms < 2 ^ 32) :
    (update_timers chip host).host_calls =
      chip.host_calls ++
        (if chip.config.get_time_ms = true ∧
            16 ≤ ((host.get_time_ms : Int) - (chip.last_time_ms : Int)) % 2 ^ 32 ∧
            chip.sound_timer = 1 ∧ (update_timers chip host).sound_timer = 0 ∧
            chip.config.sound_beep_stop = true then
          [host_call.sound_beep_stop]
        else []) ∧
    (update_timers chip host).host_calls.count host_call.sound_beep_start =
      chip.host_calls.count host_call.sound_beep_start ∧
    (chip.sound_timer = 0 → (update_timers chip host).host_calls = chip.host_calls) := by
  have hint := elapsed_int host.get_time_ms chip.last_time_ms hb
  by_cases hf : chip.config.get_time_ms = true ∧
      16 ≤ (host.get_time_ms + 2 ^ 32 - chip.last_time_ms) % 2 ^ 32
  · have he : 16 ≤ ((host.get_time_ms : Int) - (chip.last_time_ms : Int)) % 2 ^ 32 := by omega
    rw [update_timers_fired chip host hf.1 hf.2]
    dsimp only
    have he2 : (16 : Int) ≤ ((host.get_time_ms : Int) - (chip.last_time_ms : Int)) % 4294967296 := by
      omega
    by_cases h1 : chip.sound_timer = 1 <;> by_cases hcap : chip.config.sound_beep_stop = true <;>
      simp [h1, hcap, hf.1, he2]
  · have hidle := update_timers_idle chip host (by
      by_cases hc : chip.config.get_time_ms = true
      · exact Or.inr (Nat.lt_of_not_le (fun h => hf ⟨hc, h⟩))
      · exact Or.inl (by simpa using hc))
    rw [hidle]
    have hn : ¬ (chip.config.get_time_ms = true ∧
        16 ≤ ((host.get_time_ms : Int) - (chip.last_time_ms : Int)) % 2 ^ 32 ∧
        chip.sound_timer = 1 ∧ chip.sound_timer = 0 ∧ chip.config.sound_beep_stop = true) := by
      intro h; omega
    rw [if_neg hn]
    simp

/-- Examples for claim C16: with `sound_timer = 1` and 16 units elapsed the
sound stop is called; with `sound_timer = 2`, with 15 units elapsed, or with
`sound_timer = 0`, no call is made. -/
theorem timer_audio_calls_witness :
    (timer_chip 0 1 100).last_time_ms < 2 ^ 32 ∧
    (update_timers (timer_chip 0 1 100) (clock_host 116)).host_calls =
      [host_call.sound_beep_stop] ∧
    (update_timers (timer_chip 0 2 100) (clock_host 116)).host_calls = [] ∧
    (update_timers (timer_chip 0 1 100) (clock_host 115)).host_calls = [] ∧
    (update_timers (timer_chip 0 0 100) (clock_host 116)).host_calls = [] ∧
    ((timer_chip 0 0 100).sound_timer = 0 →
      (update_timers (timer_chip 0 0 100) (clock_host 116)).host_calls =
        (timer_chip 0 0 100).host_calls) :=
  ⟨by decide, by decide, by decide, by decide, by decide,
    (timer_audio_calls (timer_chip 0 0 100) (clock_host 116) (by decide)).2.2⟩

/-- Counterexample to claim C17 as stated: after `g2chip_reset` `memory[5*0 + 0]`
is 0, while row 0 of the glyph for digit 0 is `0xF0`. -/
theorem glyphs_not_at_zero :
    (g2chip_reset (calloc_chip no_callbacks) quiet_host).memory (5 * 0 + 0) = 0 ∧
    g2chip_font_data.getD (5 * 0 + 0) 0 = 0xF0 ∧
    (g2chip_reset (calloc_chip no_callbacks) quiet_host).memory (5 * 0 + 0) ≠
      g2chip_font_data.getD (5 * 0 + 0) 0 := by
  decide

/-- Claim C17, amended.  After `g2chip_reset` the 80 glyph bytes occupy
addresses `0x50` through `0x9F`: `memory[0x50 + 5*d + r]` is row `r` of the
glyph for digit `d` (entry `5*d + r` of `g2chip_font_data`) for every `d < 16`
and `r < 5`, and every byte outside that range is 0. -/
theorem glyph_region (chip : g2chip) (host : host_answers) (d r : Nat)
    (hd : d < 16) (hr : r < 5) :
    (g2chip_reset chip host).memory (0x50 + 5 * d + r) = g2chip_font_data.getD (5 * d + r) 0 ∧
    0x50 ≤ 0x50 + 5 * d + r ∧ 0x50 + 5 * d + r ≤ 0x9F ∧
    g2chip_font_data.length = 80 ∧
    (∀ a, a < 0x50 ∨ 0x9F < a → (g2chip_reset chip host).memory a = 0) := by
  refine ⟨?_, by omega, by omega, rfl, ?_⟩
  · rw [g2chip_reset_memory, if_pos (by omega)]
    congr 1
    omega
  · intro a ha
    rw [g2chip_reset_memory, if_neg (by omega)]

/-- Example for claim C17: after reset `memory[0x50 + 5*10 + 4]` is the last
row `0x90` of the glyph for `A`. -/
theorem glyph_region_witness :
    (10 : Nat) < 16 ∧ (4 : Nat) < 5 ∧
    (g2chip_reset (calloc_chip no_callbacks) quiet_host).memory (0x50 + 5 * 10 + 4) =
      g2chip_font_data.getD (5 * 10 + 4) 0 ∧
    g2chip_font_data.getD (5 * 10 + 4) 0 = 0x90 :=
  ⟨by decide, by decide,
    (glyph_region (calloc_chip no_callbacks) quiet_host 10 4 (by decide) (by decide)).1,
    by decide⟩

/-- Claim C18.  Take the machine obtained by reset followed by a successful
`g2chip_load_rom`, and any machine whose memory agrees with it on the glyph
table (so any register contents).  `Fx29` with `Vx ≤ 15` returns with
`I = G2CHIP_FONT_START_ADDRESS + 5 * Vx`, and `memory[I .. I+4]` are the five
rows of the glyph for digit `Vx` in `g2chip_font_data`; with `Vx > 15` it
returns with the index register and all other state unchanged. -/
theorem glyph_lookup (c0 chip : g2chip) (host0 host : host_answers) (data : List Nat)
    (size : Nat) (instr : g2chip_instruction)
    (_hload : (g2chip_load_rom (g2chip_reset c0 host0) (some data) size).1 = 0)
    (hfont : ∀ a, 0x50 ≤ a → a ≤ 0x9F →
      chip.memory a = (g2chip_load_rom (g2chip_reset c0 host0) (some data) size).2.memory a)
    (hnn : instr.nn = 0x29) (hx : instr.x < 16) :
    (chip.V instr.x ≤ 15 →
      ∃ s, instruction_handler_opcode_F chip instr host = some s ∧
        s.I = G2CHIP_FONT_START_ADDRESS + 5 * chip.V instr.x ∧
        (∀ r, r < 5 → s.memory (s.I + r) = g2chip_font_data.getD (5 * chip.V instr.x + r) 0) ∧
        s.memory = chip.memory ∧ s.V = chip.V) ∧
    (15 < chip.V instr.x →
      ∃ s, instruction_handler_opcode_F chip instr host = some s ∧ s.I = chip.I ∧
        s.V = chip.V ∧ s.memory = chip.memory ∧ s.stack = chip.stack ∧ s.sp = chip.sp ∧
        s.pc = chip.pc ∧ s.display = chip.display ∧ s.delay_timer = chip.delay_timer ∧
        s.sound_timer = chip.sound_timer ∧ s.last_time_ms = chip.last_time_ms ∧
        s.config = chip.config) := by
  constructor
  · intro hd
    have e0 := opcode_F_case_29 chip instr host hnn hx
    rw [if_pos hd] at e0
    refine ⟨_, e0, ?_, ?_, rfl, rfl⟩
    · show (G2CHIP_FONT_START_ADDRESS + chip.V instr.x * 5) % 65536 = _
      simp only [G2CHIP_FONT_START_ADDRESS]
      omega
    · intro r hr
      show chip.memory ((G2CHIP_FONT_START_ADDRESS + chip.V instr.x * 5) % 65536 + r) = _
      have e : (G2CHIP_FONT_START_ADDRESS + chip.V instr.x * 5) % 65536 + r =
          0x50 + 5 * chip.V instr.x + r := by
        simp only [G2CHIP_FONT_START_ADDRESS]
        omega
      rw [e, hfont _ (by omega) (by omega), g2chip_load_rom_memory_low _ _ _ _ (by omega),
        g2chip_reset_memory, if_pos (by omega)]
      congr 1
      omega
  · intro hd
    have e0 := opcode_F_case_29 chip instr host hnn hx
    rw [if_neg (by omega)] at e0
    refine ⟨_, e0, ?_⟩
    split <;> simp [notify]

/-- Examples for claim C18: after reset and a load, `F029` with `V0 = 0` gives
`I = 0x50` and the rows `F0 90 90 90 F0`; with `V0 = 0x1F` it leaves `I` as
it was. -/
theorem glyph_lookup_witness :
    (g2chip_load_rom (g2chip_reset (calloc_chip no_callbacks) quiet_host)
      (some [0xF0, 0x29]) 2).1 = 0 ∧
    (decode 0xF029).nn = 0x29 ∧ (decode 0xF029).x < 16 ∧ (glyph_chip 0).V (decode 0xF029).x ≤ 15 ∧
    (∃ s, instruction_handler_opcode_F (glyph_chip 0) (decode 0xF029) quiet_host = some s ∧
      s.I = G2CHIP_FONT_START_ADDRESS + 5 * 0 ∧
      (∀ r, r < 5 → s.memory (s.I + r) = g2chip_font_data.getD (5 * 0 + r) 0) ∧
      s.memory = (glyph_chip 0).memory ∧ s.V = (glyph_chip 0).V) ∧
    (instruction_handler_opcode_F (glyph_chip 0) (decode 0xF029) quiet_host).map
      (fun s => (s.I, s.memory s.I, s.memory (s.I + 1), s.memory (s.I + 2), s.memory (s.I + 3),
        s.memory (s.I + 4))) = some (0x50, 0xF0, 0x90, 0x90, 0x90, 0xF0) ∧
    (instruction_handler_opcode_F (glyph_chip 0x1F) (decode 0xF029) quiet_host).map
      (fun s => s.I) = some (glyph_chip 0x1F).I :=
  ⟨by decide, by decide, by decide, by decide,
    (glyph_lookup (calloc_chip no_callbacks) (glyph_chip 0) quiet_host quiet_host [0xF0, 0x29] 2
      (decode 0xF029) (by decide) (fun _ _ _ => rfl) (by decide) (by decide)).1 (by decide),
    by decide, by decide⟩

/-- Claim C19.  For a byte `v` in `Vx` and `I ≤ 4093`, `Fx33` returns with
`memory[I] = v / 100`, `memory[I+1] = (v / 10) mod 10` and
`memory[I+2] = v mod 10`; each is at most 9 and
`100 * memory[I] + 10 * memory[I+1] + memory[I+2] = v`; every other memory
byte, every register and the index register are unchanged. -/
theorem decimal_digits (chip : g2chip) (instr : g2chip_instruction) (host : host_answers)
    (hnn : instr.nn = 0x33) (hx : instr.x < 16) (hv : chip.V instr.x < 256)
    (hI : chip.I ≤ 4093) :
    ∃ s, instruction_handler_opcode_F chip instr host = some s ∧
      s.memory chip.I = chip.V instr.x / 100 ∧
      s.memory (chip.I + 1) = (chip.V instr.x / 10) % 10 ∧
      s.memory (chip.I + 2) = chip.V instr.x % 10 ∧
      s.memory chip.I ≤ 9 ∧ s.memory (chip.I + 1) ≤ 9 ∧ s.memory (chip.I + 2) ≤ 9 ∧
      100 * s.memory chip.I + 10 * s.memory (chip.I + 1) + s.memory (chip.I + 2) =
        chip.V instr.x ∧
      (∀ a, a ≠ chip.I → a ≠ chip.I + 1 → a ≠ chip.I + 2 → s.memory a = chip.memory a) ∧
      s.V = chip.V ∧ s.I = chip.I := by
  refine ⟨_, opcode_F_case_33 chip instr host hnn hx (by omega), ?_⟩
  have e0 : ∀ m : Nat → Nat, ∀ v1 v2 v3 : Nat,
      upd (upd (upd m chip.I v1) (chip.I + 1) v2) (chip.I + 2) v3 chip.I = v1 := by
    intro m v1 v2 v3
    rw [upd_other _ _ _ _ (by omega), upd_other _ _ _ _ (by omega), upd_same]
  have e1 : ∀ m : Nat → Nat, ∀ v1 v2 v3 : Nat,
      upd (upd (upd m chip.I v1) (chip.I + 1) v2) (chip.I + 2) v3 (chip.I + 1) = v2 := by
    intro m v1 v2 v3
    rw [upd_other _ _ _ _ (by omega), upd_same]
  simp only [e0, e1, upd_same]
  refine ⟨trivial, trivial, trivial, by omega, by omega, by omega, by omega, ?_, trivial, trivial⟩
  intro a h0 h1 h2
  rw [upd_other _ _ _ _ h2, upd_other _ _ _ _ h1, upd_other _ _ _ _ h0]

/-- Example for claim C19: `F033` with `V0 = 254` and `I = 0x300` stores 2, 5, 4. -/
theorem decimal_digits_witness :
    (decode 0xF033).nn = 0x33 ∧ (decode 0xF033).x < 16 ∧
    (bcd_chip 254).V (decode 0xF033).x < 256 ∧ (bcd_chip 254).I ≤ 4093 ∧
    (∃ s, instruction_handler_opcode_F (bcd_chip 254) (decode 0xF033) quiet_host = some s ∧
      s.memory 0x300 = 2 ∧ s.memory (0x300 + 1) = 5 ∧ s.memory (0x300 + 2) = 4 ∧
      s.memory 0x300 ≤ 9 ∧ s.memory (0x300 + 1) ≤ 9 ∧ s.memory (0x300 + 2) ≤ 9 ∧
      100 * s.memory 0x300 + 10 * s.memory (0x300 + 1) + s.memory (0x300 + 2) = 254 ∧
      (∀ a, a ≠ 0x300 → a ≠ 0x300 + 1 → a ≠ 0x300 + 2 → s.memory a = (bcd_chip 254).memory a) ∧
      s.V = (bcd_chip 254).V ∧ s.I = (bcd_chip 254).I) :=
  ⟨by decide, by decide, by decide, by decide,
    decimal_digits (bcd_chip 254) (decode 0xF033) quiet_host (by decide) (by decide) (by decide)
      (by decide)⟩

/-- Claim C20.  For `x < 16` and `I + x ≤ 4095`: `Fx55` returns with
`memory[I + i] = Vi` for every `i ≤ x`, no other memory byte, no register and
not the index register changed; `Fx65` returns with `Vi = memory[I + i]` for
every `i ≤ x`, no register above `x`, no memory and not the index register
changed.  Hence `Fx65` on any later machine with the same `I` and the same
bytes `memory[I .. I+x]` restores `V0 .. Vx` to their values at the `Fx55`. -/
theorem register_block_round_trip (chip : g2chip) (store load : g2chip_instruction)
    (host : host_answers) (hstore : store.nn = 0x55) (hload : load.nn = 0x65)
    (hx : store.x < 16) (hxe : load.x = store.x) (hI : chip.I + store.x ≤ 4095) :
    (∃ s1, instruction_handler_opcode_F chip store host = some s1 ∧
      (∀ i, i ≤ store.x → s1.memory (chip.I + i) = chip.V i) ∧
      (∀ a, a < chip.I ∨ chip.I + store.x < a → s1.memory a = chip.memory a) ∧
      s1.V = chip.V ∧ s1.I = chip.I ∧
      (∀ c2 : g2chip, ∀ host2 : host_answers, c2.I = chip.I →
        (∀ i, i ≤ store.x → c2.memory (chip.I + i) = s1.memory (chip.I + i)) →
        ∃ s3, instruction_handler_opcode_F c2 load host2 = some s3 ∧
          ∀ i, i ≤ store.x → s3.V i = chip.V i)) ∧
    (∀ c : g2chip, ∀ host2 : host_answers, c.I + store.x ≤ 4095 →
      ∃ s, instruction_handler_opcode_F c load host2 = some s ∧
        (∀ i, i ≤ store.x → s.V i = c.memory (c.I + i)) ∧
        (∀ j, store.x < j → s.V j = c.V j) ∧
        s.memory = c.memory ∧ s.I = c.I) := by
  have hload_all : ∀ c : g2chip, ∀ host2 : host_answers, c.I + store.x ≤ 4095 →
      ∃ s, instruction_handler_opcode_F c load host2 = some s ∧
        (∀ i, i ≤ store.x → s.V i = c.memory (c.I + i)) ∧
        (∀ j, store.x < j → s.V j = c.V j) ∧
        s.memory = c.memory ∧ s.I = c.I := by
    intro c host2 hc
    obtain ⟨s, e, hs, hv⟩ := opcode_F_load_loop_eq (store.x + 1) c (by omega) (by omega)
    refine ⟨s, by rw [opcode_F_case_65 c load host2 hload, hxe]; exact e, ?_, ?_, ?_, ?_⟩
    · intro i hi
      rw [hv, if_pos (by omega)]
    · intro j hj
      rw [hv, if_neg (by omega)]
    · rw [hs]
    · rw [hs]
  refine ⟨?_, hload_all⟩
  obtain ⟨s1, e1, hs1, hm1⟩ := opcode_F_store_loop_eq (store.x + 1) chip (by omega) (by omega)
  have hmem : ∀ i, i ≤ store.x → s1.memory (chip.I + i) = chip.V i := by
    intro i hi
    rw [hm1, if_pos (by omega)]
    congr 1
    omega
  refine ⟨s1, by rw [opcode_F_case_55 chip store host hstore]; exact e1, hmem, ?_, ?_, ?_, ?_⟩
  · intro a ha
    rw [hm1, if_neg (by omega)]
  · rw [hs1]
  · rw [hs1]
  · intro c2 host2 hI2 hm2
    obtain ⟨s3, e3, hv3, -, -, -⟩ := hload_all c2 host2 (by omega)
    refine ⟨s3, e3, ?_⟩
    intro i hi
    rw [hv3 i hi, hI2, hm2 i hi, hmem i hi]

/-- Example for claim C20: `F255` on `V0, V1, V2 = 7, 8, 9`, `I = 0x300`, then all
registers zeroed, then `F265`, gives back `7, 8, 9` and leaves `V3 = 0`. -/
theorem register_block_round_trip_witness :
    (decode 0xF255).nn = 0x55 ∧ (decode 0xF265).nn = 0x65 ∧ (decode 0xF255).x < 16 ∧
    (decode 0xF265).x = (decode 0xF255).x ∧ (block_chip 7 8 9).I + (decode 0xF255).x ≤ 4095 ∧
    (∃ s1, instruction_handler_opcode_F (block_chip 7 8 9) (decode 0xF255) quiet_host = some s1 ∧
      (∀ i, i ≤ (decode 0xF255).x → s1.memory ((block_chip 7 8 9).I + i) = (block_chip 7 8 9).V i) ∧
      (∀ a, a < (block_chip 7 8 9).I ∨ (block_chip 7 8 9).I + (decode 0xF255).x < a →
        s1.memory a = (block_chip 7 8 9).memory a) ∧
      s1.V = (block_chip 7 8 9).V ∧ s1.I = (block_chip 7 8 9).I ∧
      (∀ c2 : g2chip, ∀ host2 : host_answers, c2.I = (block_chip 7 8 9).I →
        (∀ i, i ≤ (decode 0xF255).x →
          c2.memory ((block_chip 7 8 9).I + i) = s1.memory ((block_chip 7 8 9).I + i)) →
        ∃ s3, instruction_handler_opcode_F c2 (decode 0xF265) host2 = some s3 ∧
          ∀ i, i ≤ (decode 0xF255).x → s3.V i = (block_chip 7 8 9).V i)) ∧
    ((instruction_handler_opcode_F (block_chip 7 8 9) (decode 0xF255) quiet_host).bind
      (fun s1 => instruction_handler_opcode_F { s1 with V := fun _ => 0 } (decode 0xF265)
        quiet_host)).map
      (fun s => [s.V 0, s.V 1, s.V 2, s.V 3, s.memory 0x300, s.memory 0x301, s.memory 0x302,
        s.memory 0x303]) = some [7, 8, 9, 0, 7, 8, 9, 0] :=
  ⟨by decide, by decide, by decide, by decide, by decide,
    (register_block_round_trip (block_chip 7 8 9) (decode 0xF255) (decode 0xF265) quiet_host
      (by decide) (by decide) (by decide) (by decide) (by decide)).1,
    by decide⟩

/-- Claim C21.  With `pc ≤ 4094` (and bytes in the two memory cells),
`fetch_instruction` returns the word `raw = 256 * memory[pc] + memory[pc+1]`
with `opcode = raw / 4096`, `x = (raw / 256) mod 16`, `y = (raw / 16) mod 16`,
`n = raw mod 16`, `nn = raw mod 256` and `nnn = raw mod 4096`, so
`raw = 4096 * opcode + nnn`, `nnn = 256 * x + nn` and `nn = 16 * y + n`.
The handler of the class runs on the machine whose program counter is already
`pc + 2`; hence `1nnn` and `2nnn` end with `pc = nnn` (the latter having pushed
`pc + 2`) and `Bnnn` ends with `pc = nnn + V0`. -/
theorem fetch_and_decode (chip : g2chip) (host : host_answers)
    (hpc : chip.pc ≤ 4094) (hhi : chip.memory chip.pc < 256)
    (hlo : chip.memory (chip.pc + 1) < 256) :
    ∃ instr, fetch_instruction chip = some instr ∧
      instr.raw = 256 * chip.memory chip.pc + chip.memory (chip.pc + 1) ∧
      instr.opcode = instr.raw / 4096 ∧ instr.x = instr.raw / 256 % 16 ∧
      instr.y = instr.raw / 16 % 16 ∧ instr.n = instr.raw % 16 ∧
      instr.nn = instr.raw % 256 ∧ instr.nnn = instr.raw % 4096 ∧
      instr.raw = 4096 * instr.opcode + instr.nnn ∧ instr.nnn = 256 * instr.x + instr.nn ∧
      instr.nn = 16 * instr.y + instr.n ∧
      (∃ handler, instruction_handlers instr.opcode = some handler ∧
        execute_step chip host = handler { chip with pc := chip.pc + 2 } instr host) ∧
      (instr.opcode = 1 → ∃ s, execute_step chip host = some s ∧ s.pc = instr.nnn) ∧
      (instr.opcode = 2 → chip.sp < 16 →
        ∃ s, execute_step chip host = some s ∧ s.pc = instr.nnn ∧
          s.stack chip.sp = chip.pc + 2) ∧
      (instr.opcode = 0xB → chip.V 0 < 256 →
        ∃ s, execute_step chip host = some s ∧ s.pc = instr.nnn + chip.V 0) := by
  have hf := fetch_instruction_some chip hpc
  have hw : ((chip.memory chip.pc <<< 8) ||| chip.memory (chip.pc + 1)) % 65536 =
      256 * chip.memory chip.pc + chip.memory (chip.pc + 1) := by
    rw [word_of_bytes _ _ hlo]
    omega
  rw [hw] at hf
  have hraw : 256 * chip.memory chip.pc + chip.memory (chip.pc + 1) < 65536 := by omega
  obtain ⟨e0, e1, h16, -, -, -, -, h4096⟩ := decode_fields _ hraw
  obtain ⟨handler, hh⟩ := instruction_handlers_lt _ h16
  have hx := execute_step_eq chip host _ handler hf hh
  refine ⟨_, hf, e0, ?_, ?_, ?_, ?_, ?_, ?_, ?_, ?_, ?_, ⟨handler, hh, hx⟩, ?_, ?_, ?_⟩
  · rw [e0]; exact e1
  · rw [e0]; exact decode_x _
  · rw [e0]; exact decode_y _
  · rw [e0]; exact decode_n _
  · rw [e0]; exact decode_nn _
  · rw [e0]; exact decode_nnn _
  · rw [e0, e1, decode_nnn]; omega
  · rw [decode_nnn, decode_x, decode_nn]; omega
  · rw [decode_nn, decode_y, decode_n]; omega
  · intro h1
    have hh1 : instruction_handlers (decode (256 * chip.memory chip.pc +
        chip.memory (chip.pc + 1))).opcode =
        some (fun chip instr _ => instruction_handler_opcode_1 chip instr) := by
      rw [h1]; rfl
    exact ⟨_, execute_step_eq chip host _ _ hf hh1, rfl⟩
  · intro h2 hsp
    have hh2 : instruction_handlers (decode (256 * chip.memory chip.pc +
        chip.memory (chip.pc + 1))).opcode =
        some (fun chip instr _ => instruction_handler_opcode_2 chip instr) := by
      rw [h2]; rfl
    have e := execute_step_eq chip host _ _ hf hh2
    simp only [instruction_handler_opcode_2, stack_set, G2CHIP_STACK_SIZE, hsp, if_true,
      Option.bind_eq_bind, Option.some_bind, instruction_jump_to_address] at e
    exact ⟨_, e, rfl, upd_same _ _ _⟩
  · intro hB hv
    have hhB : instruction_handlers (decode (256 * chip.memory chip.pc +
        chip.memory (chip.pc + 1))).opcode =
        some (fun chip instr _ => instruction_handler_opcode_B chip instr) := by
      rw [hB]; rfl
    refine ⟨_, execute_step_eq chip host _ _ hf hhB, ?_⟩
    show ((decode _).nnn + chip.V 0) % 65536 = _
    omega

/-- Example for claim C21: at `pc = 0x200` with bytes `22 04` the fetched word
is `0x2204`, class 2, `nnn = 0x204`; the step ends with `pc = 0x204` and the
return address `0x202` on the stack. -/
theorem fetch_and_decode_witness :
    call_return_chip.pc ≤ 4094 ∧ call_return_chip.memory call_return_chip.pc < 256 ∧
    call_return_chip.memory (call_return_chip.pc + 1) < 256 ∧
    (∃ instr, fetch_instruction call_return_chip = some instr ∧
      instr.raw = 256 * call_return_chip.memory call_return_chip.pc +
        call_return_chip.memory (call_return_chip.pc + 1) ∧
      instr.opcode = instr.raw / 4096) ∧
    fetch_instruction call_return_chip =
      some { raw := 0x2204, opcode := 2, x := 2, y := 0, n := 4, nn := 0x04, nnn := 0x204 } ∧
    (execute_step call_return_chip quiet_host).map (fun s => (s.pc, s.stack 0, s.sp)) =
      some (0x204, 0x202, 1) :=
  ⟨by decide, by decide, by decide,
    (fetch_and_decode call_return_chip quiet_host (by decide) (by decide) (by decide)).elim
      (fun instr h => ⟨instr, h.1, h.2.1, h.2.2.1⟩),
    by decide, by decide⟩

/-- Claim C22.  For every register index `x` and immediate `nn`, a step that
executes `6xnn` (fetched at `pc ≤ 4094`) returns with `Vx = nn` and the
program counter at the fetch address plus 2; no other register, no memory, not
the index register, the stack, the stack pointer or the display is changed. -/
theorem load_immediate (chip : g2chip) (host : host_answers) (x nn : Nat)
    (hx : x < 16) (hnn : nn < 256) (hpc : chip.pc ≤ 4094)
    (hhi : chip.memory chip.pc = 0x60 + x) (hlo : chip.memory (chip.pc + 1) = nn) :
    ∃ s, g2chip_step chip host = some s ∧ s.V x = nn ∧ s.pc = chip.pc + 2 ∧
      (∀ j, j ≠ x → s.V j = chip.V j) ∧ s.memory = chip.memory ∧ s.I = chip.I ∧
      s.stack = chip.stack ∧ s.sp = chip.sp ∧ s.display = chip.display := by
  obtain ⟨dt, st, lt, calls, ht⟩ := update_timers_frame chip host
  have e := execute_step_load_immediate (update_timers chip host) host x nn hx hnn
    (by rw [ht]; exact hpc) (by rw [ht]; exact hhi) (by rw [ht]; exact hlo)
  refine ⟨_, e, ?_⟩
  rw [ht]
  exact ⟨upd_same _ _ _, rfl, fun j hj => upd_other _ _ _ _ hj, rfl, rfl, rfl, rfl, rfl⟩

/-- Examples for claim C22: after reset and a load of `61 00` one step leaves
`V1 = 0x00` and `pc = 0x202`; after a load of `6F 2A` it leaves `V15 = 0x2A`. -/
theorem load_immediate_witness :
    (1 : Nat) < 16 ∧ (0x00 : Nat) < 256 ∧ load_immediate_chip.pc ≤ 4094 ∧
    load_immediate_chip.memory load_immediate_chip.pc = 0x60 + 1 ∧
    load_immediate_chip.memory (load_immediate_chip.pc + 1) = 0x00 ∧
    (∃ s, g2chip_step load_immediate_chip quiet_host = some s ∧ s.V 1 = 0x00 ∧
      s.pc = load_immediate_chip.pc + 2 ∧
      (∀ j, j ≠ 1 → s.V j = load_immediate_chip.V j) ∧
      s.memory = load_immediate_chip.memory ∧ s.I = load_immediate_chip.I ∧
      s.stack = load_immediate_chip.stack ∧ s.sp = load_immediate_chip.sp ∧
      s.display = load_immediate_chip.display) ∧
    (g2chip_step load_immediate_chip quiet_host).map (fun s => (s.V 1, s.pc)) =
      some (0x00, 0x202) ∧
    (g2chip_step load_immediate_chip_2A quiet_host).map (fun s => (s.V 15, s.pc)) =
      some (0x2A, 0x202) :=
  ⟨by decide, by decide, by decide, by decide, by decide,
    load_immediate load_immediate_chip quiet_host 1 0x00 (by decide) (by decide) (by decide)
      (by decide) (by decide),
    by decide, by decide⟩

/-- Claim C23.  Let the fetched word be `0nnn` with `nnn` neither `0x0E0` nor
`0x0EE`, or `8xyn` with `n` in `8, 9, A, B, C, D, F`, or `Exnn` with `nn`
neither `0x9E` nor `0xA1`, or `Fxnn` with `nn` none of
`07, 0A, 15, 18, 1E, 29, 33, 55, 65`.  On every machine the handler of the
class returns with registers, index register, memory, stack, stack pointer,
display, timers and program counter unchanged (it only calls the debug log, if
present); and the step returns with the program counter at the fetch address
plus 2 and registers, index register, memory, stack, stack pointer and display
unchanged, the timers being those the timer phase left. -/
theorem unmatched_noop (chip : g2chip) (host : host_answers) (instr : g2chip_instruction)
    (hf : fetch_instruction chip = some instr)
    (hclass :
      (instr.opcode = 0 ∧ instr.nnn ≠ 0x0E0 ∧ instr.nnn ≠ 0x0EE) ∨
      (instr.opcode = 8 ∧ (instr.n = 0x8 ∨ instr.n = 0x9 ∨ instr.n = 0xA ∨ instr.n = 0xB ∨
        instr.n = 0xC ∨ instr.n = 0xD ∨ instr.n = 0xF)) ∨
      (instr.opcode = 0xE ∧ instr.nn ≠ 0x9E ∧ instr.nn ≠ 0xA1) ∨
      (instr.opcode = 0xF ∧ instr.nn ≠ 0x07 ∧ instr.nn ≠ 0x0A ∧ instr.nn ≠ 0x15 ∧
        instr.nn ≠ 0x18 ∧ instr.nn ≠ 0x1E ∧ instr.nn ≠ 0x29 ∧ instr.nn ≠ 0x33 ∧
        instr.nn ≠ 0x55 ∧ instr.nn ≠ 0x65)) :
    (∃ handler, instruction_handlers instr.opcode = some handler ∧
      ∀ c : g2chip, ∃ s, handler c instr host = some s ∧
        s.V = c.V ∧ s.I = c.I ∧ s.memory = c.memory ∧ s.stack = c.stack ∧ s.sp = c.sp ∧
        s.display = c.display ∧ s.delay_timer = c.delay_timer ∧
        s.sound_timer = c.sound_timer ∧ s.pc = c.pc ∧ s.last_time_ms = c.last_time_ms ∧
        s.host_calls =
          c.host_calls ++ (if c.config.debug_log = true then [host_call.debug_log] else [])) ∧
    (∃ s, g2chip_step chip host = some s ∧ s.pc = chip.pc + 2 ∧
      s.V = chip.V ∧ s.I = chip.I ∧ s.memory = chip.memory ∧ s.stack = chip.stack ∧
      s.sp = chip.sp ∧ s.display = chip.display ∧
      s.delay_timer = (update_timers chip host).delay_timer ∧
      s.sound_timer = (update_timers chip host).sound_timer) := by
  obtain ⟨handler, hh, hall⟩ := unmatched_handler instr host hclass
  constructor
  · refine ⟨handler, hh, fun c => ⟨_, hall c, ?_⟩⟩
    obtain ⟨h1, h2, h3, h4, h5, h6, h7, h8, h9, h10, -, h12⟩ :=
      instruction_not_implemented_frame c instr
    exact ⟨h1, h2, h3, h4, h5, h6, h7, h8, h9, h10, h12⟩
  · have hf2 : fetch_instruction (update_timers chip host) = some instr := by
      rw [(update_timers_fetch chip host).2.2]; exact hf
    have e : g2chip_step chip host = execute_step (update_timers chip host) host := rfl
    rw [e, execute_step_eq _ host instr _ hf2 hh, hall]
    obtain ⟨h1, h2, h3, h4, h5, h6, h7, h8, h9, -, -, -⟩ :=
      instruction_not_implemented_frame
        { update_timers chip host with pc := (update_timers chip host).pc + 2 } instr
    obtain ⟨dt, st, lt, calls, ht⟩ := update_timers_frame chip host
    refine ⟨_, rfl, ?_, ?_, ?_, ?_, ?_, ?_, ?_, ?_, ?_⟩
    · rw [h9]; show (update_timers chip host).pc + 2 = _; rw [ht]
    · rw [h1]; show (update_timers chip host).V = _; rw [ht]
    · rw [h2]; show (update_timers chip host).I = _; rw [ht]
    · rw [h3]; show (update_timers chip host).memory = _; rw [ht]
    · rw [h4]; show (update_timers chip host).stack = _; rw [ht]
    · rw [h5]; show (update_timers chip host).sp = _; rw [ht]
    · rw [h6]; show (update_timers chip host).display = _; rw [ht]
    · rw [h7]
    · rw [h8]

/-- Examples for claim C23: the words `0123`, `812F`, `E100` and `F166` each
leave `pc = 0x202` after one step and only call the debug log. -/
theorem unmatched_noop_witness :
    fetch_instruction (unmatched_chip 0x01 0x23) = some (decode 0x0123) ∧
    ((decode 0x0123).opcode = 0 ∧ (decode 0x0123).nnn ≠ 0x0E0 ∧ (decode 0x0123).nnn ≠ 0x0EE) ∧
    (∃ s, g2chip_step (unmatched_chip 0x01 0x23) quiet_host = some s ∧
      s.pc = (unmatched_chip 0x01 0x23).pc + 2 ∧ s.V = (unmatched_chip 0x01 0x23).V ∧
      s.I = (unmatched_chip 0x01 0x23).I ∧ s.memory = (unmatched_chip 0x01 0x23).memory ∧
      s.stack = (unmatched_chip 0x01 0x23).stack ∧ s.sp = (unmatched_chip 0x01 0x23).sp ∧
      s.display = (unmatched_chip 0x01 0x23).display ∧
      s.delay_timer = (update_timers (unmatched_chip 0x01 0x23) quiet_host).delay_timer ∧
      s.sound_timer = (update_timers (unmatched_chip 0x01 0x23) quiet_host).sound_timer) ∧
    [(g2chip_step (unmatched_chip 0x01 0x23) quiet_host).map (fun s => (s.pc, s.host_calls)),
      (g2chip_step (unmatched_chip 0x81 0x2F) quiet_host).map (fun s => (s.pc, s.host_calls)),
      (g2chip_step (unmatched_chip 0xE1 0x00) quiet_host).map (fun s => (s.pc, s.host_calls)),
      (g2chip_step (unmatched_chip 0xF1 0x66) quiet_host).map (fun s => (s.pc, s.host_calls))] =
      [some (0x202, [host_call.debug_log]), some (0x202, [host_call.debug_log]),
        some (0x202, [host_call.debug_log]), some (0x202, [host_call.debug_log])] :=
  ⟨by decide, by decide,
    (unmatched_noop (unmatched_chip 0x01 0x23) quiet_host (decode 0x0123) (by decide)
      (Or.inl (by decide))).2,
    by decide⟩

/-- Claim C24.  For a step whose fetched instruction is neither `00E0` nor of
class `0xD`, every machine the step returns has the display unchanged, and
with `I ≤ 4080` and `sp ≤ 15` the step does return, with all `64 * 32` cells
unchanged.  A step that executes `00E0` returns with every cell 0; the
execution of `00E0` changes only the display and the program counter (and
calls display-clear if present), the timers being those the timer phase left.
The timer phase never changes the display. -/
theorem display_frame (chip : g2chip) (host : host_answers) (instr : g2chip_instruction)
    (hf : fetch_instruction chip = some instr) :
    (¬ (instr.opcode = 0 ∧ instr.nnn = 0x0E0) → instr.opcode ≠ 0xD →
      (∀ s, g2chip_step chip host = some s → s.display = chip.display) ∧
      (chip.I ≤ 4080 → chip.sp ≤ 15 →
        ∃ s, g2chip_step chip host = some s ∧
          ∀ i, i < G2CHIP_DISPLAY_WIDTH * G2CHIP_DISPLAY_HEIGHT →
            s.display i = chip.display i)) ∧
    (instr.opcode = 0 → instr.nnn = 0x0E0 →
      ∃ s, g2chip_step chip host = some s ∧ (∀ i, s.display i = 0) ∧
        s.pc = chip.pc + 2 ∧ s.V = chip.V ∧ s.I = chip.I ∧ s.memory = chip.memory ∧
        s.stack = chip.stack ∧ s.sp = chip.sp ∧
        s.delay_timer = (update_timers chip host).delay_timer ∧
        s.sound_timer = (update_timers chip host).sound_timer ∧
        s.last_time_ms = (update_timers chip host).last_time_ms ∧
        execute_step chip host =
          some { chip with
            pc := chip.pc + 2, display := fun _ => 0,
            host_calls := if chip.config.display_clear = true then
                chip.host_calls ++ [host_call.display_clear]
              else chip.host_calls }) ∧
    (update_timers chip host).display = chip.display := by
  have hpc := (fetch_instruction_inv chip instr hf).1
  refine ⟨?_, ?_, (update_timers_display_kept chip host).1⟩
  · intro h00 hD
    have hno : ∀ i2, fetch_instruction chip = some i2 →
        ¬ (i2.opcode = 0 ∧ i2.nnn = 0x0E0) ∧ i2.opcode ≠ 13 := by
      intro i2 h2
      rw [hf] at h2
      cases h2
      exact ⟨h00, hD⟩
    have hk := g2chip_step_display_kept chip host hno
    refine ⟨fun s hs => (hk s hs).1, fun hI hsp => ?_⟩
    obtain ⟨s, hs⟩ := g2chip_step_returns chip host hpc hI hsp
    exact ⟨s, hs, fun i _ => by rw [(hk s hs).1]⟩
  · intro hop hnnn
    have hf2 : fetch_instruction (update_timers chip host) = some instr := by
      rw [(update_timers_fetch chip host).2.2]; exact hf
    have e : g2chip_step chip host = execute_step (update_timers chip host) host := rfl
    obtain ⟨dt, st, lt, calls, ht⟩ := update_timers_frame chip host
    refine ⟨_, e.trans (execute_step_clear _ host instr hf2 hop hnnn), fun _ => rfl, ?_, ?_, ?_,
      ?_, ?_, ?_, rfl, rfl, rfl, execute_step_clear chip host instr hf hop hnnn⟩
    · show (update_timers chip host).pc + 2 = _; rw [ht]
    · show (update_timers chip host).V = _; rw [ht]
    · show (update_timers chip host).I = _; rw [ht]
    · show (update_timers chip host).memory = _; rw [ht]
    · show (update_timers chip host).stack = _; rw [ht]
    · show (update_timers chip host).sp = _; rw [ht]

/-- Examples for claim C24: with cell `(63, 0)` lit, a step on `00E0` clears it,
moves `pc` to `0x202` and keeps `V3 = 9`; a step on `63E0` keeps the cell lit. -/
theorem display_frame_witness :
    fetch_instruction clear_chip = some (decode 0x00E0) ∧
    (decode 0x00E0).opcode = 0 ∧ (decode 0x00E0).nnn = 0x0E0 ∧
    clear_chip.display 63 = 1 ∧
    (∃ s, g2chip_step clear_chip quiet_host = some s ∧ (∀ i, s.display i = 0) ∧
      s.pc = clear_chip.pc + 2 ∧ s.V = clear_chip.V) ∧
    (g2chip_step clear_chip quiet_host).map
      (fun s => (s.display 63, s.pc, s.V 3, s.host_calls)) =
      some (0, 0x202, 9, [host_call.display_clear]) ∧
    fetch_instruction { clear_chip with memory := upd clear_chip.memory 0x200 0x63 } =
      some (decode 0x63E0) ∧
    (g2chip_step { clear_chip with memory := upd clear_chip.memory 0x200 0x63 } quiet_host).map
      (fun s => (s.display 63, s.pc, s.V 3)) = some (1, 0x202, 0xE0) :=
  ⟨by decide, by decide, by decide, by decide,
    ((display_frame clear_chip quiet_host (decode 0x00E0) (by decide)).2.1 (by decide)
      (by decide)).elim (fun s h => ⟨s, h.1, h.2.1, h.2.2.1, h.2.2.2.1⟩),
    by decide, by decide, by decide⟩

/-- Claim C25.  With `pc ≤ 4094`, `I ≤ 4080` and `sp ≤ 15`, for every memory
contents (every instruction word) and every host answer, `g2chip_step` returns
a machine: no memory, register, stack or display access and no dispatch leaves
its array.  The fetched word has class, `x`, `y` and `n` all below 16, and the
class has a handler. -/
theorem in_bounds_stepping (chip : g2chip) (host : host_answers)
    (hpc : chip.pc ≤ 4094) (hI : chip.I ≤ 4080) (hsp : chip.sp ≤ 15) :
    (∃ s, g2chip_step chip host = some s) ∧
    (∃ instr handler, fetch_instruction chip = some instr ∧ instr.opcode < 16 ∧
      instr.x < 16 ∧ instr.y < 16 ∧ instr.n < 16 ∧
      instruction_handlers instr.opcode = some handler) := by
  refine ⟨g2chip_step_returns chip host hpc hI hsp, ?_⟩
  have hf := fetch_instruction_some chip hpc
  obtain ⟨-, -, hop, hx, hy, hn, -, -⟩ :=
    decode_fields (((chip.memory chip.pc <<< 8) ||| chip.memory (chip.pc + 1)) % 65536)
      (Nat.mod_lt _ (by decide))
  obtain ⟨handler, hh⟩ := instruction_handlers_lt _ hop
  exact ⟨_, handler, hf, hop, hx, hy, hn, hh⟩

/-- Examples for claim C25: at the edge `pc = 4094`, `I = 4080`, `sp = 15` the
instruction `FF55` stores as far as `memory[4095]` and the step returns; with
`I = 4081` the same step leaves the memory and nothing is returned. -/
theorem in_bounds_stepping_witness :
    (edge_chip 4080).pc ≤ 4094 ∧ (edge_chip 4080).I ≤ 4080 ∧ (edge_chip 4080).sp ≤ 15 ∧
    (∃ s, g2chip_step (edge_chip 4080) quiet_host = some s) ∧
    fetch_instruction (edge_chip 4080) = some (decode 0xFF55) ∧
    (g2chip_step (edge_chip 4080) quiet_host).map (fun s => (s.pc, s.memory 4095)) =
      some (4096, 0) ∧
    (g2chip_step (edge_chip 4081) quiet_host).map (fun s => s.pc) = none :=
  ⟨by decide, by decide, by decide,
    (in_bounds_stepping (edge_chip 4080) quiet_host (by decide) (by decide) (by decide)).1,
    by decide, by decide, by decide⟩

/-- Claim C26.  In every machine reachable from a reset (of any machine, so
also from `g2chip_create` and from a reset in mid-run) by loads and in-bounds
steps, every display cell is 0 or 1, so a cell equals 1 exactly when it is not
0.  Every step from such a machine only adds host calls in which each
draw-pixel call reports the state 0 or 1; a reset adds no draw-pixel call and
a load adds no call. -/
theorem display_cells_binary (chip : g2chip) (h : reachable chip) :
    (∀ i, chip.display i = 0 ∨ chip.display i = 1) ∧
    (∀ i, chip.display i = 1 ↔ chip.display i ≠ 0) ∧
    (∀ host s, g2chip_step chip host = some s →
      ∃ calls, s.host_calls = chip.host_calls ++ calls ∧
        ∀ x y st, host_call.display_draw_pixel x y st ∈ calls → st = 0 ∨ st = 1) ∧
    (∀ host, ∃ calls, (g2chip_reset chip host).host_calls = chip.host_calls ++ calls ∧
      ∀ x y st, host_call.display_draw_pixel x y st ∉ calls) ∧
    (∀ rom_data size, (g2chip_load_rom chip rom_data size).2.host_calls = chip.host_calls) := by
  have hle := reachable_display_le chip h
  refine ⟨fun i => by have := hle i; omega, fun i => by have := hle i; omega, ?_, ?_, ?_⟩
  · intro host s hs
    obtain ⟨-, l, hl, hb⟩ := g2chip_step_binary chip host hle s hs
    exact ⟨l, hl, fun x y st hm => by have := hb x y st hm; omega⟩
  · intro host
    rw [g2chip_reset_eq]
    dsimp only
    split
    · exact ⟨[host_call.display_clear], rfl, fun x y st hm => by simp at hm⟩
    · exact ⟨[], (List.append_nil _).symm, fun _ _ _ hm => absurd hm (List.not_mem_nil _)⟩
  · intro rom_data size
    exact (g2chip_load_rom_display chip rom_data size).2

/-- Example for claim C26: after reset and a load of `A050 D001`, two steps
draw the first row of the glyph of 0: cells `(0, 0)` to `(3, 0)` hold 1 and
four draw-pixel calls report the state 1. -/
theorem display_cells_binary_witness :
    reachable glyph_draw_chip ∧
    (∀ i, glyph_draw_chip.display i = 0 ∨ glyph_draw_chip.display i = 1) ∧
    (run_steps [quiet_host, quiet_host] glyph_draw_chip).map
      (fun s => ([s.display 0, s.display 3, s.display 4], s.host_calls, s.V 15)) =
      some ([1, 1, 0],
        [host_call.display_draw_pixel 0 0 1, host_call.display_draw_pixel 1 0 1,
          host_call.display_draw_pixel 2 0 1, host_call.display_draw_pixel 3 0 1], 0) :=
  ⟨reachable.load_rom _ _ _ (reachable.reset _ _),
    (display_cells_binary glyph_draw_chip (reachable.load_rom _ _ _ (reachable.reset _ _))).1,
    by decide⟩

/-- Claim C27.  For `8Fy4` (destination register 15), any `y` and all register
contents, the handler returns with `V15 = (V15 + Vy) mod 256` computed from the
values before the instruction (`(V15 + V15) mod 256` when `y = 15`): the sum
overwrites the carry flag.  No other register changes. -/
theorem add_into_flag_register (chip : g2chip) (instr : g2chip_instruction)
    (hn : instr.n = 0x4) (hx : instr.x = 15) (hy : instr.y < 16) :
    ∃ s, instruction_handler_opcode_8 chip instr = some s ∧
      s.V 15 = (chip.V 15 + chip.V instr.y) % 256 ∧
      (instr.y = 15 → s.V 15 = (chip.V 15 + chip.V 15) % 256) ∧
      (∀ j, j ≠ 15 → s.V j = chip.V j) := by
  have hmask : ∀ a : Nat, a &&& 0xFF = a % 256 := fun a => and_mask a 8 _ (by decide)
  have e := opcode_8_case_4 chip instr hn (by omega) hy
  rw [hx] at e
  refine ⟨_, e, ?_, ?_, ?_⟩
  · simp only [hmask, upd_same]
    omega
  · intro hy15
    simp only [hmask, upd_same, hy15]
    omega
  · intro j hj
    show upd (upd chip.V 15 _) 15 _ j = chip.V j
    rw [upd_other _ _ _ _ hj, upd_other _ _ _ _ hj]

/-- Examples for claim C27: `V15 = 0xFF`, `V1 = 0x02` leaves `V15 = 0x01`;
`V15 = 0x10`, `V1 = 0x20` leaves `V15 = 0x30`; `8FF4` on `V15 = 0x90` leaves
`V15 = 0x20`. -/
theorem add_into_flag_register_witness :
    (decode 0x8F14).n = 0x4 ∧ (decode 0x8F14).x = 15 ∧ (decode 0x8F14).y < 16 ∧
    (∃ s, instruction_handler_opcode_8 (chip_with_registers 0 0x02 0xFF) (decode 0x8F14) =
        some s ∧
      s.V 15 = (0xFF + 0x02) % 256 ∧
      ((decode 0x8F14).y = 15 → s.V 15 = (0xFF + 0xFF) % 256) ∧
      (∀ j, j ≠ 15 → s.V j = (chip_with_registers 0 0x02 0xFF).V j)) ∧
    (instruction_handler_opcode_8 (chip_with_registers 0 0x02 0xFF) (decode 0x8F14)).map
      (fun s => s.V 15) = some 0x01 ∧
    (instruction_handler_opcode_8 (chip_with_registers 0 0x20 0x10) (decode 0x8F14)).map
      (fun s => s.V 15) = some 0x30 ∧
    (instruction_handler_opcode_8 (chip_with_registers 0 0 0x90) (decode 0x8FF4)).map
      (fun s => s.V 15) = some 0x20 :=
  ⟨by decide, by decide, by decide,
    add_into_flag_register (chip_with_registers 0 0x02 0xFF) (decode 0x8F14) (by decide)
      (by decide) (by decide),
    by decide, by decide, by decide⟩

/-- Claim C28.  Take two machines with the same configuration, registers and
program counter, one fetching `Ex9E` and the other `ExA1` with the same `x`,
and one host answer.  Both steps return.  With the key-is-pressed callback
present exactly one of them skips (`pc` = fetch address + 4) and the other
does not (`pc` = fetch address + 2); `Ex9E` is the one that skips exactly when
the host answers non-zero.  With the callback absent neither skips: each step
returns the machine the timer phase left with `pc` = fetch address + 2, so
registers, index register, memory, stack, stack pointer and display are
unchanged. -/
theorem key_skips (c1 c2 : g2chip) (host : host_answers) (i1 i2 : g2chip_instruction)
    (hcfg : c2.config = c1.config) (hV : c2.V = c1.V) (hpc : c2.pc = c1.pc)
    (hf1 : fetch_instruction c1 = some i1) (hf2 : fetch_instruction c2 = some i2)
    (ho1 : i1.opcode = 0xE) (ho2 : i2.opcode = 0xE)
    (hn1 : i1.nn = 0x9E) (hn2 : i2.nn = 0xA1) (hx : i2.x = i1.x) :
    ∃ s1 s2, g2chip_step c1 host = some s1 ∧ g2chip_step c2 host = some s2 ∧
      (c1.config.key_is_pressed = true →
        ((s1.pc = c1.pc + 4 ∧ s2.pc = c1.pc + 2) ∨ (s1.pc = c1.pc + 2 ∧ s2.pc = c1.pc + 4)) ∧
        (s1.pc = c1.pc + 4 ↔ host.key_is_pressed (c1.V i1.x) ≠ 0)) ∧
      (c1.config.key_is_pressed = false →
        s1 = { update_timers c1 host with pc := c1.pc + 2 } ∧
        s2 = { update_timers c2 host with pc := c1.pc + 2 } ∧
        s1.V = c1.V ∧ s1.I = c1.I ∧ s1.memory = c1.memory ∧ s1.stack = c1.stack ∧
        s1.sp = c1.sp ∧ s1.display = c1.display ∧
        s2.V = c2.V ∧ s2.I = c2.I ∧ s2.memory = c2.memory ∧ s2.stack = c2.stack ∧
        s2.sp = c2.sp ∧ s2.display = c2.display) := by
  have e1 := g2chip_step_key c1 host i1 hf1 ho1 (Or.inl hn1)
  have e2 := g2chip_step_key c2 host i2 hf2 ho2 (Or.inr hn2)
  rw [hcfg, hV, hpc, hx] at e2
  refine ⟨_, _, e1, e2, ?_, ?_⟩
  · intro hc
    by_cases hk : host.key_is_pressed (c1.V i1.x) = 0
    · simp [hc, hk, hn1, hn2]
    · simp [hc, hk, hn1, hn2]
  · intro hc
    obtain ⟨dt, st, lt, calls, ht⟩ := update_timers_frame c1 host
    obtain ⟨dt2, st2, lt2, calls2, ht2⟩ := update_timers_frame c2 host
    simp [hc, ht, ht2]

/-- Examples for claim C28: with the callback present and the key pressed
`E09E` ends at `0x204` and `E0A1` at `0x202`; with the key not pressed it is
the other way round; with the callback absent both end at `0x202`. -/
theorem key_skips_witness :
    (key_chip true 0xA1).config = (key_chip true 0x9E).config ∧
    (key_chip true 0xA1).V = (key_chip true 0x9E).V ∧
    (key_chip true 0xA1).pc = (key_chip true 0x9E).pc ∧
    fetch_instruction (key_chip true 0x9E) = some (decode 0xE09E) ∧
    fetch_instruction (key_chip true 0xA1) = some (decode 0xE0A1) ∧
    (decode 0xE09E).opcode = 0xE ∧ (decode 0xE0A1).opcode = 0xE ∧
    (decode 0xE09E).nn = 0x9E ∧ (decode 0xE0A1).nn = 0xA1 ∧
    (decode 0xE0A1).x = (decode 0xE09E).x ∧
    (∃ s1 s2, g2chip_step (key_chip true 0x9E) (key_host 1) = some s1 ∧
      g2chip_step (key_chip true 0xA1) (key_host 1) = some s2) ∧
    [(g2chip_step (key_chip true 0x9E) (key_host 1)).map (fun s => s.pc),
      (g2chip_step (key_chip true 0xA1) (key_host 1)).map (fun s => s.pc),
      (g2chip_step (key_chip true 0x9E) (key_host 0)).map (fun s => s.pc),
      (g2chip_step (key_chip true 0xA1) (key_host 0)).map (fun s => s.pc),
      (g2chip_step (key_chip false 0x9E) (key_host 0)).map (fun s => s.pc),
      (g2chip_step (key_chip false 0xA1) (key_host 0)).map (fun s => s.pc)] =
      [some 0x204, some 0x202, some 0x202, some 0x204, some 0x202, some 0x202] :=
  ⟨rfl, rfl, rfl, by decide, by decide, by decide, by decide, by decide, by decide, by decide,
    (key_skips (key_chip true 0x9E) (key_chip true 0xA1) (key_host 1) (decode 0xE09E)
      (decode 0xE0A1) rfl rfl rfl (by decide) (by decide) (by decide) (by decide) (by decide)
      (by decide) (by decide)).elim
      (fun s1 h => h.elim (fun s2 h2 => ⟨s1, s2, h2.1, h2.2.1⟩)),
    by decide⟩

end G2chip
